import Mathlib

/-!
# evmapd: input event remapping daemon

A shallow embedding of `evmapd.c`: the capability synthesis performed before
the event loop, the per-axis auto-calibration (normalisation) code and the
event loop itself, followed by theorems about them.

Conventions of the embedding
* `int` is 32 bits wide: every `int` operation is followed by `wrap`.
  `long` operands are 32-bit values widened to 64 bits, so `long` arithmetic
  is exact.  Integer division truncates (`Int.tdiv`) and traps on a zero
  divisor (`none`).
* `long` is 64 bits wide.  A capability array (`ibits[f]`, `obits[f]`,
  `rbits[f]`) is given by its bits, `Int → Bool`, bit `b` of the array being
  bit `b % 64` of the word `b / 64`.  `GET` reads one bit.  `SET` is the macro
  taken bit by bit: its two shifts are shifts of an `int`, made the way the
  shift instruction of x86-64 makes them (count modulo 32), so that a single
  bit is written only for the offsets below 31 within a word (`SET_low`);
  `SET_apply` tells which bits are written otherwise.  `GET64` and `SET64`
  are the same macros on the words.
* `DEBUG` is defined as 1, which makes the macro `SND` a sequence of
  statements: in `if (j) SND;` the flag guards the first of them only.
* A rule table is the list of its rows before the `-1` sentinel row written by
  `str_int`; the `NULL` table is the empty list (`str_int` leaves `NULL`
  exactly when no string matched).
-/

namespace Evmapd

/-! ## Constants of `linux/input.h` -/

def EV_EV : Int := 0
def EV_KEY : Int := 1
def EV_REL : Int := 2
def EV_ABS : Int := 3
def EV_MAX : Int := 31

/-! ## C `int` arithmetic -/

/-- Reduction of an integer to the range of a 32-bit signed `int`. -/
def wrap (x : Int) : Int := (x + 2147483648) % 4294967296 - 2147483648

def cadd (a b : Int) : Int := wrap (a + b)
def csub (a b : Int) : Int := wrap (a - b)
def cmul (a b : Int) : Int := wrap (a * b)

/-- C division of two `int`s: truncating; traps (`none`) when the divisor is
zero or the quotient is not representable. -/
def cdiv (a b : Int) : Option Int :=
  if b = 0 ∨ (a = -2147483648 ∧ b = -1) then none else some (Int.tdiv a b)

/-- Assignment of an `int` to the `__u16` field `ev.code`. -/
def u16 (x : Int) : Int := x % 65536

/-! ## Bitmaps -/

/-- Conversion of an `int` to `unsigned long`, 64 bits wide. -/
def toULong (x : Int) : Nat := (x % 18446744073709551616).toNat

/-- The shift `x << n` of an `int`: the low 32 bits of `x * 2 ^ n` for a count
below 32; for a count of 32 or more the shift is undefined, and `ub x n` stands
for whatever it yields (reduced to an `int`). -/
def shl (ub : Int → Nat → Int) (x : Int) (n : Nat) : Int :=
  if n < 32 then wrap (x * ((2 ^ n : Nat) : Int)) else wrap (ub x n)

/-- The shift instruction of x86-64 on a 32-bit operand: the count is taken
modulo 32. -/
def shlMasked (x : Int) (n : Nat) : Int := x * ((2 ^ (n % 32) : Nat) : Int)

/-- Macro `GET(c, b)`, `((c[POS(c, b)] >> OFF(c, b)) & 1)`: the array `c` of
`unsigned long` is given by its bits, bit `b` of the array being bit
`OFF(c, b) = b % 64` of the word `POS(c, b) = b / 64`. -/
def GET (c : Int → Bool) (b : Int) : Bool := c b

/-- Macro `SET(c, b, v)`,
`(c)[POS] = (((c)[POS] & ~(1 << OFF)) | (((v) > 0) << OFF))`, bit by bit: a
bit of the word of `b` stays set where the mask `~(1 << OFF)` has a bit, and
is set where `((v) > 0) << OFF` has one.  Both shifts are shifts of an `int`,
made by the shift instruction of x86-64, and `&` and `|` convert their `int`
operand to `unsigned long`. -/
def SET (c : Int → Bool) (b : Int) (v : Int) : Int → Bool :=
  fun i =>
    if i / 64 = b / 64 then
      (c i && (toULong (-(shl shlMasked 1 (b % 64).toNat) - 1)).testBit (i % 64).toNat) ||
        (toULong (shl shlMasked (if v > 0 then 1 else 0) (b % 64).toNat)).testBit (i % 64).toNat
    else c i

/-! ## Data -/

/-- Record `struct input_event`. -/
structure Event where
  time : Int
  type : Int
  code : Int
  value : Int
deriving DecidableEq, Repr

/-- A row of a two-column table (`KKM`, `RRM`, `RAM`, `ARM`, `AAM`). -/
structure Row2 where
  c0 : Int
  c1 : Int
deriving DecidableEq, Repr

/-- A row of a three-column table (`KRM`, `KAM`, `RKM`, `AKM`). -/
structure Row3 where
  c0 : Int
  c1 : Int
  c2 : Int
deriving DecidableEq, Repr

/-- The globals and locals of `main` that are fixed once the command line is
parsed.  `nign` .. `nspkmin` are non-negative (`NONEG`). -/
structure Config where
  kkm : List Row2
  krm : List Row3
  kam : List Row3
  rkm : List Row3
  rrm : List Row2
  ram : List Row2
  akm : List Row3
  arm : List Row2
  aam : List Row2
  nm : List Int
  amin : Int
  amax : Int
  rmin : Int
  rmax : Int
  nign : Nat
  nrng : Nat
  nrst : Nat
  nspk : Nat
  nspkmin : Nat

/-- The four per-axis arrays of a `struct uinput_user_dev`. -/
structure AbsInfo where
  absmin : Int → Int
  absmax : Int → Int
  absfuzz : Int → Int
  absflat : Int → Int

/-- One row `ac[code]` of the auto-calibration array. -/
structure AC where
  IGN : Int
  RDY : Int
  RMIN : Int
  RMAX : Int
  ACNT : Int
  AMIN : Int
  AMAX : Int
  LAST : Int
deriving DecidableEq, Repr

/-! ## Sentinel-terminated table scans -/

/-- The loop `for (i = 0; T(i, 0) != -1; ++i) if (hit) { ...; break; }`:
the first row that hits, looking no further than the sentinel. -/
def scan {R : Type} (c0 : R → Int) (hit : R → Bool) : List R → Option R
  | [] => none
  | r :: rs => if c0 r = -1 then none else if hit r then some r else scan c0 hit rs

/-! ## Auto-calibration -/

/-- Outcome of the auto-calibration code for one matching entry of `nm`. -/
inductive NormOut where
  | drop (ac : AC)
  | pass (ac : AC) (v : Int)
  | trap (ac : AC)
deriving DecidableEq, Repr

/-- The spike test `labs((long)v - (long)ref) * (long)nspk > (long)irng`
guarded by `(nspk > 0) && (nspkmin < irng)`. -/
def spike (cfg : Config) (irng ref v : Int) : Bool :=
  decide ((cfg.nspk : Int) > 0 ∧ (cfg.nspkmin : Int) < irng ∧
    |v - ref| * (cfg.nspk : Int) > irng)

/-- The test `(nrng == 0) || ((long)(hi - lo) * (long)nrng >= irng)`. -/
def covers (cfg : Config) (irng lo hi : Int) : Bool :=
  decide (cfg.nrng = 0 ∨ csub hi lo * (cfg.nrng : Int) ≥ irng)

/-- The first three statements of the arm `AC[ACNT] > 0` of the reset code:
`++AC[ACNT]` and the widening of `(AMIN, AMAX)` by the sample. -/
def auxWiden (ac : AC) (v : Int) : AC :=
  let a1 := { ac with ACNT := cadd ac.ACNT 1 }
  let a2 := if v < a1.AMIN then { a1 with AMIN := v } else a1
  if v > a2.AMAX then { a2 with AMAX := v } else a2

/-- The block "Auto-calibration reset code" (entered when `nrst > 0`); the
flag tells whether `(RMIN, RMAX)` were replaced by `(AMIN, AMAX)`. -/
def resetCode (cfg : Config) (irng : Int) (ac : AC) (v : Int) : AC × Bool :=
  if ac.ACNT > 0 then
    if (auxWiden ac v).ACNT ≥ (cfg.nrst : Int) then
      if covers cfg irng (auxWiden ac v).AMIN (auxWiden ac v).AMAX then
        ({ auxWiden ac v with RMIN := (auxWiden ac v).AMIN, RMAX := (auxWiden ac v).AMAX,
                              AMIN := 0, AMAX := 0, ACNT := 0 }, true)
      else
        ({ auxWiden ac v with ACNT := csub (cfg.nrst : Int) 1 }, false)
    else (auxWiden ac v, false)
  else if ac.AMIN = 0 then ({ ac with AMIN := v }, false)
  else if ac.AMIN < v then ({ ac with AMAX := v, ACNT := cadd ac.ACNT 1 }, false)
  else if ac.AMIN > v then
    ({ ac with AMAX := ac.AMIN, AMIN := v, ACNT := cadd ac.ACNT 1 }, false)
  else (ac, false)

/-- The state after the spike test of the READY branch passed. -/
def afterSpike (cfg : Config) (irng : Int) (ac : AC) (v : Int) : AC :=
  if (cfg.nspk : Int) > 0 ∧ (cfg.nspkmin : Int) < irng then { ac with LAST := v } else ac

/-- The state after the reset code of the READY branch, with the swap flag. -/
def afterReset (cfg : Config) (irng : Int) (ac : AC) (v : Int) : AC × Bool :=
  if cfg.nrst > 0 then resetCode cfg irng (afterSpike cfg irng ac v) v
  else (afterSpike cfg irng ac v, false)

/-- The two statements widening `(RMIN, RMAX)` by the sample. -/
def widen (ac : AC) (v : Int) : AC :=
  let a1 := if v < ac.RMIN then { ac with RMIN := v } else ac
  if v > a1.RMAX then { a1 with RMAX := v } else a1

/-- "The actual auto-calibration formula". -/
def rescale (irng smin : Int) (ac : AC) (v : Int) : Option Int :=
  (cdiv (cmul irng (csub v ac.RMIN)) (csub ac.RMAX ac.RMIN)).map (fun q => cadd q smin)

/-- The branch `if (AC[RDY])`. -/
def normReady (cfg : Config) (irng smin : Int) (ac : AC) (v : Int) : NormOut :=
  if spike cfg irng ac.LAST v then NormOut.drop ac
  else
    let a := widen (afterReset cfg irng ac v).1 v
    if covers cfg irng a.RMIN a.RMAX then
      match rescale irng smin a v with
      | some w => NormOut.pass a w
      | none => NormOut.trap a
    else NormOut.pass a v

/-- The `else` branch of `if (AC[RDY])`. -/
def normNotReady (cfg : Config) (irng : Int) (ac : AC) (v : Int) : NormOut :=
  if ac.IGN > 0 then NormOut.drop { ac with IGN := csub ac.IGN 1 }
  else if ac.RMIN = 0 then NormOut.pass { ac with RMIN := v } v
  else if spike cfg irng ac.RMIN v then NormOut.drop ac
  else
    let a := afterSpike cfg irng ac v
    if a.RMIN < v then NormOut.pass { a with RMAX := v, RDY := 1 } v
    else if a.RMIN > v then NormOut.pass { a with RMAX := a.RMIN, RMIN := v, RDY := 1 } v
    else NormOut.pass a v

/-- The body of `if (nm[i] == ev.code)`. -/
def normOnce (cfg : Config) (irng smin : Int) (ac : AC) (v : Int) : NormOut :=
  if ac.RDY ≠ 0 then normReady cfg irng smin ac v else normNotReady cfg irng ac v

/-- The loop `for (i = 0; nm[i] != -1; ++i) if (nm[i] == ev.code) ...`: a
`drop` leaves the loop through `break` with the value of the event as it is;
`none` is a trap. -/
def normLoop (cfg : Config) (irng smin code : Int) : List Int → AC → Int → Option (AC × Int)
  | [], ac, v => some (ac, v)
  | n :: ns, ac, v =>
    if n = -1 then some (ac, v)
    else if n = code then
      match normOnce cfg irng smin ac v with
      | NormOut.drop a => some (a, v)
      | NormOut.pass a w => normLoop cfg irng smin code ns a w
      | NormOut.trap _ => none
    else normLoop cfg irng smin code ns ac v

/-! ## The event loop -/

/-- What the loop has produced so far: the key array `rbits[EV_KEY]` (cleared
by `memset` before the loop) and the events written to the output device. -/
structure Out where
  shadow : Int → Bool
  sent : List Event

/-- Macro `SND`: write the event; a key event is recorded in `rbits[EV_KEY]`. -/
def SND (o : Out) (ev : Event) : Out :=
  { shadow := if ev.type = EV_KEY then SET o.shadow ev.code ev.value else o.shadow,
    sent := o.sent ++ [ev] }

/-- The statement `if (GET(rbits[EV_KEY], k)) { ev.code = k; ev.value = 0; SND; }`. -/
def release (k : Int) (p : Out × Event) : Out × Event :=
  if GET p.1.shadow k then
    let e := { p.2 with code := u16 k, value := 0 }
    (SND p.1 e, e)
  else p

/-- The three-way body shared by the RK and AK branches, after `ev.type = EV_KEY`:
`lo` selects the first arm, `hi` the second; the result carries the flag `j`. -/
def keyPair (r : Row3) (lo hi : Bool) (o : Out) (ev : Event) : Out × Event × Bool :=
  let ev := { ev with type := EV_KEY }
  if lo then
    let p := release r.c2 (o, ev)
    (p.1, { p.2 with code := u16 r.c1, value := 1 }, true)
  else if hi then
    let p := release r.c1 (o, ev)
    (p.1, { p.2 with code := u16 r.c2, value := 1 }, true)
  else
    let p := release r.c2 (release r.c1 (o, { ev with value := 0 }))
    (p.1, p.2, false)

/-- The per-device and per-run data read by the loop: the input device
description `uidev`, the output device description `uodev`. -/
structure Dev where
  uidev : AbsInfo
  uodev : AbsInfo

/-- The state carried from one iteration of the loop to the next. -/
structure LoopState where
  shadow : Int → Bool
  ac : Int → AC

/-- The value assigned by the KR branch. -/
def krValue (cfg : Config) (r : Row3) (ev : Event) : Int :=
  if ev.value > 0 then (if ev.code = r.c0 then cfg.rmin else cfg.rmax)
  else cadd cfg.rmin (Int.tdiv (csub cfg.rmax cfg.rmin) 2)

/-- The value assigned by the KA branch. -/
def kaValue (dev : Dev) (r : Row3) (ev : Event) : Int :=
  if ev.value > 0 then
    (if ev.code = r.c0 then dev.uodev.absmin r.c2 else dev.uodev.absmax r.c2)
  else cadd (dev.uodev.absmin r.c2)
    (Int.tdiv (csub (dev.uodev.absmax r.c2) (dev.uodev.absmin r.c2)) 2)

/-- Case `EV_KEY` of the switch. -/
def caseKey (cfg : Config) (dev : Dev) (o : Out) (ev : Event) : Option (Out × Event × Bool) :=
  match scan Row2.c0 (fun r => decide (r.c0 = ev.code)) cfg.kkm with
  | some r => some (o, { ev with code := u16 r.c1 }, true)
  | none =>
    match scan Row3.c0 (fun r => decide (r.c0 = ev.code ∨ r.c1 = ev.code)) cfg.krm with
    | some r => some (o, { ev with type := EV_REL, value := krValue cfg r ev, code := u16 r.c2 }, true)
    | none =>
      match scan Row3.c0 (fun r => decide (r.c0 = ev.code ∨ r.c1 = ev.code)) cfg.kam with
      | some r =>
        some (o, { ev with type := EV_ABS, value := kaValue dev r ev, code := u16 r.c2 }, true)
      | none => some (o, ev, true)

/-- The value assigned by the RA branch: clamp, then scale. -/
def raValue (cfg : Config) (dev : Dev) (r : Row2) (v : Int) : Option Int :=
  let v1 := if v < cfg.rmin then cfg.rmin else v
  let v2 := if v1 > cfg.rmax then cfg.rmax else v1
  (cdiv (cmul (csub v2 cfg.rmin) (csub (dev.uodev.absmax r.c1) (dev.uodev.absmin r.c1)))
    (csub cfg.rmax cfg.rmin)).map (fun q => cadd q (dev.uodev.absmin r.c1))

/-- Case `EV_REL` of the switch. -/
def caseRel (cfg : Config) (dev : Dev) (o : Out) (ev : Event) : Option (Out × Event × Bool) :=
  match scan Row3.c0 (fun r => decide (r.c0 = ev.code)) cfg.rkm with
  | some r => some (keyPair r (decide (ev.value < 0)) (decide (ev.value > 0)) o ev)
  | none =>
    match scan Row2.c0 (fun r => decide (r.c0 = ev.code)) cfg.rrm with
    | some r => some (o, { ev with code := u16 r.c1 }, true)
    | none =>
      match scan Row2.c0 (fun r => decide (r.c0 = ev.code)) cfg.ram with
      | some r =>
        (raValue cfg dev r ev.value).map
          (fun w => (o, { ev with type := EV_ABS, code := u16 r.c1, value := w }, true))
      | none => some (o, ev, true)

/-- The local `irng` of the loop. -/
def irngOf (dev : Dev) (code : Int) : Int :=
  csub (dev.uidev.absmax code) (dev.uidev.absmin code)

/-- The value assigned by the AR branch. -/
def arValue (cfg : Config) (dev : Dev) (ev : Event) : Option Int :=
  (cdiv (cmul (csub ev.value (dev.uidev.absmin ev.code)) (csub cfg.rmax cfg.rmin))
    (irngOf dev ev.code)).map (fun q => cadd cfg.rmin q)

/-- The value assigned by the AA branch. -/
def aaValue (dev : Dev) (r : Row2) (ev : Event) : Option Int :=
  (cdiv (cmul (csub ev.value (dev.uidev.absmin ev.code))
      (csub (dev.uodev.absmax r.c1) (dev.uodev.absmin r.c1)))
    (irngOf dev ev.code)).map (fun q => cadd (dev.uodev.absmin r.c1) q)

/-- The three table scans of case `EV_ABS`, after the auto-calibration. -/
def absTables (cfg : Config) (dev : Dev) (o : Out) (ev : Event) : Option (Out × Event × Bool) :=
  match scan Row3.c0 (fun r => decide (r.c0 = ev.code)) cfg.akm with
  | some r =>
    some (keyPair r
      (decide (ev.value ≤ cadd (dev.uidev.absmin ev.code) (Int.tdiv (irngOf dev ev.code) 4)))
      (decide (ev.value ≥ csub (dev.uidev.absmax ev.code) (Int.tdiv (irngOf dev ev.code) 4)))
      o ev)
  | none =>
    match scan Row2.c0 (fun r => decide (r.c0 = ev.code)) cfg.arm with
    | some r =>
      (arValue cfg dev ev).map
        (fun w => (o, { ev with type := EV_REL, value := w, code := u16 r.c1 }, true))
    | none =>
      match scan Row2.c0 (fun r => decide (r.c0 = ev.code)) cfg.aam with
      | some r => (aaValue dev r ev).map (fun w => (o, { ev with value := w, code := u16 r.c1 }, true))
      | none => some (o, ev, true)

/-- The end of an iteration, `if (j) SND;`, then the next state.  `DEBUG` is
defined as 1, so `SND` stands for
`if (verbose) info(...); ret = write(...); RETERR(...); if (ev.type == EV_KEY) SET(...);`:
the flag `j` guards the message alone, and the event left in `ev` is written
and recorded whatever the flag. -/
def finish (ac : Int → AC) (p : Out × Event × Bool) : LoopState × List Event :=
  (({ shadow := (SND p.1 p.2.1).shadow, ac := ac } : LoopState), (SND p.1 p.2.1).sent)

/-- One iteration of `while (1)` after `RCV`: the switch and the final
`if (j) SND;`.  The result is the next state and the events written during
the iteration; `none` is a trap (division by zero), which ends the process. -/
def step (cfg : Config) (dev : Dev) (s : LoopState) (ev : Event) :
    Option (LoopState × List Event) :=
  let o : Out := { shadow := s.shadow, sent := [] }
  if ev.type = EV_KEY then (caseKey cfg dev o ev).map (finish s.ac)
  else if ev.type = EV_REL then (caseRel cfg dev o ev).map (finish s.ac)
  else if ev.type = EV_ABS then
    match normLoop cfg (irngOf dev ev.code) (dev.uidev.absmin ev.code) ev.code
        cfg.nm (s.ac ev.code) ev.value with
    | none => none
    | some (a, v) =>
      (absTables cfg dev o { ev with value := v }).map
        (finish (fun c => if c = ev.code then a else s.ac c))
  else some (finish s.ac (o, ev, true))

/-- The state at loop entry: `rbits` cleared, `ac` zeroed with `IGN = nign`. -/
def initState (cfg : Config) : LoopState :=
  { shadow := fun _ => false,
    ac := fun _ => { IGN := cfg.nign, RDY := 0, RMIN := 0, RMAX := 0, ACNT := 0,
                     AMIN := 0, AMAX := 0, LAST := 0 } }

/-- The loop over a sequence of received events: the state reached and all
events written.  A trap ends the run. -/
def run (cfg : Config) (dev : Dev) : LoopState → List Event → LoopState × List Event
  | s, [] => (s, [])
  | s, e :: es =>
    match step cfg dev s e with
    | none => (s, [])
    | some (s1, out) => ((run cfg dev s1 es).1, out ++ (run cfg dev s1 es).2)

/-! ## Capability synthesis -/

/-- The arrays written between `uodev = uidev` and the output listing:
`obits`, `rbits` (both indexed by family, then code) and `uodev`. -/
structure Caps where
  obits : Int → Int → Bool
  rbits : Int → Int → Bool
  uodev : AbsInfo

/-- Statement `SET(m[f], b, 1)`. -/
def SETF (m : Int → Int → Bool) (f b : Int) : Int → Int → Bool :=
  fun g => if g = f then SET (m g) b 1 else m g

/-- Assignment `a[i] = v` to an `int` array. -/
def upd (a : Int → Int) (i v : Int) : Int → Int :=
  fun j => if j = i then v else a j

/-- The loop `for (i = 0; T(i, 0) != -1; ++i) body`. -/
def forRows {R S : Type} (c0 : R → Int) (body : R → S → S) : List R → S → S
  | [], s => s
  | r :: rs, s => if c0 r = -1 then s else forRows c0 body rs (body r s)

/-- The default range given to a destination axis of a KA or RA rule whose
`absmin` and `absmax` are both zero. -/
def defaultAbs (amin amax : Int) (x : Int) (u : AbsInfo) : AbsInfo :=
  if u.absmin x = 0 ∧ u.absmax x = 0 then
    { u with absmin := upd u.absmin x amin, absmax := upd u.absmax x amax }
  else u

/-- The range, fuzz and flat given to the destination axis of an AA rule whose
`absmin` and `absmax` are both zero. -/
def inheritAbs (x y : Int) (u : AbsInfo) : AbsInfo :=
  if u.absmin y = 0 ∧ u.absmax y = 0 then
    { absmin := upd u.absmin y (u.absmin x),
      absmax := upd u.absmax y (u.absmax x),
      absfuzz := upd u.absfuzz y (u.absfuzz x),
      absflat := upd u.absflat y (u.absflat x) }
  else u

def kkBody (ibits : Int → Int → Bool) (r : Row2) (c : Caps) : Caps :=
  if GET (ibits EV_KEY) r.c0 then
    { c with rbits := SETF c.rbits EV_KEY r.c0, obits := SETF c.obits EV_KEY r.c1 }
  else c

def krBody (ibits : Int → Int → Bool) (r : Row3) (c : Caps) : Caps :=
  if GET (ibits EV_KEY) r.c0 && GET (ibits EV_KEY) r.c1 then
    { c with rbits := SETF (SETF c.rbits EV_KEY r.c0) EV_KEY r.c1,
             obits := SETF c.obits EV_REL r.c2 }
  else c

def kaBody (amin amax : Int) (ibits : Int → Int → Bool) (r : Row3) (c : Caps) : Caps :=
  if GET (ibits EV_KEY) r.c0 && GET (ibits EV_KEY) r.c1 then
    { rbits := SETF (SETF c.rbits EV_KEY r.c0) EV_KEY r.c1,
      obits := SETF c.obits EV_ABS r.c2,
      uodev := defaultAbs amin amax r.c2 c.uodev }
  else c

def rkBody (ibits : Int → Int → Bool) (r : Row3) (c : Caps) : Caps :=
  if GET (ibits EV_REL) r.c0 then
    { c with rbits := SETF c.rbits EV_REL r.c0,
             obits := SETF (SETF c.obits EV_KEY r.c1) EV_KEY r.c2 }
  else c

def rrBody (ibits : Int → Int → Bool) (r : Row2) (c : Caps) : Caps :=
  if GET (ibits EV_REL) r.c0 then
    { c with rbits := SETF c.rbits EV_REL r.c0, obits := SETF c.obits EV_REL r.c1 }
  else c

def raBody (amin amax : Int) (ibits : Int → Int → Bool) (r : Row2) (c : Caps) : Caps :=
  if GET (ibits EV_REL) r.c0 then
    { rbits := SETF c.rbits EV_REL r.c0,
      obits := SETF c.obits EV_ABS r.c1,
      uodev := defaultAbs amin amax r.c1 c.uodev }
  else c

def akBody (ibits : Int → Int → Bool) (r : Row3) (c : Caps) : Caps :=
  if GET (ibits EV_ABS) r.c0 then
    { c with rbits := SETF c.rbits EV_ABS r.c0,
             obits := SETF (SETF c.obits EV_KEY r.c1) EV_KEY r.c2 }
  else c

/-- The index `AKM(i, 0)` that the AR block passes to `SET`.  The result is
`none` when the process does not survive the statement: the read goes through
`NULL` or past the end of the allocation, or the value read is negative (the
sentinel row holds `-1`), which makes the `SET` a write far outside the
array. -/
def AKM0 (akm : List Row3) (i : Nat) : Option Int :=
  if akm.isEmpty then none
  else if i < akm.length then
    (akm.get? i).bind (fun r => if r.c0 < 0 then none else some r.c0)
  else none

/-- The loop over `arm`, from row `i` on: a firing row marks `AKM(i, 0)` in
`rbits[EV_ABS]` and `ARM(i, 1)` in `obits[EV_REL]`. -/
def arLoop (akm : List Row3) (ibits : Int → Int → Bool) : Nat → List Row2 → Caps → Option Caps
  | _, [], c => some c
  | i, r :: rs, c =>
    if r.c0 = -1 then some c
    else if GET (ibits EV_ABS) r.c0 then
      match AKM0 akm i with
      | none => none
      | some a =>
        arLoop akm ibits (i + 1) rs
          { c with rbits := SETF c.rbits EV_ABS a, obits := SETF c.obits EV_REL r.c1 }
    else arLoop akm ibits (i + 1) rs c

def aaBody (ibits : Int → Int → Bool) (r : Row2) (c : Caps) : Caps :=
  if GET (ibits EV_ABS) r.c0 then
    { rbits := SETF c.rbits EV_ABS r.c0,
      obits := SETF c.obits EV_ABS r.c1,
      uodev := inheritAbs r.c0 r.c1 c.uodev }
  else c

/-- The block `if (T != NULL) { SET(obits[EV_EV], fam, 1); for ... }`. -/
def tableBlock {R : Type} (t : List R) (fam : Int) (loop : Caps → Caps) (c : Caps) : Caps :=
  if t.isEmpty then c else loop { c with obits := SETF c.obits EV_EV fam }

/-- The nine blocks up to and including the AK block. -/
def synthHead (cfg : Config) (ibits : Int → Int → Bool) (uidev : AbsInfo) : Caps :=
  let c0 : Caps := { obits := fun _ _ => false, rbits := fun _ _ => false, uodev := uidev }
  let c1 := tableBlock cfg.kkm EV_KEY (forRows Row2.c0 (kkBody ibits) cfg.kkm) c0
  let c2 := tableBlock cfg.krm EV_REL (forRows Row3.c0 (krBody ibits) cfg.krm) c1
  let c3 := tableBlock cfg.kam EV_ABS (forRows Row3.c0 (kaBody cfg.amin cfg.amax ibits) cfg.kam) c2
  let c4 := tableBlock cfg.rkm EV_KEY (forRows Row3.c0 (rkBody ibits) cfg.rkm) c3
  let c5 := tableBlock cfg.rrm EV_REL (forRows Row2.c0 (rrBody ibits) cfg.rrm) c4
  let c6 := tableBlock cfg.ram EV_ABS (forRows Row2.c0 (raBody cfg.amin cfg.amax ibits) cfg.ram) c5
  tableBlock cfg.akm EV_KEY (forRows Row3.c0 (akBody ibits) cfg.akm) c6

/-- The AR block. -/
def arBlock (cfg : Config) (ibits : Int → Int → Bool) (c : Caps) : Option Caps :=
  if cfg.arm.isEmpty then some c
  else arLoop cfg.akm ibits 0 cfg.arm { c with obits := SETF c.obits EV_EV EV_REL }

/-- The loop "Do not let through the remapped event bits":
`obits[i][j] |= (ibits[i][j] & ~rbits[i][j])` for `i < EV_MAX`. -/
def merge (ibits : Int → Int → Bool) (c : Caps) : Caps :=
  { c with obits := fun f b =>
      if 0 ≤ f ∧ f < EV_MAX then c.obits f b || (ibits f b && !c.rbits f b) else c.obits f b }

/-- Capability synthesis: from `uodev = uidev` to the end of the merge loop.
`none` is a wild read or write of the statement `SET(rbits[EV_ABS], AKM(i, 0), 1)`
of the AR block. -/
def synth (cfg : Config) (ibits : Int → Int → Bool) (uidev : AbsInfo) : Option Caps :=
  match arBlock cfg ibits (synthHead cfg ibits uidev) with
  | none => none
  | some c =>
    some (merge ibits (tableBlock cfg.aam EV_ABS (forRows Row2.c0 (aaBody ibits) cfg.aam) c))

/-! ## Vocabulary of the statements about the output stream -/

/-- The value of the most recent KEY event on code `k` in a list of written
events (oldest first), if there is one. -/
def lastKey (k : Int) : List Event → Option Int
  | [] => none
  | e :: es =>
    match lastKey k es with
    | some v => some v
    | none => if e.type = EV_KEY ∧ e.code = k then some e.value else none

/-- The key array obtained from `sh` by recording the written events `out`
one after the other, as `SND` does. -/
def replay (sh : Int → Bool) : List Event → Int → Bool
  | [] => sh
  | e :: es => replay (if e.type = EV_KEY then SET sh e.code e.value else sh) es

/-- The key array of an `Out` is the replay of what it has sent. -/
def Tracks (sh : Int → Bool) (o : Out) : Prop := o.shadow = replay sh o.sent

/-! ## Concrete configurations used by the examples -/

/-- No rules, no normalisation, the built-in defaults of `main`. -/
def cfgNone : Config :=
  { kkm := [], krm := [], kam := [], rkm := [], rrm := [], ram := [], akm := [], arm := [],
    aam := [], nm := [], amin := -32767, amax := 32767, rmin := -128, rmax := 128,
    nign := 0, nrng := 0, nrst := 0, nspk := 0, nspkmin := 2 }

/-- The single rule `--rel-key 0:105,106`. -/
def cfgRelKey : Config := { cfgNone with rkm := [⟨0, 105, 106⟩] }

/-- A device description with every axis array zero. -/
def absZero : AbsInfo :=
  { absmin := fun _ => 0, absmax := fun _ => 0, absfuzz := fun _ => 0, absflat := fun _ => 0 }

/-- A device without absolute axes. -/
def devPlain : Dev := { uidev := absZero, uodev := absZero }

/-- The release event written by `release k`. -/
def relEv (k : Int) (ev : Event) : Event :=
  { time := ev.time, type := EV_KEY, code := u16 k, value := 0 }

/-- The press event left in `ev` by the first two arms of `keyPair`. -/
def pressEv (k : Int) (ev : Event) : Event :=
  { time := ev.time, type := EV_KEY, code := u16 k, value := 1 }

/-- Rule `--rel-abs 0:0` with `--absconf 0,16777215`. -/
def cfgRelAbs : Config := { cfgNone with ram := [⟨0, 0⟩], amin := 0, amax := 16777215 }

/-- The output description that capability synthesis leaves for `cfgRelAbs`
on a device with the relative axis 0 and no absolute axis: axis 0 of the
output gets the default range. -/
def devRelAbs : Dev :=
  { uidev := absZero,
    uodev := { absZero with absmin := upd absZero.absmin 0 0,
                            absmax := upd absZero.absmax 0 16777215 } }

/-- Rule `--rel-abs 0:0` with the built-in defaults. -/
def cfgRelAbsDflt : Config := { cfgNone with ram := [⟨0, 0⟩] }

/-- The output description for `cfgRelAbsDflt`: axis 0 has the default range. -/
def devRelAbsDflt : Dev :=
  { uidev := absZero,
    uodev := { absZero with absmin := upd absZero.absmin 0 (-32767),
                            absmax := upd absZero.absmax 0 32767 } }

/-- The value is representable in an `int`. -/
def isInt (x : Int) : Prop := -2147483648 ≤ x ∧ x < 2147483648

/-- The state left by the auto-calibration code. -/
def NormOut.ac : NormOut → AC
  | NormOut.drop a => a
  | NormOut.pass a _ => a
  | NormOut.trap a => a

/-- What the auto-calibration code yields for a sample: `some none` when the
sample is dropped, `some (some w)` when the value `w` is left in `ev.value`,
`none` on a trap. -/
def NormOut.result : NormOut → Option (Option Int)
  | NormOut.drop _ => some none
  | NormOut.pass _ w => some (some w)
  | NormOut.trap _ => none

/-- A READY step replaces `(RMIN, RMAX)` by `(AMIN, AMAX)`: the sample passes
the spike test and the reset code takes its swap arm. -/
def swaps (cfg : Config) (irng : Int) (ac : AC) (v : Int) : Bool :=
  !spike cfg irng ac.LAST v && (afterReset cfg irng ac v).2

/-- The end of the READY branch as a function of the widened range. -/
def gated (cfg : Config) (irng smin lo hi v : Int) : Option (Option Int) :=
  if covers cfg irng lo hi then
    (cdiv (cmul irng (csub v lo)) (csub hi lo)).map (fun q => some (cadd q smin))
  else some (some v)

/-- Normalisation of axis 0, everything else at the built-in defaults. -/
def cfgNorm : Config := { cfgNone with nm := [0] }

/-- A joystick whose axis 0 is declared as [-32767, 32767]. -/
def devJoy : Dev :=
  { uidev := { absZero with absmin := upd absZero.absmin 0 (-32767),
                            absmax := upd absZero.absmax 0 32767 },
    uodev := { absZero with absmin := upd absZero.absmin 0 (-32767),
                            absmax := upd absZero.absmax 0 32767 } }

/-- Normalisation of axis 0 with `--normconf 0,0,3`: a rescan every 3 events. -/
def cfgRescan : Config := { cfgNone with nm := [0], nrst := 3 }

/-- A device whose axis 0 is declared as [0, 1000]. -/
def devK : Dev :=
  { uidev := { absZero with absmax := upd absZero.absmax 0 1000 },
    uodev := { absZero with absmax := upd absZero.absmax 0 1000 } }

/-- A READY row of the auto-calibration array with the learned range [400, 600]. -/
def acReady : AC :=
  { IGN := 0, RDY := 1, RMIN := 400, RMAX := 600, ACNT := 0, AMIN := 0, AMAX := 0, LAST := 0 }

/-! ## Vocabulary of the statements about capability synthesis -/

/-- Configuration `cfg1` is `cfg` with one more rule in a table that is not
empty, the rule having a source other than the terminator `-1` and source
codes that `ibits` does not advertise (for KR and KA: not both of them).  The
rule may stand anywhere in the table, except that a rule of the AR table is
appended at the end, and a rule of the AK table is added only when no AR
table is configured. -/
def Adds (ibits : Int → Int → Bool) (cfg cfg1 : Config) : Prop :=
  (∃ t1 t2 r, cfg.kkm = t1 ++ t2 ∧ cfg.kkm ≠ [] ∧ r.c0 ≠ -1 ∧
    GET (ibits EV_KEY) r.c0 = false ∧ cfg1 = { cfg with kkm := t1 ++ r :: t2 }) ∨
  (∃ t1 t2 r, cfg.krm = t1 ++ t2 ∧ cfg.krm ≠ [] ∧ r.c0 ≠ -1 ∧
    (GET (ibits EV_KEY) r.c0 && GET (ibits EV_KEY) r.c1) = false ∧
    cfg1 = { cfg with krm := t1 ++ r :: t2 }) ∨
  (∃ t1 t2 r, cfg.kam = t1 ++ t2 ∧ cfg.kam ≠ [] ∧ r.c0 ≠ -1 ∧
    (GET (ibits EV_KEY) r.c0 && GET (ibits EV_KEY) r.c1) = false ∧
    cfg1 = { cfg with kam := t1 ++ r :: t2 }) ∨
  (∃ t1 t2 r, cfg.rkm = t1 ++ t2 ∧ cfg.rkm ≠ [] ∧ r.c0 ≠ -1 ∧
    GET (ibits EV_REL) r.c0 = false ∧ cfg1 = { cfg with rkm := t1 ++ r :: t2 }) ∨
  (∃ t1 t2 r, cfg.rrm = t1 ++ t2 ∧ cfg.rrm ≠ [] ∧ r.c0 ≠ -1 ∧
    GET (ibits EV_REL) r.c0 = false ∧ cfg1 = { cfg with rrm := t1 ++ r :: t2 }) ∨
  (∃ t1 t2 r, cfg.ram = t1 ++ t2 ∧ cfg.ram ≠ [] ∧ r.c0 ≠ -1 ∧
    GET (ibits EV_REL) r.c0 = false ∧ cfg1 = { cfg with ram := t1 ++ r :: t2 }) ∨
  (∃ t1 t2 r, cfg.akm = t1 ++ t2 ∧ cfg.akm ≠ [] ∧ r.c0 ≠ -1 ∧ cfg.arm = [] ∧
    GET (ibits EV_ABS) r.c0 = false ∧ cfg1 = { cfg with akm := t1 ++ r :: t2 }) ∨
  (∃ r, cfg.arm ≠ [] ∧ r.c0 ≠ -1 ∧
    GET (ibits EV_ABS) r.c0 = false ∧ cfg1 = { cfg with arm := cfg.arm ++ [r] }) ∨
  (∃ t1 t2 r, cfg.aam = t1 ++ t2 ∧ cfg.aam ≠ [] ∧ r.c0 ≠ -1 ∧
    GET (ibits EV_ABS) r.c0 = false ∧ cfg1 = { cfg with aam := t1 ++ r :: t2 })

/-- A device that advertises only the relative axes 0 and 1. -/
def ibitsMouse : Int → Int → Bool :=
  fun f b => (f == 0 && b == 2) || (f == 2 && (b == 0 || b == 1))

/-- A device that advertises only the key 30. -/
def ibitsKey30 : Int → Int → Bool :=
  fun f b => (f == 0 && b == 1) || (f == 1 && b == 30)

/-- A device that advertises only the absolute axes 0 and 1. -/
def ibitsStick : Int → Int → Bool :=
  fun f b => (f == 0 && b == 3) || (f == 3 && (b == 0 || b == 1))

/-- The single rule `--key-key 30:48`. -/
def cfgKK : Config := { cfgNone with kkm := [⟨30, 48⟩] }

/-- The rules `--key-key 30:48 --key-key 31:49`. -/
def cfgKK2 : Config := { cfgNone with kkm := [⟨30, 48⟩, ⟨31, 49⟩] }

/-- The rules `--abs-key 1:105,106 --abs-rel 0:5`. -/
def cfgAbsRel : Config := { cfgNone with akm := [⟨1, 105, 106⟩], arm := [⟨0, 5⟩] }

/-- The rows of a table that its loop visits: those before the first row whose
first field is `-1`. -/
def reached {R : Type} (c0 : R → Int) (t : List R) : List R :=
  t.takeWhile (fun r => decide (c0 r ≠ -1))

/-- Code `b` of family `f` is set in the consumed bitmap. -/
def Marked (f b : Int) (c : Caps) : Prop := c.rbits f b = true

/-- The four values the description `u` holds for axis `a`: min, max, fuzz, flat. -/
def metaAt (u : AbsInfo) (a : Int) : Int × Int × Int × Int :=
  (u.absmin a, u.absmax a, u.absfuzz a, u.absflat a)

/-- A device description with axis 0 declared as [-100, 100] and axis 1 as
[-50, 50]. -/
def uidevTwo : AbsInfo :=
  { absZero with absmin := upd (upd absZero.absmin 0 (-100)) 1 (-50),
                 absmax := upd (upd absZero.absmax 0 100) 1 50 }

/-- A device description with axis 0 declared as [-100, 100]. -/
def uidevOne : AbsInfo :=
  { absZero with absmin := upd absZero.absmin 0 (-100), absmax := upd absZero.absmax 0 100 }

/-- The single rule `--abs-abs 0:1`. -/
def cfgAA : Config := { cfgNone with aam := [⟨0, 1⟩] }

/-- A device that advertises only the absolute axis 0. -/
def ibitsAbs0 : Int → Int → Bool :=
  fun f b => (f == 0 && b == 3) || (f == 3 && b == 0)

/-- Normalisation of axis 0 with `--normconf 1`: one initial event ignored. -/
def cfgWarm : Config := { cfgNone with nm := [0], nign := 1 }

/-- Normalisation of axis 0 with `--normconf 0,0,0,4,2`: spike protection. -/
def cfgSpike : Config := { cfgNone with nm := [0], nspk := 4, nspkmin := 2 }

/-- The integer is an event code: it fits the `__u16` field `ev.code`. -/
def isCode (x : Int) : Prop := 0 ≤ x ∧ x < 65536

/-- The rules `--key-rel 105,106:0 --relconf -10,10`. -/
def cfgKeyRel : Config := { cfgNone with krm := [⟨105, 106, 0⟩], rmin := -10, rmax := 10 }

/-- A device whose axis 0 is declared as [-100, 100]. -/
def devHundred : Dev := { uidev := uidevOne, uodev := uidevOne }

/-- The single rule `--abs-key 0:105,106`. -/
def cfgAbsKey : Config := { cfgNone with akm := [⟨0, 105, 106⟩] }

/-- Rule `--abs-abs 0:1` on the joystick of `devJoy`: the output axis 1 has
inherited the range [-32767, 32767] of the input axis 0. -/
def devJoyAA : Dev :=
  { uidev := devJoy.uidev,
    uodev := { devJoy.uidev with absmin := upd devJoy.uidev.absmin 1 (-32767),
                                 absmax := upd devJoy.uidev.absmax 1 32767 } }

/-- Rule `--abs-abs 0:1` on a device whose axis 0 is declared [-100, 100]: the
output axis 1 has inherited that range. -/
def devHundredAA : Dev :=
  { uidev := uidevOne,
    uodev := { uidevOne with absmin := upd uidevOne.absmin 1 (-100),
                             absmax := upd uidevOne.absmax 1 100 } }

/-- The configuration `--norm 0 --normconf 0,2,0,0,0`. -/
def cfgCover : Config := { cfgNone with nm := [0], nrng := 2, nspkmin := 0 }

/-- The configuration in which, of the three relations of the family of the
event, only the earliest one that matches the event is configured (KK before
KR before KA; RK before RR before RA; AK before AR before AA): the two other
tables of the family are empty. -/
def solo (cfg : Config) (ev : Event) : Config :=
  if ev.type = EV_KEY then
    if (scan Row2.c0 (fun r => decide (r.c0 = ev.code)) cfg.kkm).isSome then
      { cfg with krm := [], kam := [] }
    else if (scan Row3.c0 (fun r => decide (r.c0 = ev.code ∨ r.c1 = ev.code)) cfg.krm).isSome then
      { cfg with kkm := [], kam := [] }
    else { cfg with kkm := [], krm := [] }
  else if ev.type = EV_REL then
    if (scan Row3.c0 (fun r => decide (r.c0 = ev.code)) cfg.rkm).isSome then
      { cfg with rrm := [], ram := [] }
    else if (scan Row2.c0 (fun r => decide (r.c0 = ev.code)) cfg.rrm).isSome then
      { cfg with rkm := [], ram := [] }
    else { cfg with rkm := [], rrm := [] }
  else if ev.type = EV_ABS then
    if (scan Row3.c0 (fun r => decide (r.c0 = ev.code)) cfg.akm).isSome then
      { cfg with arm := [], aam := [] }
    else if (scan Row2.c0 (fun r => decide (r.c0 = ev.code)) cfg.arm).isSome then
      { cfg with akm := [], aam := [] }
    else { cfg with akm := [], arm := [] }
  else cfg

/-- The rules `--key-key 30:48 --key-rel 30,31:0 --key-abs 30,31:0`. -/
def cfgOverlap : Config :=
  { cfgNone with kkm := [⟨30, 48⟩], krm := [⟨30, 31, 0⟩], kam := [⟨30, 31, 0⟩] }

/-! ## Parsing of the rule tables -/

/-- The array `c` of `str_int` after `sscanf` has stored the converted values
`vals` (at most four) in its first entries. -/
def storeConv (c vals : List Int) : List Int :=
  vals.take 4 ++ c.drop (vals.take 4).length

/-- The loop "Count the valid strings" of `str_int`.  The parameter `sscanf`
stands for the call `sscanf(s[i], conv, &c[0], &c[1], &c[2], &c[3])` of the C
library: it gives the converted values, their number being the return value
(none for a return value of zero or `EOF`). -/
def countValid (sscanf : String → List Int) (col : Nat) :
    List String → List Int → Nat → List Int × Nat
  | [], c, n => (c, n)
  | s :: ss, c, n =>
    countValid sscanf col ss (storeConv c (sscanf s))
      (if (sscanf s).length = col then n + 1 else n)

/-- The loop "Assign valid strings" of `str_int`, with its check `m > n`:
the rows written so far and their number `m`. -/
def assignValid (sscanf : String → List Int) (col n : Nat) :
    List String → List Int → Nat → List (List Int) → Option (Nat × List (List Int))
  | [], _, m, rows => some (m, rows)
  | s :: ss, c, m, rows =>
    if (sscanf s).length = col then
      if m + 1 > n then none
      else assignValid sscanf col n ss (storeConv c (sscanf s)) (m + 1)
        (rows ++ [(storeConv c (sscanf s)).take col])
    else assignValid sscanf col n ss (storeConv c (sscanf s)) m rows

/-- Function `str_int`: `none` is the return value -1; `some none` is the
return value 0 with `*r = NULL`; `some (some mem)` is the return value 0 with
`*r` pointing to the rows `mem` (the last one being the row of `-1`).  The
allocation is taken to succeed. -/
def str_int (sscanf : String → List Int) (s : Option (List String)) (col : Nat) :
    Option (Option (List (List Int))) :=
  match s with
  | none => some none
  | some ss =>
    if col < 1 ∨ col > 4 then none
    else if (countValid sscanf col ss [0, 0, 0, 0] 0).2 = 0 then some none
    else
      match assignValid sscanf col (countValid sscanf col ss [0, 0, 0, 0] 0).2 ss
          (countValid sscanf col ss [0, 0, 0, 0] 0).1 0 [] with
      | none => none
      | some (m, rows) =>
        if m ≠ (countValid sscanf col ss [0, 0, 0, 0] 0).2 then none
        else some (some (rows ++ [List.replicate col (-1)]))

/-- The rows a consumer visits: `for (i = 0; T(i, 0) != -1; ++i)`. -/
def rowsOf (mem : List (List Int)) : List (List Int) :=
  mem.takeWhile (fun row => decide (row.head? ≠ some (-1)))

/-- The tuples of the strings that match the schema with `col` fields, in the
order of the strings. -/
def matching (sscanf : String → List Int) (col : Nat) (ss : List String) : List (List Int) :=
  (ss.map sscanf).filter (fun t => decide (t.length = col))

/-- What `sscanf` converts with the format `"%i:%i"` for the two strings of
the example below. -/
def sscanfDemo (s : String) : List Int :=
  if s = "-1:5" then [-1, 5] else if s = "30:48" then [30, 48] else []

/-- Normalisation of axis 0 with `--normconf 0,2,1`: coverage factor 2 and a
rescan period of one event. -/
def cfgRetry : Config := { cfgNone with nm := [0], nrng := 2, nrst := 1 }

/-- Normalisation of axis 0 with `--normconf 0,2,3`: coverage factor 2 and a
rescan period of three events. -/
def cfgRetry3 : Config := { cfgNone with nm := [0], nrng := 2, nrst := 3 }

/-- A READY row with the learned range [100, 900] and a window [400, 600]
that has counted two events. -/
def acWindow : AC :=
  { IGN := 0, RDY := 1, RMIN := 100, RMAX := 900, ACNT := 2, AMIN := 400, AMAX := 600, LAST := 0 }

/-- The invariant of a row of the auto-calibration array: a learned range and
a window in use are not degenerate. -/
def ACInv (a : AC) : Prop :=
  (a.RDY ≠ 0 → a.RMIN < a.RMAX) ∧ (a.ACNT > 0 → a.AMIN < a.AMAX)

/-- The four bounds of a row are `int` values. -/
def ACInt (a : AC) : Prop :=
  isInt a.RMIN ∧ isInt a.RMAX ∧ isInt a.AMIN ∧ isInt a.AMAX

/-- Every row of the array satisfies the invariant and holds `int` bounds. -/
def StateInv (s : LoopState) : Prop := ∀ code, ACInv (s.ac code) ∧ ACInt (s.ac code)

/-- The row of an axis after the auto-calibration code has run on a sequence
of samples, one after the other; a sample on which the division traps leaves
the row as it was when the division was attempted. -/
def normRun (cfg : Config) (irng smin : Int) : AC → List Int → AC
  | a, [] => a
  | a, v :: vs => normRun cfg irng smin (normOnce cfg irng smin a v).ac vs

/-- An axis 0 declared as [0, 65536]. -/
def devWide : Dev :=
  { uidev := { absZero with absmax := upd absZero.absmax 0 65536 },
    uodev := { absZero with absmax := upd absZero.absmax 0 65536 } }

/-! ## The bitmap macros on words of 64 bits -/

/-- Macro `POS(c, b)` for an array of `unsigned long` of 64 bits. -/
def POS (b : Nat) : Nat := b / 64

/-- Macro `OFF(c, b)` for an array of `unsigned long` of 64 bits. -/
def OFF (b : Nat) : Nat := b % 64

/-- Macro `GET(c, b)` on the words of the array. -/
def GET64 (c : Nat → Nat) (b : Nat) : Nat := (c (POS b) >>> OFF b) &&& 1

/-- Macro `SET(c, b, v)` on the words of the array: `1 << OFF` and
`(v > 0) << OFF` are shifts of an `int`, `~` is taken on the `int`, and the
operators `&` and `|` convert their `int` operand to `unsigned long`. -/
def SET64 (ub : Int → Nat → Int) (c : Nat → Nat) (b : Nat) (v : Int) : Nat → Nat :=
  fun i =>
    if i = POS b then
      (c (POS b) &&& toULong (-(shl ub 1 (OFF b)) - 1)) |||
        toULong (shl ub (if v > 0 then 1 else 0) (OFF b))
    else c i

/-- The single rule `--rel-key 0:5,6`. -/
def cfgRelKeyLow : Config := { cfgNone with rkm := [⟨0, 5, 6⟩] }

/-- The single rule `--abs-key 0:5,6`. -/
def cfgAbsKeyLow : Config := { cfgNone with akm := [⟨0, 5, 6⟩] }

/-- A device that advertises only the keys 105 and 106. -/
def ibitsArrows : Int → Int → Bool :=
  fun f b => (f == 0 && b == 1) || (f == 1 && (b == 105 || b == 106))

/-- A READY row with the learned range [-32767, 32767]. -/
def acJoy : AC :=
  { IGN := 0, RDY := 1, RMIN := -32767, RMAX := 32767, ACNT := 0, AMIN := 0, AMAX := 0,
    LAST := 0 }

/-! # Theorems -/

/-! ## The macro `SET` -/

set_option maxRecDepth 100000 in
/-- The bits of the mask `~(1 << OFF)` after its conversion to `unsigned long`. -/
theorem mask_bits : ∀ k < 64, ∀ j < 64,
    (toULong (-(shl shlMasked 1 k) - 1)).testBit j =
      !(if k % 32 = 31 then decide (31 ≤ j) else decide (j = k % 32)) := by
  decide

set_option maxRecDepth 100000 in
/-- The bits of `1 << OFF` after its conversion to `unsigned long`. -/
theorem value_bits : ∀ k < 64, ∀ j < 64,
    (toULong (shl shlMasked 1 k)).testBit j =
      (if k % 32 = 31 then decide (31 ≤ j) else decide (j = k % 32)) := by
  decide

theorem zero_bits (k j : Nat) : (toULong (shl shlMasked 0 k)).testBit j = false := by
  have : shl shlMasked 0 k = 0 := by
    unfold shl shlMasked wrap
    split_ifs <;> simp
  rw [this]
  simp [toULong]

/-- What `SET` does to the bits. -/
theorem SET_apply (c : Int → Bool) (b v i : Int) :
    SET c b v i =
      if i / 64 = b / 64 ∧ (if b % 32 = 31 then 31 ≤ i % 64 else i % 64 = b % 32) then
        decide (v > 0)
      else c i := by
  unfold SET
  by_cases hw : i / 64 = b / 64
  · have hk : (b % 64).toNat < 64 := by omega
    have hj : (i % 64).toNat < 64 := by omega
    have e1 : ((b % 64).toNat % 32 = 31) ↔ b % 32 = 31 := by omega
    have e2 : ((i % 64).toNat = (b % 64).toNat % 32) ↔ i % 64 = b % 32 := by omega
    have e3 : (31 ≤ (i % 64).toNat) ↔ 31 ≤ i % 64 := by omega
    rw [if_pos hw, mask_bits _ hk _ hj]
    by_cases hv : v > 0
    · rw [if_pos hv, value_bits _ hk _ hj]
      by_cases h31 : b % 32 = 31
      · simp only [e1.mpr h31, h31, if_true, hw, true_and, e3, hv, decide_True]
        by_cases h : 31 ≤ i % 64 <;> simp [h]
      · have h31n : ¬ ((b % 64).toNat % 32 = 31) := fun h => h31 (e1.mp h)
        simp only [h31n, h31, if_false, hw, true_and, e2, hv, decide_True]
        by_cases h : i % 64 = b % 32 <;> simp [h]
    · rw [if_neg hv, zero_bits]
      by_cases h31 : b % 32 = 31
      · simp only [e1.mpr h31, h31, if_true, hw, true_and, e3, hv, decide_False]
        by_cases h : 31 ≤ i % 64 <;> simp [h]
      · have h31n : ¬ ((b % 64).toNat % 32 = 31) := fun h => h31 (e1.mp h)
        simp only [h31n, h31, if_false, hw, true_and, e2, hv, decide_False]
        by_cases h : i % 64 = b % 32 <;> simp [h]
  · rw [if_neg hw]
    simp [hw]

/-- For a bit whose offset within its word is below 31, `SET` writes that bit
alone. -/
theorem SET_low (c : Int → Bool) (b v : Int) (hb : b % 64 < 31) :
    SET c b v = fun i => if i = b then decide (v > 0) else c i := by
  funext i
  rw [SET_apply]
  have h31 : ¬ (b % 32 = 31) := by omega
  have hcond : (i / 64 = b / 64 ∧ (if b % 32 = 31 then 31 ≤ i % 64 else i % 64 = b % 32)) ↔
      i = b := by
    rw [if_neg h31]; omega
  simp only [hcond]

/-! ## Lemmas on scans -/

theorem scan_none_of_no_hit {R : Type} (c0 : R → Int) (hit : R → Bool) (t : List R)
    (h : ∀ r ∈ t, hit r = false) : scan c0 hit t = none := by
  induction t with
  | nil => rfl
  | cons r rs ih =>
    have hr : hit r = false := h r (List.mem_cons_self r rs)
    have hrs : ∀ x ∈ rs, hit x = false := fun x hx => h x (List.mem_cons_of_mem r hx)
    simp [scan, hr, ih hrs]

theorem normLoop_not_mem (cfg : Config) (irng smin code : Int) (nm : List Int) (ac : AC)
    (v : Int) (h : code ∉ nm) : normLoop cfg irng smin code nm ac v = some (ac, v) := by
  induction nm with
  | nil => rfl
  | cons n ns ih =>
    have hn : n ≠ code := fun e => h (e ▸ List.mem_cons_self n ns)
    have hns : code ∉ ns := fun hx => h (List.mem_cons_of_mem n hx)
    simp [normLoop, hn, ih hns]

/-! ## The iteration, family by family -/

theorem EV_REL_ne_KEY : EV_REL ≠ EV_KEY := by decide
theorem EV_ABS_ne_KEY : EV_ABS ≠ EV_KEY := by decide
theorem EV_ABS_ne_REL : EV_ABS ≠ EV_REL := by decide

theorem step_key (cfg : Config) (dev : Dev) (s : LoopState) (ev : Event)
    (h : ev.type = EV_KEY) :
    step cfg dev s ev =
      (caseKey cfg dev { shadow := s.shadow, sent := [] } ev).map (finish s.ac) := by
  unfold step
  rw [if_pos h]

theorem step_rel (cfg : Config) (dev : Dev) (s : LoopState) (ev : Event)
    (h : ev.type = EV_REL) :
    step cfg dev s ev =
      (caseRel cfg dev { shadow := s.shadow, sent := [] } ev).map (finish s.ac) := by
  have h1 : ev.type ≠ EV_KEY := by rw [h]; exact EV_REL_ne_KEY
  unfold step
  rw [if_neg h1, if_pos h]

theorem step_abs (cfg : Config) (dev : Dev) (s : LoopState) (ev : Event)
    (h : ev.type = EV_ABS) :
    step cfg dev s ev =
      match normLoop cfg (irngOf dev ev.code) (dev.uidev.absmin ev.code) ev.code
          cfg.nm (s.ac ev.code) ev.value with
      | none => none
      | some (a, v) =>
        (absTables cfg dev { shadow := s.shadow, sent := [] } { ev with value := v }).map
          (finish (fun c => if c = ev.code then a else s.ac c)) := by
  have h1 : ev.type ≠ EV_KEY := by rw [h]; exact EV_ABS_ne_KEY
  have h2 : ev.type ≠ EV_REL := by rw [h]; exact EV_ABS_ne_REL
  unfold step
  rw [if_neg h1, if_neg h2, if_pos h]

theorem step_other (cfg : Config) (dev : Dev) (s : LoopState) (ev : Event)
    (h1 : ev.type ≠ EV_KEY) (h2 : ev.type ≠ EV_REL) (h3 : ev.type ≠ EV_ABS) :
    step cfg dev s ev = some (finish s.ac ({ shadow := s.shadow, sent := [] }, ev, true)) := by
  unfold step
  rw [if_neg h1, if_neg h2, if_neg h3]

/-! ## Pass-through -/

/-- C1. Pass-through identity: an event whose code is a source in no row of
the rule tables of its family and, for an ABS event, is not an entry of the
normalisation list, is written exactly once and unchanged (timestamp, family,
code and value). -/
theorem C1_passthrough_identity (cfg : Config) (dev : Dev) (s : LoopState) (ev : Event)
    (hkey : ev.type = EV_KEY →
      (∀ r ∈ cfg.kkm, r.c0 ≠ ev.code) ∧
      (∀ r ∈ cfg.krm, r.c0 ≠ ev.code ∧ r.c1 ≠ ev.code) ∧
      (∀ r ∈ cfg.kam, r.c0 ≠ ev.code ∧ r.c1 ≠ ev.code))
    (hrel : ev.type = EV_REL →
      (∀ r ∈ cfg.rkm, r.c0 ≠ ev.code) ∧ (∀ r ∈ cfg.rrm, r.c0 ≠ ev.code) ∧
      (∀ r ∈ cfg.ram, r.c0 ≠ ev.code))
    (habs : ev.type = EV_ABS →
      (∀ r ∈ cfg.akm, r.c0 ≠ ev.code) ∧ (∀ r ∈ cfg.arm, r.c0 ≠ ev.code) ∧
      (∀ r ∈ cfg.aam, r.c0 ≠ ev.code) ∧ ev.code ∉ cfg.nm) :
    (step cfg dev s ev).map Prod.snd = some [ev] := by
  by_cases h1 : ev.type = EV_KEY
  · obtain ⟨hkk, hkr, hka⟩ := hkey h1
    have e1 := scan_none_of_no_hit Row2.c0 (fun r => decide (r.c0 = ev.code)) cfg.kkm
      (fun r hr => decide_eq_false (hkk r hr))
    have e2 := scan_none_of_no_hit Row3.c0 (fun r => decide (r.c0 = ev.code ∨ r.c1 = ev.code))
      cfg.krm (fun r hr => decide_eq_false (not_or.mpr (hkr r hr)))
    have e3 := scan_none_of_no_hit Row3.c0 (fun r => decide (r.c0 = ev.code ∨ r.c1 = ev.code))
      cfg.kam (fun r hr => decide_eq_false (not_or.mpr (hka r hr)))
    rw [step_key cfg dev s ev h1]
    unfold caseKey
    rw [e1, e2, e3]
    simp [finish, SND]
  · by_cases h2 : ev.type = EV_REL
    · obtain ⟨hrk, hrr, hra⟩ := hrel h2
      have e1 := scan_none_of_no_hit Row3.c0 (fun r => decide (r.c0 = ev.code)) cfg.rkm
        (fun r hr => decide_eq_false (hrk r hr))
      have e2 := scan_none_of_no_hit Row2.c0 (fun r => decide (r.c0 = ev.code)) cfg.rrm
        (fun r hr => decide_eq_false (hrr r hr))
      have e3 := scan_none_of_no_hit Row2.c0 (fun r => decide (r.c0 = ev.code)) cfg.ram
        (fun r hr => decide_eq_false (hra r hr))
      rw [step_rel cfg dev s ev h2]
      unfold caseRel
      rw [e1, e2, e3]
      simp [finish, SND]
    · by_cases h3 : ev.type = EV_ABS
      · obtain ⟨hak, har, haa, hnm⟩ := habs h3
        have e1 := scan_none_of_no_hit Row3.c0 (fun r => decide (r.c0 = ev.code)) cfg.akm
          (fun r hr => decide_eq_false (hak r hr))
        have e2 := scan_none_of_no_hit Row2.c0 (fun r => decide (r.c0 = ev.code)) cfg.arm
          (fun r hr => decide_eq_false (har r hr))
        have e3 := scan_none_of_no_hit Row2.c0 (fun r => decide (r.c0 = ev.code)) cfg.aam
          (fun r hr => decide_eq_false (haa r hr))
        have e4 := normLoop_not_mem cfg (irngOf dev ev.code) (dev.uidev.absmin ev.code)
          ev.code cfg.nm (s.ac ev.code) ev.value hnm
        rw [step_abs cfg dev s ev h3, e4]
        show Option.map Prod.snd (Option.map _ (absTables cfg dev _ ev)) = some [ev]
        unfold absTables
        rw [e1, e2, e3]
        simp [finish, SND]
      · rw [step_other cfg dev s ev h1 h2 h3]
        simp [finish, SND]

/-! ## Key shadow -/

theorem replay_append (sh : Int → Bool) (xs ys : List Event) :
    replay sh (xs ++ ys) = replay (replay sh xs) ys := by
  induction xs generalizing sh with
  | nil => rfl
  | cons x xs ih => simp [replay, ih]

theorem lastKey_append (k : Int) (xs ys : List Event) :
    lastKey k (xs ++ ys) =
      match lastKey k ys with
      | some v => some v
      | none => lastKey k xs := by
  induction xs with
  | nil => cases h : lastKey k ys <;> simp [lastKey, h]
  | cons x xs ih =>
    show (match lastKey k (xs ++ ys) with
      | some v => some v
      | none => if x.type = EV_KEY ∧ x.code = k then some x.value else none) = _
    rw [ih]
    cases h : lastKey k ys <;> simp [lastKey]

/-- When every KEY event of the list has a code whose offset within its word
is below 31, the replay records for each key the last value written. -/
theorem replay_eq_lastKey (sh : Int → Bool) (out : List Event) (k : Int)
    (hlow : ∀ e ∈ out, e.type = EV_KEY → e.code % 64 < 31) :
    replay sh out k =
      match lastKey k out with
      | some v => decide (v > 0)
      | none => sh k := by
  induction out generalizing sh with
  | nil => rfl
  | cons e es ih =>
    have hes : ∀ x ∈ es, x.type = EV_KEY → x.code % 64 < 31 :=
      fun x hx => hlow x (List.mem_cons_of_mem e hx)
    simp only [replay, lastKey]
    rw [ih _ hes]
    cases h : lastKey k es with
    | some v => rfl
    | none =>
      by_cases hk : e.type = EV_KEY ∧ e.code = k
      · have hl : k % 64 < 31 := hk.2 ▸ hlow e (List.mem_cons_self e es) hk.1
        simp [hk, SET_low _ _ _ hl]
      · simp only [if_neg hk]
        by_cases ht : e.type = EV_KEY
        · have hc : ¬ (k = e.code) := fun hc => hk ⟨ht, hc.symm⟩
          simp [ht, SET_low _ _ _ (hlow e (List.mem_cons_self e es) ht), hc]
        · simp [ht]

theorem Tracks_SND (sh : Int → Bool) (o : Out) (e : Event) (h : Tracks sh o) :
    Tracks sh (SND o e) := by
  unfold Tracks at *
  simp only [SND, replay_append, ← h, replay]

theorem Tracks_release (sh : Int → Bool) (k : Int) (p : Out × Event) (h : Tracks sh p.1) :
    Tracks sh (release k p).1 := by
  unfold release
  split
  · exact Tracks_SND sh _ _ h
  · exact h

theorem Tracks_keyPair (sh : Int → Bool) (r : Row3) (lo hi : Bool) (o : Out) (ev : Event)
    (h : Tracks sh o) : Tracks sh (keyPair r lo hi o ev).1 := by
  unfold keyPair
  split
  · exact Tracks_release sh _ _ h
  · split
    · exact Tracks_release sh _ _ h
    · exact Tracks_release sh _ _ (Tracks_release sh _ _ h)

theorem Tracks_caseKey (sh : Int → Bool) (cfg : Config) (dev : Dev) (o : Out) (ev : Event)
    (p : Out × Event × Bool) (h : Tracks sh o) (hp : caseKey cfg dev o ev = some p) :
    Tracks sh p.1 := by
  unfold caseKey at hp
  split at hp
  · cases hp; exact h
  · split at hp
    · cases hp; exact h
    · split at hp <;> (cases hp; exact h)

theorem Tracks_caseRel (sh : Int → Bool) (cfg : Config) (dev : Dev) (o : Out) (ev : Event)
    (p : Out × Event × Bool) (h : Tracks sh o) (hp : caseRel cfg dev o ev = some p) :
    Tracks sh p.1 := by
  unfold caseRel at hp
  split at hp
  · cases hp; exact Tracks_keyPair sh _ _ _ _ _ h
  · split at hp
    · cases hp; exact h
    · split at hp
      · rw [Option.map_eq_some'] at hp
        obtain ⟨w, _, hw⟩ := hp
        rw [← hw]; exact h
      · cases hp; exact h

theorem Tracks_absTables (sh : Int → Bool) (cfg : Config) (dev : Dev) (o : Out) (ev : Event)
    (p : Out × Event × Bool) (h : Tracks sh o) (hp : absTables cfg dev o ev = some p) :
    Tracks sh p.1 := by
  unfold absTables at hp
  split at hp
  · cases hp; exact Tracks_keyPair sh _ _ _ _ _ h
  · split at hp
    · rw [Option.map_eq_some'] at hp
      obtain ⟨w, _, hw⟩ := hp
      rw [← hw]; exact h
    · split at hp
      · rw [Option.map_eq_some'] at hp
        obtain ⟨w, _, hw⟩ := hp
        rw [← hw]; exact h
      · cases hp; exact h

theorem finish_shadow (sh : Int → Bool) (ac : Int → AC) (p : Out × Event × Bool)
    (h : Tracks sh p.1) : (finish ac p).1.shadow = replay sh (finish ac p).2 := by
  unfold finish
  exact Tracks_SND sh _ _ h

theorem Tracks_start (sh : Int → Bool) : Tracks sh { shadow := sh, sent := [] } := rfl

theorem step_shadow (cfg : Config) (dev : Dev) (s s1 : LoopState) (ev : Event)
    (out : List Event) (h : step cfg dev s ev = some (s1, out)) :
    s1.shadow = replay s.shadow out := by
  by_cases h1 : ev.type = EV_KEY
  · rw [step_key cfg dev s ev h1, Option.map_eq_some'] at h
    obtain ⟨p, hp, hf⟩ := h
    have := finish_shadow s.shadow s.ac p (Tracks_caseKey _ _ _ _ _ _ (Tracks_start _) hp)
    rw [hf] at this; exact this
  · by_cases h2 : ev.type = EV_REL
    · rw [step_rel cfg dev s ev h2, Option.map_eq_some'] at h
      obtain ⟨p, hp, hf⟩ := h
      have := finish_shadow s.shadow s.ac p (Tracks_caseRel _ _ _ _ _ _ (Tracks_start _) hp)
      rw [hf] at this; exact this
    · by_cases h3 : ev.type = EV_ABS
      · rw [step_abs cfg dev s ev h3] at h
        split at h
        · cases h
        · rename_i a v _
          rw [Option.map_eq_some'] at h
          obtain ⟨p, hp, hf⟩ := h
          have := finish_shadow s.shadow (fun c => if c = ev.code then a else s.ac c) p
            (Tracks_absTables _ _ _ _ _ _ (Tracks_start _) hp)
          rw [hf] at this; exact this
      · rw [step_other cfg dev s ev h1 h2 h3] at h
        cases h
        exact finish_shadow s.shadow s.ac _ (Tracks_start _)

theorem run_shadow (cfg : Config) (dev : Dev) (s : LoopState) (es : List Event) :
    (run cfg dev s es).1.shadow = replay s.shadow (run cfg dev s es).2 := by
  induction es generalizing s with
  | nil => rfl
  | cons e es ih =>
    unfold run
    cases h : step cfg dev s e with
    | none => rfl
    | some q =>
      obtain ⟨s1, out⟩ := q
      simp only
      rw [replay_append, ← step_shadow cfg dev s s1 e out h]
      exact ih s1

/-- The key array is sound for the keys of the low half-words: when every KEY
event written has a code whose offset within its word is below 31, the bit of
a key `k` is set exactly when the most recent KEY event written on `k` had a
value greater than zero. -/
theorem key_shadow_sound_low (cfg : Config) (dev : Dev) (es : List Event) (k : Int)
    (hlow : ∀ e ∈ (run cfg dev (initState cfg) es).2, e.type = EV_KEY → e.code % 64 < 31) :
    (run cfg dev (initState cfg) es).1.shadow k = true ↔
      ∃ v, lastKey k (run cfg dev (initState cfg) es).2 = some v ∧ v > 0 := by
  rw [run_shadow, replay_eq_lastKey _ _ _ hlow]
  cases h : lastKey k (run cfg dev (initState cfg) es).2 with
  | none => simp [initState]
  | some v => simp

/-! ## The events written by the first two arms of the RK and AK bodies -/

theorem keyPair_sent_lo (ac : Int → AC) (r : Row3) (hi : Bool) (sh : Int → Bool) (ev : Event) :
    (finish ac (keyPair r true hi { shadow := sh, sent := [] } ev)).2 =
      if sh r.c2 then [relEv r.c2 ev, pressEv r.c1 ev] else [pressEv r.c1 ev] := by
  by_cases h2 : sh r.c2 = true <;>
    simp [finish, keyPair, release, GET, SND, h2, relEv, pressEv]

theorem keyPair_sent_hi (ac : Int → AC) (r : Row3) (sh : Int → Bool) (ev : Event) :
    (finish ac (keyPair r false true { shadow := sh, sent := [] } ev)).2 =
      if sh r.c1 then [relEv r.c1 ev, pressEv r.c2 ev] else [pressEv r.c2 ev] := by
  by_cases h1 : sh r.c1 = true <;>
    simp [finish, keyPair, release, GET, SND, h1, relEv, pressEv]

/-- C1 (witness). Without rules the event `{KEY,30,1}` is written unchanged. -/
theorem C1_passthrough_identity_witness :
    (step cfgNone devPlain (initState cfgNone) ⟨7, EV_KEY, 30, 1⟩).map Prod.snd =
      some [⟨7, EV_KEY, 30, 1⟩] :=
  C1_passthrough_identity cfgNone devPlain (initState cfgNone) ⟨7, EV_KEY, 30, 1⟩
    (by decide) (by decide) (by decide)

/-! ## Arithmetic lemmas -/

theorem wrap_id (x : Int) (h1 : -2147483648 ≤ x) (h2 : x < 2147483648) : wrap x = x := by
  unfold wrap; omega

theorem wrap_range (x : Int) : -2147483648 ≤ wrap x ∧ wrap x < 2147483648 := by
  unfold wrap; omega

/-- The scaling `a * R / d + lo` in `int` arithmetic, when the product fits:
the result lies between `lo` and `lo + R`. -/
theorem scale_bounds (a R d lo : Int) (ha : 0 ≤ a) (had : a ≤ d) (hd : 0 < d) (hR : 0 ≤ R)
    (hprod : d * R < 2147483648) (hlo : -2147483648 ≤ lo) (hhi : lo + R < 2147483648) :
    ∃ w, (cdiv (cmul a R) d).map (fun q => cadd q lo) = some w ∧ lo ≤ w ∧ w ≤ lo + R := by
  have haR : 0 ≤ a * R := mul_nonneg ha hR
  have haR2 : a * R ≤ d * R := mul_le_mul_of_nonneg_right had hR
  have hm : cmul a R = a * R := wrap_id _ (by omega) (by omega)
  have hq0 : 0 ≤ (a * R) / d := Int.ediv_nonneg haR (le_of_lt hd)
  have hq1 : (a * R) / d ≤ R := Int.ediv_le_of_le_mul hd (by rw [mul_comm R d]; exact haR2)
  have hdiv : cdiv (a * R) d = some ((a * R) / d) := by
    unfold cdiv
    rw [if_neg (by omega), Int.tdiv_eq_ediv haR (le_of_lt hd)]
  refine ⟨(a * R) / d + lo, ?_, by omega, by omega⟩
  rw [hm, hdiv]
  simp only [Option.map_some', Option.some.injEq]
  exact wrap_id _ (by omega) (by omega)

/-! ## REL to ABS -/

theorem raValue_bounds (cfg : Config) (dev : Dev) (r : Row2) (v : Int)
    (hr : cfg.rmin < cfg.rmax) (hd : cfg.rmax - cfg.rmin < 2147483648)
    (hrange : dev.uodev.absmin r.c1 ≤ dev.uodev.absmax r.c1)
    (hlo : isInt (dev.uodev.absmin r.c1)) (hhi : isInt (dev.uodev.absmax r.c1))
    (hprod : (cfg.rmax - cfg.rmin) * (dev.uodev.absmax r.c1 - dev.uodev.absmin r.c1)
      < 2147483648) :
    ∃ w, raValue cfg dev r v = some w ∧
      dev.uodev.absmin r.c1 ≤ w ∧ w ≤ dev.uodev.absmax r.c1 := by
  obtain ⟨hlo1, _⟩ := hlo
  obtain ⟨_, hhi2⟩ := hhi
  have hR : 0 ≤ dev.uodev.absmax r.c1 - dev.uodev.absmin r.c1 := by omega
  have hR2 : dev.uodev.absmax r.c1 - dev.uodev.absmin r.c1 < 2147483648 := by nlinarith
  unfold raValue
  simp only
  generalize hv2 : (if (if v < cfg.rmin then cfg.rmin else v) > cfg.rmax then cfg.rmax
    else (if v < cfg.rmin then cfg.rmin else v)) = v2
  have hv2lo : cfg.rmin ≤ v2 := by rw [← hv2]; split_ifs <;> omega
  have hv2hi : v2 ≤ cfg.rmax := by rw [← hv2]; split_ifs <;> omega
  have e1 : csub v2 cfg.rmin = v2 - cfg.rmin := wrap_id _ (by omega) (by omega)
  have e2 : csub (dev.uodev.absmax r.c1) (dev.uodev.absmin r.c1) =
      dev.uodev.absmax r.c1 - dev.uodev.absmin r.c1 := wrap_id _ (by omega) (by omega)
  have e3 : csub cfg.rmax cfg.rmin = cfg.rmax - cfg.rmin := wrap_id _ (by omega) (by omega)
  rw [e1, e2, e3]
  obtain ⟨w, hw, h1, h2⟩ := scale_bounds (v2 - cfg.rmin)
    (dev.uodev.absmax r.c1 - dev.uodev.absmin r.c1) (cfg.rmax - cfg.rmin)
    (dev.uodev.absmin r.c1) (by omega) (by omega) (by omega) hR hprod hlo1 (by omega)
  exact ⟨w, hw, h1, by omega⟩

/-- C4 (failing input). Rule `--rel-abs 0:0`, default `--relconf`
(-128, 128) and `--absconf 0,16777215` on a device with the relative axes 0
and 1: capability synthesis gives output axis 0 the range [0, 16777215], and
the event `{REL,0,128}` is written as `{ABS,0,-1}`, below the minimum of the
axis: the product `(v - rmin) * (absmax - absmin)` = 256 * 16777215 is computed
in `int` and does not fit. -/
theorem C4_rel_clamp_out_of_range :
    (synth cfgRelAbs ibitsMouse absZero).map
        (fun c => (c.uodev.absmin 0, c.uodev.absmax 0)) =
      some (devRelAbs.uodev.absmin 0, devRelAbs.uodev.absmax 0) ∧
    (step cfgRelAbs devRelAbs (initState cfgRelAbs) ⟨0, EV_REL, 0, 128⟩).map Prod.snd =
      some [⟨0, EV_ABS, 0, -1⟩] ∧
    ¬ (devRelAbs.uodev.absmin 0 ≤ (-1 : Int) ∧ (-1 : Int) ≤ devRelAbs.uodev.absmax 0) := by
  decide

/-- Where the product fits, the clamp holds: a REL event handled by the RA row
`r` (no RK and no RR row matches) is written as exactly one ABS event on the
destination axis, and its value lies in the output range `[absmin, absmax]` of
that axis, when `rmin < rmax`, `absmin ≤ absmax`, these are `int` values and
neither `rmax - rmin` nor the product `(rmax - rmin) * (absmax - absmin)`
exceeds the largest `int`. -/
theorem rel_clamp_in_range (cfg : Config) (dev : Dev) (s : LoopState) (ev : Event) (r : Row2)
    (hty : ev.type = EV_REL)
    (hrk : scan Row3.c0 (fun r => decide (r.c0 = ev.code)) cfg.rkm = none)
    (hrr : scan Row2.c0 (fun r => decide (r.c0 = ev.code)) cfg.rrm = none)
    (hra : scan Row2.c0 (fun r => decide (r.c0 = ev.code)) cfg.ram = some r)
    (hr : cfg.rmin < cfg.rmax) (hd : cfg.rmax - cfg.rmin < 2147483648)
    (hrange : dev.uodev.absmin r.c1 ≤ dev.uodev.absmax r.c1)
    (hlo : isInt (dev.uodev.absmin r.c1)) (hhi : isInt (dev.uodev.absmax r.c1))
    (hprod : (cfg.rmax - cfg.rmin) * (dev.uodev.absmax r.c1 - dev.uodev.absmin r.c1)
      < 2147483648) :
    ∃ w, (step cfg dev s ev).map Prod.snd =
        some [{ time := ev.time, type := EV_ABS, code := u16 r.c1, value := w }] ∧
      dev.uodev.absmin r.c1 ≤ w ∧ w ≤ dev.uodev.absmax r.c1 := by
  obtain ⟨w, hw, h1, h2⟩ := raValue_bounds cfg dev r ev.value hr hd hrange hlo hhi hprod
  refine ⟨w, ?_, h1, h2⟩
  rw [step_rel cfg dev s ev hty]
  unfold caseRel
  rw [hrk, hrr, hra]
  simp only [hw]
  simp [finish, SND]

/-- Rule `--rel-abs 0:0` with the built-in defaults, event `{REL,0,5}`. -/
theorem rel_clamp_example :
    ∃ w, (step cfgRelAbsDflt devRelAbsDflt (initState cfgRelAbsDflt) ⟨0, EV_REL, 0, 5⟩).map
        Prod.snd = some [{ time := 0, type := EV_ABS, code := u16 0, value := w }] ∧
      devRelAbsDflt.uodev.absmin 0 ≤ w ∧ w ≤ devRelAbsDflt.uodev.absmax 0 :=
  rel_clamp_in_range cfgRelAbsDflt devRelAbsDflt (initState cfgRelAbsDflt) ⟨0, EV_REL, 0, 5⟩ ⟨0, 0⟩
    (by decide) (by decide) (by decide) (by decide) (by decide) (by decide) (by decide)
    (by unfold isInt; decide) (by unfold isInt; decide) (by decide)

/-! ## Auto-calibration -/

theorem cmul_comm (a b : Int) : cmul a b = cmul b a := by
  unfold cmul; rw [mul_comm]

/-- The rescaling formula stays within `[smin, smin + irng]` when the sample
lies in the learned range and the product `irng * (RMAX - RMIN)` fits an `int`. -/
theorem rescale_bounds (irng smin : Int) (a : AC) (v : Int)
    (hlo : a.RMIN ≤ v) (hhi : v ≤ a.RMAX) (hlt : a.RMIN < a.RMAX)
    (hd : a.RMAX - a.RMIN < 2147483648) (hR : 0 ≤ irng)
    (hprod : (a.RMAX - a.RMIN) * irng < 2147483648)
    (hs1 : -2147483648 ≤ smin) (hs2 : smin + irng < 2147483648) :
    ∃ w, rescale irng smin a v = some w ∧ smin ≤ w ∧ w ≤ smin + irng := by
  unfold rescale
  have e1 : csub v a.RMIN = v - a.RMIN := wrap_id _ (by omega) (by omega)
  have e2 : csub a.RMAX a.RMIN = a.RMAX - a.RMIN := wrap_id _ (by omega) (by omega)
  rw [e1, e2, cmul_comm]
  exact scale_bounds (v - a.RMIN) irng (a.RMAX - a.RMIN) smin (by omega) (by omega) (by omega)
    hR hprod hs1 hs2

/-- C5 (failing input). Axis 0 declared as [-32767, 32767] and normalised with
the default configuration.  After the samples -32767 and 32767 the axis is
READY with the learned range [-32767, 32767]; the next sample 32767 is
accepted, the coverage test passes (`nrng = 0`), and the value written is
-32771, below the declared minimum: `irng * (value - RMIN)` = 65534 * 65534
does not fit an `int`. -/
theorem C5_rescale_out_of_range :
    ((run cfgNorm devJoy (initState cfgNorm)
        [⟨0, EV_ABS, 0, -32767⟩, ⟨1, EV_ABS, 0, 32767⟩]).1.ac 0).RDY = 1 ∧
    (run cfgNorm devJoy (initState cfgNorm)
        [⟨0, EV_ABS, 0, -32767⟩, ⟨1, EV_ABS, 0, 32767⟩, ⟨2, EV_ABS, 0, 32767⟩]).2 =
      [⟨0, EV_ABS, 0, -32767⟩, ⟨1, EV_ABS, 0, 32767⟩, ⟨2, EV_ABS, 0, -32771⟩] ∧
    ¬ (devJoy.uidev.absmin 0 ≤ (-32771 : Int)) := by
  decide

theorem resetCode_noswap (cfg : Config) (irng : Int) (a : AC) (v : Int)
    (h : (resetCode cfg irng a v).2 = false) :
    (resetCode cfg irng a v).1.RMIN = a.RMIN ∧ (resetCode cfg irng a v).1.RMAX = a.RMAX := by
  have haux : (auxWiden a v).RMIN = a.RMIN ∧ (auxWiden a v).RMAX = a.RMAX := by
    unfold auxWiden
    simp only
    split_ifs <;> exact ⟨rfl, rfl⟩
  unfold resetCode at h ⊢
  split_ifs at h ⊢
  all_goals first | exact haux | exact ⟨rfl, rfl⟩

theorem afterSpike_range (cfg : Config) (irng : Int) (a : AC) (v : Int) :
    (afterSpike cfg irng a v).RMIN = a.RMIN ∧ (afterSpike cfg irng a v).RMAX = a.RMAX := by
  unfold afterSpike
  split_ifs <;> simp

theorem afterReset_noswap (cfg : Config) (irng : Int) (a : AC) (v : Int)
    (h : (afterReset cfg irng a v).2 = false) :
    (afterReset cfg irng a v).1.RMIN = a.RMIN ∧ (afterReset cfg irng a v).1.RMAX = a.RMAX := by
  unfold afterReset at h ⊢
  split_ifs at h ⊢
  · obtain ⟨h1, h2⟩ := resetCode_noswap cfg irng _ v h
    rw [h1, h2]
    exact afterSpike_range cfg irng a v
  · exact afterSpike_range cfg irng a v

theorem widen_range (a : AC) (v : Int) :
    (widen a v).RMIN = min a.RMIN v ∧ (widen a v).RMAX = max a.RMAX v := by
  unfold widen
  simp only
  split_ifs <;> simp only [] at * <;> constructor <;> omega

theorem normReady_ac (cfg : Config) (irng smin : Int) (ac : AC) (v : Int)
    (h : spike cfg irng ac.LAST v = false) :
    (normReady cfg irng smin ac v).ac = widen (afterReset cfg irng ac v).1 v := by
  unfold normReady
  rw [h]
  simp only [Bool.false_eq_true, if_false]
  split_ifs
  · split <;> rfl
  · rfl

/-- C6. Normalizer monotone learning: a step of the auto-calibration code
taken with the ready flag set and without a rescan swap leaves `RMIN` not
greater and `RMAX` not smaller than before. -/
theorem C6_monotone_learning (cfg : Config) (irng smin : Int) (ac : AC) (v : Int)
    (hrdy : ac.RDY ≠ 0) (hns : swaps cfg irng ac v = false) :
    (normOnce cfg irng smin ac v).ac.RMIN ≤ ac.RMIN ∧
      ac.RMAX ≤ (normOnce cfg irng smin ac v).ac.RMAX := by
  unfold normOnce
  rw [if_pos hrdy]
  by_cases hsp : spike cfg irng ac.LAST v = true
  · unfold normReady
    rw [if_pos hsp]
    exact ⟨le_refl _, le_refl _⟩
  · have hsp2 : spike cfg irng ac.LAST v = false := by simpa using hsp
    have hsw : (afterReset cfg irng ac v).2 = false := by
      unfold swaps at hns
      rw [hsp2] at hns
      simpa using hns
    rw [normReady_ac cfg irng smin ac v hsp2]
    obtain ⟨h1, h2⟩ := widen_range (afterReset cfg irng ac v).1 v
    obtain ⟨h3, h4⟩ := afterReset_noswap cfg irng ac v hsw
    rw [h1, h2, h3, h4]
    exact ⟨min_le_left _ _, le_max_left _ _⟩

theorem resetCode_frame (cfg : Config) (irng : Int) (a : AC) (v : Int) :
    (resetCode cfg irng a v).1.RDY = a.RDY ∧ (resetCode cfg irng a v).1.LAST = a.LAST := by
  have haux : (auxWiden a v).RDY = a.RDY ∧ (auxWiden a v).LAST = a.LAST := by
    unfold auxWiden
    simp only
    split_ifs <;> exact ⟨rfl, rfl⟩
  unfold resetCode
  split_ifs
  all_goals first | exact haux | exact ⟨rfl, rfl⟩

theorem afterReset_frame (cfg : Config) (irng : Int) (a : AC) (v : Int) :
    (afterReset cfg irng a v).1.RDY = a.RDY ∧
      (afterReset cfg irng a v).1.LAST = (afterSpike cfg irng a v).LAST := by
  have hs : (afterSpike cfg irng a v).RDY = a.RDY := by
    unfold afterSpike; split_ifs <;> rfl
  unfold afterReset
  split_ifs
  · obtain ⟨h1, h2⟩ := resetCode_frame cfg irng (afterSpike cfg irng a v) v
    exact ⟨h1.trans hs, h2⟩
  · exact ⟨hs, rfl⟩

theorem widen_frame (a : AC) (v : Int) :
    (widen a v).RDY = a.RDY ∧ (widen a v).LAST = a.LAST := by
  unfold widen
  simp only
  split_ifs <;> exact ⟨rfl, rfl⟩

theorem normReady_result (cfg : Config) (irng smin : Int) (ac : AC) (v : Int)
    (h : spike cfg irng ac.LAST v = false) :
    (normReady cfg irng smin ac v).result =
      gated cfg irng smin (widen (afterReset cfg irng ac v).1 v).RMIN
        (widen (afterReset cfg irng ac v).1 v).RMAX v := by
  unfold normReady gated
  rw [h]
  simp only [Bool.false_eq_true, if_false]
  split_ifs
  · unfold rescale
    cases hc : cdiv (cmul irng (csub v (widen (afterReset cfg irng ac v).1 v).RMIN))
      (csub (widen (afterReset cfg irng ac v).1 v).RMAX (widen (afterReset cfg irng ac v).1 v).RMIN)
      <;> simp [NormOut.result]
  · rfl

/-- A sample equal to the last accepted one passes the spike test. -/
theorem spike_self (cfg : Config) (irng : Int) (a : AC) (v : Int) :
    spike cfg irng (afterSpike cfg irng a v).LAST v = false := by
  unfold spike afterSpike
  by_cases hen : (cfg.nspk : Int) > 0 ∧ (cfg.nspkmin : Int) < irng
  · rw [if_pos hen]
    have hpos : (0 : Int) ≤ (cfg.nspkmin : Int) := Int.ofNat_nonneg _
    simp only [sub_self, abs_zero, zero_mul, decide_eq_false_iff_not, not_and, not_lt]
    intro _ _
    omega
  · rw [if_neg hen]
    simp only [decide_eq_false_iff_not]
    intro h
    exact hen ⟨h.1, h.2.1⟩

/-- C7 (amended). Normalizer idempotence: with the ready flag set, feeding the
same value twice yields on the second call what the first call yielded
(dropped, passed with the same value, or trapped), provided the second call
does not perform a rescan swap; in particular whenever `nrst = 0`. -/
theorem C7_idempotent (cfg : Config) (irng smin : Int) (ac : AC) (v : Int)
    (hrdy : ac.RDY ≠ 0)
    (hns : swaps cfg irng (normOnce cfg irng smin ac v).ac v = false) :
    (normOnce cfg irng smin (normOnce cfg irng smin ac v).ac v).result =
      (normOnce cfg irng smin ac v).result := by
  have e1 : normOnce cfg irng smin ac v = normReady cfg irng smin ac v := by
    unfold normOnce; rw [if_pos hrdy]
  by_cases hsp : spike cfg irng ac.LAST v = true
  · have hd : normOnce cfg irng smin ac v = NormOut.drop ac := by
      rw [e1]; unfold normReady; rw [if_pos hsp]
    rw [hd]
    show (normOnce cfg irng smin ac v).result = _
    rw [hd]
  · have hsp2 : spike cfg irng ac.LAST v = false := by simpa using hsp
    have hac : (normOnce cfg irng smin ac v).ac = widen (afterReset cfg irng ac v).1 v := by
      rw [e1]; exact normReady_ac cfg irng smin ac v hsp2
    rw [hac] at hns ⊢
    generalize ha1 : widen (afterReset cfg irng ac v).1 v = a1 at hns ⊢
    have hrdy1 : a1.RDY ≠ 0 := by
      rw [← ha1, (widen_frame _ v).1, (afterReset_frame cfg irng ac v).1]; exact hrdy
    have hlast : a1.LAST = (afterSpike cfg irng ac v).LAST := by
      rw [← ha1, (widen_frame _ v).2, (afterReset_frame cfg irng ac v).2]
    have hsp1 : spike cfg irng a1.LAST v = false := by
      rw [hlast]; exact spike_self cfg irng ac v
    have hsw : (afterReset cfg irng a1 v).2 = false := by
      unfold swaps at hns
      rw [hsp1] at hns
      simpa using hns
    have hin : a1.RMIN ≤ v ∧ v ≤ a1.RMAX := by
      obtain ⟨h1, h2⟩ := widen_range (afterReset cfg irng ac v).1 v
      rw [← ha1, h1, h2]
      exact ⟨min_le_right _ _, le_max_right _ _⟩
    have e2 : normOnce cfg irng smin a1 v = normReady cfg irng smin a1 v := by
      unfold normOnce; rw [if_pos hrdy1]
    rw [e2, e1, normReady_result cfg irng smin a1 v hsp1,
      normReady_result cfg irng smin ac v hsp2, ha1]
    obtain ⟨h1, h2⟩ := widen_range (afterReset cfg irng a1 v).1 v
    obtain ⟨h3, h4⟩ := afterReset_noswap cfg irng a1 v hsw
    rw [h1, h2, h3, h4, min_eq_left hin.1, max_eq_left hin.2]

theorem swaps_of_nrst_zero (cfg : Config) (irng : Int) (ac : AC) (v : Int)
    (h : cfg.nrst = 0) : swaps cfg irng ac v = false := by
  unfold swaps afterReset
  simp [h]

/-- C6 (witness). Range [400, 600], default configuration, sample 700. -/
theorem C6_monotone_learning_witness :
    (normOnce cfgNorm 1000 0 acReady 700).ac.RMIN ≤ acReady.RMIN ∧
      acReady.RMAX ≤ (normOnce cfgNorm 1000 0 acReady 700).ac.RMAX :=
  C6_monotone_learning cfgNorm 1000 0 acReady 700 (by decide) (by decide)

/-- C7 (counterexample). Axis 0 declared as [0, 1000], `--normconf 0,0,3`.
After the samples 100, 900, 400, 600 the axis is READY; feeding 450 yields
437, feeding 450 again yields 250: the second call reaches the rescan period
and replaces the learned range [100, 900] by the window [400, 600]. -/
theorem C7_counterexample :
    ((run cfgRescan devK (initState cfgRescan)
        [⟨0, EV_ABS, 0, 100⟩, ⟨1, EV_ABS, 0, 900⟩, ⟨2, EV_ABS, 0, 400⟩,
         ⟨3, EV_ABS, 0, 600⟩]).1.ac 0).RDY = 1 ∧
    (normOnce cfgRescan 1000 0
      ((run cfgRescan devK (initState cfgRescan)
        [⟨0, EV_ABS, 0, 100⟩, ⟨1, EV_ABS, 0, 900⟩, ⟨2, EV_ABS, 0, 400⟩,
         ⟨3, EV_ABS, 0, 600⟩]).1.ac 0) 450).result = some (some 437) ∧
    (normOnce cfgRescan 1000 0
      (normOnce cfgRescan 1000 0
        ((run cfgRescan devK (initState cfgRescan)
          [⟨0, EV_ABS, 0, 100⟩, ⟨1, EV_ABS, 0, 900⟩, ⟨2, EV_ABS, 0, 400⟩,
           ⟨3, EV_ABS, 0, 600⟩]).1.ac 0) 450).ac 450).result = some (some 250) := by
  decide

/-- C7 (witness). Range [400, 600], no rescan, sample 500 fed twice. -/
theorem C7_idempotent_witness :
    (normOnce cfgNorm 1000 0 (normOnce cfgNorm 1000 0 acReady 500).ac 500).result =
      (normOnce cfgNorm 1000 0 acReady 500).result :=
  C7_idempotent cfgNorm 1000 0 acReady 500 (by decide) (by decide)

/-! ## Capability synthesis -/

theorem forRows_induct {R S : Type} (P : S → Prop) (c0 : R → Int) (body : R → S → S)
    (t : List R) (h : ∀ r ∈ t, ∀ s, P s → P (body r s)) :
    ∀ s, P s → P (forRows c0 body t s) := by
  induction t with
  | nil => intro s hs; exact hs
  | cons r rs ih =>
    intro s hs
    unfold forRows
    split_ifs
    · exact hs
    · exact ih (fun x hx => h x (List.mem_cons_of_mem r hx)) _
        (h r (List.mem_cons_self r rs) s hs)

/-! ## Rules on codes the device does not advertise -/

theorem forRows_insert {R S : Type} (c0 : R → Int) (body : R → S → S) (t1 t2 : List R)
    (r : R) (hc0 : c0 r ≠ -1) (hid : ∀ s, body r s = s) :
    ∀ s, forRows c0 body (t1 ++ r :: t2) s = forRows c0 body (t1 ++ t2) s := by
  induction t1 with
  | nil =>
    intro s
    simp only [List.nil_append]
    rw [forRows, if_neg hc0, hid]
  | cons x xs ih =>
    intro s
    simp only [List.cons_append, forRows]
    split_ifs
    · rfl
    · exact ih _

theorem tableBlock_insert {R : Type} (c0 : R → Int) (body : R → Caps → Caps)
    (t1 t2 : List R) (r : R) (fam : Int) (c : Caps) (hne : t1 ++ t2 ≠ [])
    (hc0 : c0 r ≠ -1) (hid : ∀ s, body r s = s) :
    tableBlock (t1 ++ r :: t2) fam (forRows c0 body (t1 ++ r :: t2)) c =
      tableBlock (t1 ++ t2) fam (forRows c0 body (t1 ++ t2)) c := by
  have e1 : (t1 ++ r :: t2).isEmpty = false := by
    cases t1 <;> rfl
  have e2 : (t1 ++ t2).isEmpty = false := by
    cases h : t1 ++ t2 with
    | nil => exact absurd h hne
    | cons _ _ => rfl
  unfold tableBlock
  rw [e1, e2]
  simp only [Bool.false_eq_true, if_false]
  exact forRows_insert c0 body t1 t2 r hc0 hid _

theorem arLoop_append (akm : List Row3) (ibits : Int → Int → Bool) (r : Row2)
    (hc0 : r.c0 ≠ -1) (hbit : GET (ibits EV_ABS) r.c0 = false) :
    ∀ (t : List Row2) (i : Nat) (c : Caps),
      arLoop akm ibits i (t ++ [r]) c = arLoop akm ibits i t c := by
  intro t
  induction t with
  | nil =>
    intro i c
    simp [arLoop, hc0, hbit]
  | cons x xs ih =>
    intro i c
    simp only [List.cons_append, arLoop]
    split_ifs
    · rfl
    · cases AKM0 akm i with
      | none => rfl
      | some a => exact ih _ _
    · exact ih _ _

theorem arBlock_append (cfg : Config) (ibits : Int → Int → Bool) (r : Row2) (c : Caps)
    (hne : cfg.arm ≠ []) (hc0 : r.c0 ≠ -1) (hbit : GET (ibits EV_ABS) r.c0 = false) :
    arBlock { cfg with arm := cfg.arm ++ [r] } ibits c = arBlock cfg ibits c := by
  have e1 : (cfg.arm ++ [r]).isEmpty = false := by
    cases cfg.arm <;> rfl
  have e2 : cfg.arm.isEmpty = false := by
    cases h : cfg.arm with
    | nil => exact absurd h hne
    | cons _ _ => rfl
  unfold arBlock
  simp only [e1, e2, Bool.false_eq_true, if_false]
  exact arLoop_append cfg.akm ibits r hc0 hbit cfg.arm 0 _

theorem arBlock_no_arm (cfg : Config) (ibits : Int → Int → Bool) (c : Caps)
    (h : cfg.arm = []) : arBlock cfg ibits c = some c := by
  unfold arBlock
  rw [h]
  rfl

theorem kkBody_off (ibits : Int → Int → Bool) (r : Row2) (h : GET (ibits EV_KEY) r.c0 = false)
    (s : Caps) : kkBody ibits r s = s := by
  unfold kkBody; rw [h]; rfl

theorem krBody_off (ibits : Int → Int → Bool) (r : Row3)
    (h : (GET (ibits EV_KEY) r.c0 && GET (ibits EV_KEY) r.c1) = false)
    (s : Caps) : krBody ibits r s = s := by
  unfold krBody; rw [h]; rfl

theorem kaBody_off (amin amax : Int) (ibits : Int → Int → Bool) (r : Row3)
    (h : (GET (ibits EV_KEY) r.c0 && GET (ibits EV_KEY) r.c1) = false)
    (s : Caps) : kaBody amin amax ibits r s = s := by
  unfold kaBody; rw [h]; rfl

theorem rkBody_off (ibits : Int → Int → Bool) (r : Row3) (h : GET (ibits EV_REL) r.c0 = false)
    (s : Caps) : rkBody ibits r s = s := by
  unfold rkBody; rw [h]; rfl

theorem rrBody_off (ibits : Int → Int → Bool) (r : Row2) (h : GET (ibits EV_REL) r.c0 = false)
    (s : Caps) : rrBody ibits r s = s := by
  unfold rrBody; rw [h]; rfl

theorem raBody_off (amin amax : Int) (ibits : Int → Int → Bool) (r : Row2)
    (h : GET (ibits EV_REL) r.c0 = false) (s : Caps) : raBody amin amax ibits r s = s := by
  unfold raBody; rw [h]; rfl

theorem akBody_off (ibits : Int → Int → Bool) (r : Row3) (h : GET (ibits EV_ABS) r.c0 = false)
    (s : Caps) : akBody ibits r s = s := by
  unfold akBody; rw [h]; rfl

theorem aaBody_off (ibits : Int → Int → Bool) (r : Row2) (h : GET (ibits EV_ABS) r.c0 = false)
    (s : Caps) : aaBody ibits r s = s := by
  unfold aaBody; rw [h]; rfl

/-- C10 (amended). Unadvertised rules are ignored: adding to a rule table that
already holds a rule one more rule whose source is not the terminator `-1`
and whose source code(s) the source device does not advertise leaves the
whole result of capability synthesis unchanged (top-level row, output code
bitmaps, output axis metadata, consumed bitmap).  For the AR table the rule is
appended at the end; for the AK table no AR table is configured. -/
theorem C10_unadvertised_ignored (cfg cfg1 : Config) (ibits : Int → Int → Bool)
    (uidev : AbsInfo) (h : Adds ibits cfg cfg1) :
    synth cfg1 ibits uidev = synth cfg ibits uidev := by
  rcases h with ⟨t1, t2, r, ht, hne, hc0, hbit, rfl⟩ | ⟨t1, t2, r, ht, hne, hc0, hbit, rfl⟩ |
    ⟨t1, t2, r, ht, hne, hc0, hbit, rfl⟩ | ⟨t1, t2, r, ht, hne, hc0, hbit, rfl⟩ |
    ⟨t1, t2, r, ht, hne, hc0, hbit, rfl⟩ | ⟨t1, t2, r, ht, hne, hc0, hbit, rfl⟩ |
    ⟨t1, t2, r, ht, hne, hc0, harm, hbit, rfl⟩ | ⟨r, hne, hc0, hbit, rfl⟩ |
    ⟨t1, t2, r, ht, hne, hc0, hbit, rfl⟩
  · rw [ht] at hne
    unfold synth synthHead arBlock
    dsimp only
    rw [ht, tableBlock_insert Row2.c0 (kkBody ibits) t1 t2 r EV_KEY _ hne hc0 (kkBody_off ibits r hbit)]
  · rw [ht] at hne
    unfold synth synthHead arBlock
    dsimp only
    rw [ht, tableBlock_insert Row3.c0 (krBody ibits) t1 t2 r EV_REL _ hne hc0 (krBody_off ibits r hbit)]
  · rw [ht] at hne
    unfold synth synthHead arBlock
    dsimp only
    rw [ht, tableBlock_insert Row3.c0 (kaBody cfg.amin cfg.amax ibits) t1 t2 r EV_ABS _ hne hc0
      (kaBody_off _ _ ibits r hbit)]
  · rw [ht] at hne
    unfold synth synthHead arBlock
    dsimp only
    rw [ht, tableBlock_insert Row3.c0 (rkBody ibits) t1 t2 r EV_KEY _ hne hc0 (rkBody_off ibits r hbit)]
  · rw [ht] at hne
    unfold synth synthHead arBlock
    dsimp only
    rw [ht, tableBlock_insert Row2.c0 (rrBody ibits) t1 t2 r EV_REL _ hne hc0 (rrBody_off ibits r hbit)]
  · rw [ht] at hne
    unfold synth synthHead arBlock
    dsimp only
    rw [ht, tableBlock_insert Row2.c0 (raBody cfg.amin cfg.amax ibits) t1 t2 r EV_ABS _ hne hc0
      (raBody_off _ _ ibits r hbit)]
  · rw [ht] at hne
    unfold synth
    rw [arBlock_no_arm { cfg with akm := t1 ++ r :: t2 } ibits _ harm,
      arBlock_no_arm cfg ibits _ harm]
    unfold synthHead
    dsimp only
    rw [ht, tableBlock_insert Row3.c0 (akBody ibits) t1 t2 r EV_KEY _ hne hc0 (akBody_off ibits r hbit)]
  · unfold synth
    have e : synthHead { cfg with arm := cfg.arm ++ [r] } ibits uidev = synthHead cfg ibits uidev := rfl
    rw [e, arBlock_append cfg ibits r _ hne hc0 hbit]
  · rw [ht] at hne
    unfold synth
    have e1 : synthHead { cfg with aam := t1 ++ r :: t2 } ibits uidev = synthHead cfg ibits uidev :=
      rfl
    have e2 : ∀ c, arBlock { cfg with aam := t1 ++ r :: t2 } ibits c = arBlock cfg ibits c :=
      fun _ => rfl
    rw [e1, e2]
    dsimp only
    cases arBlock cfg ibits (synthHead cfg ibits uidev) with
    | none => rfl
    | some c =>
      dsimp only
      rw [ht, tableBlock_insert Row2.c0 (aaBody ibits) t1 t2 r EV_ABS _ hne hc0
        (aaBody_off ibits r hbit)]

/-- C10 (counterexample). On a device without keys the rule `--key-key 30:48`,
as the only rule of its table, changes the result of capability synthesis:
the family KEY is enabled in the top-level row of the output. -/
theorem C10_counterexample :
    GET (ibitsMouse EV_KEY) 30 = false ∧
    (synth cfgNone ibitsMouse absZero).map (fun c => c.obits EV_EV EV_KEY) = some false ∧
    (synth cfgKK ibitsMouse absZero).map (fun c => c.obits EV_EV EV_KEY) = some true := by
  decide

/-- C10 (witness). On a device with key 30 only, adding `31:49` to the table
that holds `30:48` changes nothing. -/
theorem C10_unadvertised_ignored_witness :
    synth cfgKK2 ibitsKey30 absZero = synth cfgKK ibitsKey30 absZero :=
  C10_unadvertised_ignored cfgKK cfgKK2 ibitsKey30 absZero
    (Or.inl ⟨[⟨30, 48⟩], [], ⟨31, 49⟩, rfl, by decide, by decide, by decide, rfl⟩)

/-- C9 (failing input). Rules `--abs-key 1:105,106 --abs-rel 0:5` on a device
with the absolute axes 0 and 1.  The AR rule fires (axis 0 is advertised and
REL 5 is set in the output), but the bit set in the consumed bitmap is
`AKM(0, 0)` = 1, not `ARM(0, 0)` = 0: axis 0 is not consumed and is passed
through to the output ABS bitmap, although no rule names it as a destination. -/
theorem C9_ar_source_not_consumed :
    GET (ibitsStick EV_ABS) 0 = true ∧
    (synth cfgAbsRel ibitsStick absZero).map
        (fun c => (c.obits EV_REL 5, c.rbits EV_ABS 0, c.rbits EV_ABS 1, c.obits EV_ABS 0)) =
      some (true, false, true, true) := by
  decide

theorem arLoop_isSome (akm : List Row3) (ibits : Int → Int → Bool)
    (hpos : ∀ r ∈ akm, 0 ≤ r.c0) :
    ∀ (t : List Row2) (i : Nat) (c : Caps), i + t.length ≤ akm.length →
      (arLoop akm ibits i t c).isSome = true := by
  intro t
  induction t with
  | nil => intro i c _; rfl
  | cons r rs ih =>
    intro i c hlen
    simp only [List.length_cons] at hlen
    unfold arLoop
    split_ifs
    · rfl
    · have h1 : i < akm.length := by omega
      have hne : akm.isEmpty = false := by
        cases h : akm with
        | nil => rw [h] at h1; simp at h1
        | cons _ _ => rfl
      have hx : akm.get? i = some (akm.get ⟨i, h1⟩) := List.get?_eq_some.mpr ⟨h1, rfl⟩
      have hnn : ¬ (akm.get ⟨i, h1⟩).c0 < 0 := not_lt.mpr (hpos _ (List.get_mem akm i h1))
      have ha : AKM0 akm i = some (akm.get ⟨i, h1⟩).c0 := by
        unfold AKM0
        rw [hne]
        simp only [Bool.false_eq_true, if_false]
        rw [if_pos h1, hx]
        simp only [Option.some_bind, if_neg hnn]
      rw [ha]
      exact ih (i + 1) _ (by omega)
    · exact ih (i + 1) c (by omega)

/-- Capability synthesis ends normally when there is no AR table, or when the
AR table has no more rows than the AK table and no row of the AK table has a
negative source. -/
theorem synth_isSome (cfg : Config) (ibits : Int → Int → Bool) (uidev : AbsInfo)
    (h : cfg.arm = [] ∨ (cfg.arm.length ≤ cfg.akm.length ∧ ∀ r ∈ cfg.akm, 0 ≤ r.c0)) :
    (synth cfg ibits uidev).isSome = true := by
  have hb : (arBlock cfg ibits (synthHead cfg ibits uidev)).isSome = true := by
    rcases h with h | ⟨h1, h2⟩
    · rw [arBlock_no_arm cfg ibits _ h]; rfl
    · unfold arBlock
      split_ifs
      · rfl
      · exact arLoop_isSome cfg.akm ibits h2 cfg.arm 0 _ (by omega)
  unfold synth
  cases hc : arBlock cfg ibits (synthHead cfg ibits uidev) with
  | none => rw [hc] at hb; cases hb
  | some c => rfl

/-! ## Sources of firing rules are consumed (all tables but AR) -/

/-- `SET(m[f], b, 1)` sets bit `b` when the offset of `b` within its word is
below 32. -/
theorem SETF_self (m : Int → Int → Bool) (f b : Int) (hb : b % 64 < 32) :
    SETF m f b f b = true := by
  unfold SETF
  rw [if_pos rfl, SET_apply]
  have hcond : b / 64 = b / 64 ∧ (if b % 32 = 31 then 31 ≤ b % 64 else b % 64 = b % 32) := by
    refine ⟨rfl, ?_⟩
    split_ifs <;> omega
  rw [if_pos hcond]
  decide

theorem SETF_mono (m : Int → Int → Bool) (f b g x : Int) (h : m g x = true) :
    SETF m f b g x = true := by
  unfold SETF
  by_cases hg : g = f
  · rw [if_pos hg, SET_apply]
    by_cases hc : x / 64 = b / 64 ∧ (if b % 32 = 31 then 31 ≤ x % 64 else x % 64 = b % 32)
    · rw [if_pos hc]; decide
    · rw [if_neg hc]; exact h
  · rw [if_neg hg]; exact h

theorem forRows_reached {R : Type} (Q : Caps → Prop) (c0 : R → Int) (body : R → Caps → Caps)
    (hmono : ∀ r s, Q s → Q (body r s)) (r : R) (hset : ∀ s, Q (body r s)) :
    ∀ (t : List R), r ∈ reached c0 t → ∀ s, Q (forRows c0 body t s) := by
  intro t
  induction t with
  | nil => intro h; simp [reached] at h
  | cons x xs ih =>
    intro h s
    unfold reached at h
    rw [List.takeWhile_cons] at h
    unfold forRows
    by_cases hx : c0 x = -1
    · simp [hx] at h
    · rw [if_neg hx]
      simp only [hx, ne_eq, not_false_eq_true, decide_True, if_true, List.mem_cons] at h
      rcases h with h | h
      · rw [← h]
        exact forRows_induct Q c0 body xs (fun y _ s1 hs1 => hmono y s1 hs1) _ (hset s)
      · exact ih h _

theorem block_mono {R : Type} (Q : Caps → Prop) (t : List R) (fam : Int) (c0 : R → Int)
    (body : R → Caps → Caps) (htop : ∀ s, Q s → Q { s with obits := SETF s.obits EV_EV fam })
    (hmono : ∀ r s, Q s → Q (body r s)) (c : Caps) (h : Q c) :
    Q (tableBlock t fam (forRows c0 body t) c) := by
  unfold tableBlock
  split_ifs
  · exact h
  · exact forRows_induct Q c0 body t (fun y _ s1 hs1 => hmono y s1 hs1) _ (htop c h)

theorem block_sets {R : Type} (Q : Caps → Prop) (t : List R) (fam : Int) (c0 : R → Int)
    (body : R → Caps → Caps) (hmono : ∀ r s, Q s → Q (body r s)) (r : R)
    (hr : r ∈ reached c0 t) (hset : ∀ s, Q (body r s)) (c : Caps) :
    Q (tableBlock t fam (forRows c0 body t) c) := by
  have hne : t.isEmpty = false := by
    cases t with
    | nil => simp [reached] at hr
    | cons _ _ => rfl
  unfold tableBlock
  rw [hne]
  exact forRows_reached Q c0 body hmono r hset t hr _

theorem Marked_top (f b fam : Int) (s : Caps) (h : Marked f b s) :
    Marked f b { s with obits := SETF s.obits EV_EV fam } := h

theorem Marked_kk (f b : Int) (ibits : Int → Int → Bool) (r : Row2) (s : Caps)
    (h : Marked f b s) : Marked f b (kkBody ibits r s) := by
  unfold kkBody; split_ifs
  · exact SETF_mono _ _ _ _ _ h
  · exact h

theorem Marked_kr (f b : Int) (ibits : Int → Int → Bool) (r : Row3) (s : Caps)
    (h : Marked f b s) : Marked f b (krBody ibits r s) := by
  unfold krBody; split_ifs
  · exact SETF_mono _ _ _ _ _ (SETF_mono _ _ _ _ _ h)
  · exact h

theorem Marked_ka (f b amin amax : Int) (ibits : Int → Int → Bool) (r : Row3) (s : Caps)
    (h : Marked f b s) : Marked f b (kaBody amin amax ibits r s) := by
  unfold kaBody; split_ifs
  · exact SETF_mono _ _ _ _ _ (SETF_mono _ _ _ _ _ h)
  · exact h

theorem Marked_rk (f b : Int) (ibits : Int → Int → Bool) (r : Row3) (s : Caps)
    (h : Marked f b s) : Marked f b (rkBody ibits r s) := by
  unfold rkBody; split_ifs
  · exact SETF_mono _ _ _ _ _ h
  · exact h

theorem Marked_rr (f b : Int) (ibits : Int → Int → Bool) (r : Row2) (s : Caps)
    (h : Marked f b s) : Marked f b (rrBody ibits r s) := by
  unfold rrBody; split_ifs
  · exact SETF_mono _ _ _ _ _ h
  · exact h

theorem Marked_ra (f b amin amax : Int) (ibits : Int → Int → Bool) (r : Row2) (s : Caps)
    (h : Marked f b s) : Marked f b (raBody amin amax ibits r s) := by
  unfold raBody; split_ifs
  · exact SETF_mono _ _ _ _ _ h
  · exact h

theorem Marked_ak (f b : Int) (ibits : Int → Int → Bool) (r : Row3) (s : Caps)
    (h : Marked f b s) : Marked f b (akBody ibits r s) := by
  unfold akBody; split_ifs
  · exact SETF_mono _ _ _ _ _ h
  · exact h

theorem Marked_aa (f b : Int) (ibits : Int → Int → Bool) (r : Row2) (s : Caps)
    (h : Marked f b s) : Marked f b (aaBody ibits r s) := by
  unfold aaBody; split_ifs
  · exact SETF_mono _ _ _ _ _ h
  · exact h

theorem Marked_arLoop (f b : Int) (akm : List Row3) (ibits : Int → Int → Bool) :
    ∀ (t : List Row2) (i : Nat) (c c1 : Caps), Marked f b c →
      arLoop akm ibits i t c = some c1 → Marked f b c1 := by
  intro t
  induction t with
  | nil => intro i c c1 h hc; unfold arLoop at hc; cases hc; exact h
  | cons r rs ih =>
    intro i c c1 h hc
    unfold arLoop at hc
    split_ifs at hc
    · cases hc; exact h
    · cases ha : AKM0 akm i with
      | none => rw [ha] at hc; cases hc
      | some a =>
        rw [ha] at hc
        refine ih (i + 1) _ c1 ?_ hc
        exact SETF_mono c.rbits EV_ABS a f b h
    · exact ih (i + 1) c c1 h hc

/-- A code marked at the end of the AK block is marked in the result. -/
theorem Marked_tail (f b : Int) (cfg : Config) (ibits : Int → Int → Bool) (c0 c : Caps)
    (h : Marked f b c0)
    (hs : (match arBlock cfg ibits c0 with
      | none => none
      | some c1 =>
        some (merge ibits (tableBlock cfg.aam EV_ABS (forRows Row2.c0 (aaBody ibits) cfg.aam) c1)))
      = some c) : Marked f b c := by
  cases hb : arBlock cfg ibits c0 with
  | none => rw [hb] at hs; cases hs
  | some c1 =>
    rw [hb] at hs
    simp only [Option.some.injEq] at hs
    have h1 : Marked f b c1 := by
      unfold arBlock at hb
      split_ifs at hb
      · cases hb; exact h
      · exact Marked_arLoop f b cfg.akm ibits cfg.arm 0 _ c1 (Marked_top f b EV_REL c0 h) hb
    have h2 := block_mono (Marked f b) cfg.aam EV_ABS Row2.c0 (aaBody ibits)
      (fun s hs => Marked_top f b EV_ABS s hs) (fun r s hs => Marked_aa f b ibits r s hs) c1 h1
    rw [← hs]
    exact h2

theorem mono_kk (f b : Int) (cfg : Config) (ibits : Int → Int → Bool) (c : Caps)
    (h : Marked f b c) :
    Marked f b (tableBlock cfg.kkm EV_KEY (forRows Row2.c0 (kkBody ibits) cfg.kkm) c) :=
  block_mono (Marked f b) _ _ _ _ (fun s hs => Marked_top f b _ s hs)
    (fun r s hs => Marked_kk f b ibits r s hs) c h

theorem mono_kr (f b : Int) (cfg : Config) (ibits : Int → Int → Bool) (c : Caps)
    (h : Marked f b c) :
    Marked f b (tableBlock cfg.krm EV_REL (forRows Row3.c0 (krBody ibits) cfg.krm) c) :=
  block_mono (Marked f b) _ _ _ _ (fun s hs => Marked_top f b _ s hs)
    (fun r s hs => Marked_kr f b ibits r s hs) c h

theorem mono_ka (f b : Int) (cfg : Config) (ibits : Int → Int → Bool) (c : Caps)
    (h : Marked f b c) :
    Marked f b (tableBlock cfg.kam EV_ABS
      (forRows Row3.c0 (kaBody cfg.amin cfg.amax ibits) cfg.kam) c) :=
  block_mono (Marked f b) _ _ _ _ (fun s hs => Marked_top f b _ s hs)
    (fun r s hs => Marked_ka f b _ _ ibits r s hs) c h

theorem mono_rk (f b : Int) (cfg : Config) (ibits : Int → Int → Bool) (c : Caps)
    (h : Marked f b c) :
    Marked f b (tableBlock cfg.rkm EV_KEY (forRows Row3.c0 (rkBody ibits) cfg.rkm) c) :=
  block_mono (Marked f b) _ _ _ _ (fun s hs => Marked_top f b _ s hs)
    (fun r s hs => Marked_rk f b ibits r s hs) c h

theorem mono_rr (f b : Int) (cfg : Config) (ibits : Int → Int → Bool) (c : Caps)
    (h : Marked f b c) :
    Marked f b (tableBlock cfg.rrm EV_REL (forRows Row2.c0 (rrBody ibits) cfg.rrm) c) :=
  block_mono (Marked f b) _ _ _ _ (fun s hs => Marked_top f b _ s hs)
    (fun r s hs => Marked_rr f b ibits r s hs) c h

theorem mono_ra (f b : Int) (cfg : Config) (ibits : Int → Int → Bool) (c : Caps)
    (h : Marked f b c) :
    Marked f b (tableBlock cfg.ram EV_ABS
      (forRows Row2.c0 (raBody cfg.amin cfg.amax ibits) cfg.ram) c) :=
  block_mono (Marked f b) _ _ _ _ (fun s hs => Marked_top f b _ s hs)
    (fun r s hs => Marked_ra f b _ _ ibits r s hs) c h

theorem mono_ak (f b : Int) (cfg : Config) (ibits : Int → Int → Bool) (c : Caps)
    (h : Marked f b c) :
    Marked f b (tableBlock cfg.akm EV_KEY (forRows Row3.c0 (akBody ibits) cfg.akm) c) :=
  block_mono (Marked f b) _ _ _ _ (fun s hs => Marked_top f b _ s hs)
    (fun r s hs => Marked_ak f b ibits r s hs) c h

/-- The part of C9 that holds: after capability synthesis, every source code
of a rule that the loop of its table visits and whose source code(s) the
device advertises is set in the consumed bitmap of its family, for the eight
tables KK, KR, KA, RK, RR, RA, AK and AA, when the offset of the code within
its word is below 32. -/
theorem sources_consumed (cfg : Config) (ibits : Int → Int → Bool) (uidev : AbsInfo)
    (c : Caps) (h : synth cfg ibits uidev = some c) :
    (∀ r ∈ reached Row2.c0 cfg.kkm, GET (ibits EV_KEY) r.c0 = true → r.c0 % 64 < 32 →
      c.rbits EV_KEY r.c0 = true) ∧
    (∀ r ∈ reached Row3.c0 cfg.krm, (GET (ibits EV_KEY) r.c0 && GET (ibits EV_KEY) r.c1) = true →
      (r.c0 % 64 < 32 → c.rbits EV_KEY r.c0 = true) ∧
      (r.c1 % 64 < 32 → c.rbits EV_KEY r.c1 = true)) ∧
    (∀ r ∈ reached Row3.c0 cfg.kam, (GET (ibits EV_KEY) r.c0 && GET (ibits EV_KEY) r.c1) = true →
      (r.c0 % 64 < 32 → c.rbits EV_KEY r.c0 = true) ∧
      (r.c1 % 64 < 32 → c.rbits EV_KEY r.c1 = true)) ∧
    (∀ r ∈ reached Row3.c0 cfg.rkm, GET (ibits EV_REL) r.c0 = true → r.c0 % 64 < 32 →
      c.rbits EV_REL r.c0 = true) ∧
    (∀ r ∈ reached Row2.c0 cfg.rrm, GET (ibits EV_REL) r.c0 = true → r.c0 % 64 < 32 →
      c.rbits EV_REL r.c0 = true) ∧
    (∀ r ∈ reached Row2.c0 cfg.ram, GET (ibits EV_REL) r.c0 = true → r.c0 % 64 < 32 →
      c.rbits EV_REL r.c0 = true) ∧
    (∀ r ∈ reached Row3.c0 cfg.akm, GET (ibits EV_ABS) r.c0 = true → r.c0 % 64 < 32 →
      c.rbits EV_ABS r.c0 = true) ∧
    (∀ r ∈ reached Row2.c0 cfg.aam, GET (ibits EV_ABS) r.c0 = true → r.c0 % 64 < 32 →
      c.rbits EV_ABS r.c0 = true) := by
  unfold synth at h
  refine ⟨?_, ?_, ?_, ?_, ?_, ?_, ?_, ?_⟩
  · intro r hr hbit hlo
    refine Marked_tail _ _ cfg ibits _ c ?_ h
    unfold synthHead; dsimp only
    apply mono_ak; apply mono_ra; apply mono_rr; apply mono_rk; apply mono_ka; apply mono_kr
    exact block_sets (Marked EV_KEY r.c0) _ _ _ _ (fun x s hs => Marked_kk _ _ ibits x s hs) r hr
      (fun s => by unfold kkBody; rw [hbit, if_pos rfl]; unfold Marked; dsimp only; exact SETF_self _ _ _ hlo) _
  · intro r hr hbit
    constructor
    · intro hlo
      refine Marked_tail _ _ cfg ibits _ c ?_ h
      unfold synthHead; dsimp only
      apply mono_ak; apply mono_ra; apply mono_rr; apply mono_rk; apply mono_ka
      exact block_sets (Marked EV_KEY r.c0) _ _ _ _ (fun x s hs => Marked_kr _ _ ibits x s hs) r hr
        (fun s => by
          unfold krBody; rw [hbit, if_pos rfl]; unfold Marked; dsimp only
          exact SETF_mono _ _ _ _ _ (SETF_self _ _ _ hlo)) _
    · intro hlo
      refine Marked_tail _ _ cfg ibits _ c ?_ h
      unfold synthHead; dsimp only
      apply mono_ak; apply mono_ra; apply mono_rr; apply mono_rk; apply mono_ka
      exact block_sets (Marked EV_KEY r.c1) _ _ _ _ (fun x s hs => Marked_kr _ _ ibits x s hs) r hr
        (fun s => by unfold krBody; rw [hbit, if_pos rfl]; unfold Marked; dsimp only; exact SETF_self _ _ _ hlo) _
  · intro r hr hbit
    constructor
    · intro hlo
      refine Marked_tail _ _ cfg ibits _ c ?_ h
      unfold synthHead; dsimp only
      apply mono_ak; apply mono_ra; apply mono_rr; apply mono_rk
      exact block_sets (Marked EV_KEY r.c0) _ _ _ _
        (fun x s hs => Marked_ka _ _ _ _ ibits x s hs) r hr
        (fun s => by
          unfold kaBody; rw [hbit, if_pos rfl]; unfold Marked; dsimp only
          exact SETF_mono _ _ _ _ _ (SETF_self _ _ _ hlo)) _
    · intro hlo
      refine Marked_tail _ _ cfg ibits _ c ?_ h
      unfold synthHead; dsimp only
      apply mono_ak; apply mono_ra; apply mono_rr; apply mono_rk
      exact block_sets (Marked EV_KEY r.c1) _ _ _ _
        (fun x s hs => Marked_ka _ _ _ _ ibits x s hs) r hr
        (fun s => by unfold kaBody; rw [hbit, if_pos rfl]; unfold Marked; dsimp only; exact SETF_self _ _ _ hlo) _
  · intro r hr hbit hlo
    refine Marked_tail _ _ cfg ibits _ c ?_ h
    unfold synthHead; dsimp only
    apply mono_ak; apply mono_ra; apply mono_rr
    exact block_sets (Marked EV_REL r.c0) _ _ _ _ (fun x s hs => Marked_rk _ _ ibits x s hs) r hr
      (fun s => by unfold rkBody; rw [hbit, if_pos rfl]; unfold Marked; dsimp only; exact SETF_self _ _ _ hlo) _
  · intro r hr hbit hlo
    refine Marked_tail _ _ cfg ibits _ c ?_ h
    unfold synthHead; dsimp only
    apply mono_ak; apply mono_ra
    exact block_sets (Marked EV_REL r.c0) _ _ _ _ (fun x s hs => Marked_rr _ _ ibits x s hs) r hr
      (fun s => by unfold rrBody; rw [hbit, if_pos rfl]; unfold Marked; dsimp only; exact SETF_self _ _ _ hlo) _
  · intro r hr hbit hlo
    refine Marked_tail _ _ cfg ibits _ c ?_ h
    unfold synthHead; dsimp only
    apply mono_ak
    exact block_sets (Marked EV_REL r.c0) _ _ _ _
      (fun x s hs => Marked_ra _ _ _ _ ibits x s hs) r hr
      (fun s => by unfold raBody; rw [hbit, if_pos rfl]; unfold Marked; dsimp only; exact SETF_self _ _ _ hlo) _
  · intro r hr hbit hlo
    refine Marked_tail _ _ cfg ibits _ c ?_ h
    unfold synthHead; dsimp only
    exact block_sets (Marked EV_ABS r.c0) _ _ _ _ (fun x s hs => Marked_ak _ _ ibits x s hs) r hr
      (fun s => by unfold akBody; rw [hbit, if_pos rfl]; unfold Marked; dsimp only; exact SETF_self _ _ _ hlo) _
  · intro r hr hbit hlo
    cases hb : arBlock cfg ibits (synthHead cfg ibits uidev) with
    | none => rw [hb] at h; cases h
    | some c1 =>
      rw [hb] at h
      simp only [Option.some.injEq] at h
      rw [← h]
      exact block_sets (Marked EV_ABS r.c0) _ _ _ _ (fun x s hs => Marked_aa _ _ ibits x s hs) r hr
        (fun s => by unfold aaBody; rw [hbit, if_pos rfl]; unfold Marked; dsimp only; exact SETF_self _ _ _ hlo) _

/-! ## Metadata of AA destinations -/

theorem metaAt_inherit_ne (x y a : Int) (u : AbsInfo) (h : a ≠ y) :
    metaAt (inheritAbs x y u) a = metaAt u a := by
  unfold inheritAbs metaAt
  split_ifs <;> simp [upd, h]

theorem metaAt_inherit_zero (x y : Int) (u : AbsInfo) (h1 : u.absmin y = 0)
    (h2 : u.absmax y = 0) : metaAt (inheritAbs x y u) y = metaAt u x := by
  unfold inheritAbs metaAt
  rw [if_pos ⟨h1, h2⟩]
  simp [upd]

theorem inheritAbs_nonzero (x y : Int) (u : AbsInfo) (h : ¬ (u.absmin y = 0 ∧ u.absmax y = 0)) :
    inheritAbs x y u = u := by
  unfold inheritAbs
  rw [if_neg h]

theorem metaAt_default_ne (amin amax d a : Int) (u : AbsInfo) (h : a ≠ d) :
    metaAt (defaultAbs amin amax d u) a = metaAt u a := by
  unfold defaultAbs metaAt
  split_ifs <;> simp [upd, h]

theorem forRows_reached_inv {R : Type} (J K : Caps → Prop) (c0 : R → Int)
    (body : R → Caps → Caps) (r : R) :
    ∀ (t : List R), (∀ x ∈ t, ∀ s, J s → J (body x s)) → (∀ x ∈ t, ∀ s, K s → K (body x s)) →
      (∀ s, J s → K (body r s)) → r ∈ reached c0 t → ∀ s, J s → K (forRows c0 body t s) := by
  intro t
  induction t with
  | nil => intro _ _ _ h; simp [reached] at h
  | cons x xs ih =>
    intro hJ hK hr h s hs
    unfold reached at h
    rw [List.takeWhile_cons] at h
    unfold forRows
    by_cases hx : c0 x = -1
    · simp [hx] at h
    · rw [if_neg hx]
      simp only [hx, ne_eq, not_false_eq_true, decide_True, if_true, List.mem_cons] at h
      have hJ1 : ∀ y ∈ xs, ∀ s, J s → J (body y s) :=
        fun y hy => hJ y (List.mem_cons_of_mem x hy)
      have hK1 : ∀ y ∈ xs, ∀ s, K s → K (body y s) :=
        fun y hy => hK y (List.mem_cons_of_mem x hy)
      rcases h with h | h
      · rw [← h]
        exact forRows_induct K c0 body xs hK1 _ (hr s hs)
      · exact ih hJ1 hK1 hr h _ (hJ x (List.mem_cons_self x xs) s hs)

theorem block_inv {R : Type} (Q : Caps → Prop) (t : List R) (fam : Int) (c0 : R → Int)
    (body : R → Caps → Caps) (htop : ∀ s, Q s → Q { s with obits := SETF s.obits EV_EV fam })
    (hmono : ∀ r ∈ t, ∀ s, Q s → Q (body r s)) (c : Caps) (h : Q c) :
    Q (tableBlock t fam (forRows c0 body t) c) := by
  unfold tableBlock
  split_ifs
  · exact h
  · exact forRows_induct Q c0 body t hmono _ (htop c h)

theorem arLoop_uodev (akm : List Row3) (ibits : Int → Int → Bool) :
    ∀ (t : List Row2) (i : Nat) (c c1 : Caps), arLoop akm ibits i t c = some c1 →
      c1.uodev = c.uodev := by
  intro t
  induction t with
  | nil => intro i c c1 hc; unfold arLoop at hc; cases hc; rfl
  | cons r rs ih =>
    intro i c c1 hc
    unfold arLoop at hc
    split_ifs at hc
    · cases hc; rfl
    · cases ha : AKM0 akm i with
      | none => rw [ha] at hc; cases hc
      | some a =>
        rw [ha] at hc
        exact ih (i + 1) { c with rbits := SETF c.rbits EV_ABS a,
                                  obits := SETF c.obits EV_REL r.c1 } c1 hc
    · exact ih (i + 1) c c1 hc

theorem arBlock_uodev (cfg : Config) (ibits : Int → Int → Bool) (c c1 : Caps)
    (h : arBlock cfg ibits c = some c1) : c1.uodev = c.uodev := by
  unfold arBlock at h
  split_ifs at h
  · cases h; rfl
  · exact arLoop_uodev cfg.akm ibits cfg.arm 0 { c with obits := SETF c.obits EV_EV EV_REL } c1 h

/-- At the end of the AK block the description of an axis that is the
destination of no KA and no RA row is the one of the input device. -/
theorem synthHead_metaAt (cfg : Config) (ibits : Int → Int → Bool) (uidev : AbsInfo) (a : Int)
    (hka : ∀ row ∈ cfg.kam, row.c2 ≠ a) (hra : ∀ row ∈ cfg.ram, row.c1 ≠ a) :
    metaAt (synthHead cfg ibits uidev).uodev a = metaAt uidev a := by
  unfold synthHead
  dsimp only
  refine block_inv (fun c => metaAt c.uodev a = metaAt uidev a) _ _ _ _ (fun s hs => hs)
    (fun r _ s hs => by unfold akBody; split_ifs <;> exact hs) _ ?_
  refine block_inv (fun c => metaAt c.uodev a = metaAt uidev a) _ _ _ _ (fun s hs => hs)
    (fun r hr s hs => by
      unfold raBody; split_ifs
      · exact (metaAt_default_ne _ _ _ _ _ (fun e => hra r hr e.symm)).trans hs
      · exact hs) _ ?_
  refine block_inv (fun c => metaAt c.uodev a = metaAt uidev a) _ _ _ _ (fun s hs => hs)
    (fun r _ s hs => by unfold rrBody; split_ifs <;> exact hs) _ ?_
  refine block_inv (fun c => metaAt c.uodev a = metaAt uidev a) _ _ _ _ (fun s hs => hs)
    (fun r _ s hs => by unfold rkBody; split_ifs <;> exact hs) _ ?_
  refine block_inv (fun c => metaAt c.uodev a = metaAt uidev a) _ _ _ _ (fun s hs => hs)
    (fun r hr s hs => by
      unfold kaBody; split_ifs
      · exact (metaAt_default_ne _ _ _ _ _ (fun e => hka r hr e.symm)).trans hs
      · exact hs) _ ?_
  refine block_inv (fun c => metaAt c.uodev a = metaAt uidev a) _ _ _ _ (fun s hs => hs)
    (fun r _ s hs => by unfold krBody; split_ifs <;> exact hs) _ ?_
  exact block_inv (fun c => metaAt c.uodev a = metaAt uidev a) _ _ _ _ (fun s hs => hs)
    (fun r _ s hs => by unfold kkBody; split_ifs <;> exact hs) _ rfl

theorem metaAt_zero (u v : AbsInfo) (a b : Int) (h : metaAt u a = metaAt v b)
    (hz : v.absmin b = 0 ∧ v.absmax b = 0) : u.absmin a = 0 ∧ u.absmax a = 0 := by
  unfold metaAt at h
  simp only [Prod.mk.injEq] at h
  exact ⟨h.1.trans hz.1, h.2.1.trans hz.2⟩

/-- The AA body of a row of the table keeps: the source axis `x` as in the
input device, and the destination `y` either as in the input device or
already holding the values of `x`. -/
theorem aaBody_keeps (ibits : Int → Int → Bool) (uidev : AbsInfo) (x y : Int) (row : Row2)
    (h1 : row.c1 ≠ x) (h2 : row.c1 = y → row.c0 = x) (s : Caps)
    (hx : metaAt s.uodev x = metaAt uidev x)
    (hy : metaAt s.uodev y = metaAt uidev y ∨ metaAt s.uodev y = metaAt uidev x) :
    metaAt (aaBody ibits row s).uodev x = metaAt uidev x ∧
      (metaAt (aaBody ibits row s).uodev y = metaAt uidev y ∨
        metaAt (aaBody ibits row s).uodev y = metaAt uidev x) := by
  unfold aaBody
  split_ifs
  · dsimp only
    refine ⟨(metaAt_inherit_ne _ _ _ _ (fun e => h1 e.symm)).trans hx, ?_⟩
    by_cases hd : row.c1 = y
    · by_cases hg : s.uodev.absmin row.c1 = 0 ∧ s.uodev.absmax row.c1 = 0
      · right
        rw [← hd, metaAt_inherit_zero _ _ _ hg.1 hg.2, h2 hd]
        exact hx
      · rw [inheritAbs_nonzero _ _ _ hg]; exact hy
    · rw [metaAt_inherit_ne _ _ _ _ (fun e => hd e.symm)]; exact hy
  · exact ⟨hx, hy⟩

/-- C11 (counterexample). Rule `--abs-abs 0:1` on a device that advertises the
axes 0 (declared [-100, 100]) and 1 (declared [-50, 50]): after capability
synthesis the output axis 1 still has the range [-50, 50] of the input axis 1,
not the range of the source axis 0 of the rule. -/
theorem C11_counterexample :
    GET (ibitsStick EV_ABS) 0 = true ∧
    (synth cfgAA ibitsStick uidevTwo).map (fun c => metaAt c.uodev 1) = some (-50, 50, 0, 0) ∧
    metaAt uidevTwo 0 = (-100, 100, 0, 0) := by
  decide

/-- C11 (amended). AA metadata inheritance: after capability synthesis, for an
AA row `x → y` that the loop of the table visits and whose source axis the
device advertises, the output description of `y` (min, max, fuzz, flat) equals
the input device's description of `x`, provided the input device declares
`absmin = absmax = 0` for `y`, neither `x` nor `y` is the destination of a KA
or RA row, `x` is not the destination of an AA row, and every AA row with
destination `y` has the source `x`. -/
theorem C11_aa_inherits (cfg : Config) (ibits : Int → Int → Bool) (uidev : AbsInfo)
    (c : Caps) (r : Row2)
    (hr : r ∈ reached Row2.c0 cfg.aam) (hbit : GET (ibits EV_ABS) r.c0 = true)
    (hz : uidev.absmin r.c1 = 0 ∧ uidev.absmax r.c1 = 0)
    (hka : ∀ row ∈ cfg.kam, row.c2 ≠ r.c0 ∧ row.c2 ≠ r.c1)
    (hra : ∀ row ∈ cfg.ram, row.c1 ≠ r.c0 ∧ row.c1 ≠ r.c1)
    (haa1 : ∀ row ∈ cfg.aam, row.c1 ≠ r.c0)
    (haa2 : ∀ row ∈ cfg.aam, row.c1 = r.c1 → row.c0 = r.c0)
    (h : synth cfg ibits uidev = some c) :
    metaAt c.uodev r.c1 = metaAt uidev r.c0 := by
  unfold synth at h
  cases hb : arBlock cfg ibits (synthHead cfg ibits uidev) with
  | none => rw [hb] at h; cases h
  | some c1 =>
    rw [hb] at h
    simp only [Option.some.injEq] at h
    have hu := arBlock_uodev cfg ibits _ c1 hb
    have hx0 : metaAt c1.uodev r.c0 = metaAt uidev r.c0 := by
      rw [hu]
      exact synthHead_metaAt cfg ibits uidev r.c0 (fun row hrow => (hka row hrow).1)
        (fun row hrow => (hra row hrow).1)
    have hy0 : metaAt c1.uodev r.c1 = metaAt uidev r.c1 := by
      rw [hu]
      exact synthHead_metaAt cfg ibits uidev r.c1 (fun row hrow => (hka row hrow).2)
        (fun row hrow => (hra row hrow).2)
    have hne : cfg.aam.isEmpty = false := by
      cases hl : cfg.aam with
      | nil => rw [hl] at hr; simp [reached] at hr
      | cons _ _ => rfl
    have hfin : metaAt (forRows Row2.c0 (aaBody ibits) cfg.aam
          { c1 with obits := SETF c1.obits EV_EV EV_ABS }).uodev r.c0 = metaAt uidev r.c0 ∧
        metaAt (forRows Row2.c0 (aaBody ibits) cfg.aam
          { c1 with obits := SETF c1.obits EV_EV EV_ABS }).uodev r.c1 = metaAt uidev r.c0 := by
      refine forRows_reached_inv
        (fun s => metaAt s.uodev r.c0 = metaAt uidev r.c0 ∧
          (metaAt s.uodev r.c1 = metaAt uidev r.c1 ∨ metaAt s.uodev r.c1 = metaAt uidev r.c0))
        (fun s => metaAt s.uodev r.c0 = metaAt uidev r.c0 ∧
          metaAt s.uodev r.c1 = metaAt uidev r.c0)
        Row2.c0 (aaBody ibits) r cfg.aam ?_ ?_ ?_ hr _ ⟨hx0, Or.inl hy0⟩
      · intro row hrow s hs
        exact aaBody_keeps ibits uidev r.c0 r.c1 row (haa1 row hrow) (haa2 row hrow) s hs.1 hs.2
      · intro row hrow s hs
        have := aaBody_keeps ibits uidev r.c0 r.c1 row (haa1 row hrow) (haa2 row hrow) s hs.1
          (Or.inr hs.2)
        exact ⟨this.1, this.2.elim (fun e => by
          -- the destination held the values of the source before the row
          unfold aaBody at e ⊢
          split_ifs at e ⊢
          · dsimp only at e ⊢
            by_cases hd : row.c1 = r.c1
            · by_cases hg : s.uodev.absmin row.c1 = 0 ∧ s.uodev.absmax row.c1 = 0
              · rw [← hd, metaAt_inherit_zero _ _ _ hg.1 hg.2, haa2 row hrow hd]
                exact hs.1
              · rw [inheritAbs_nonzero _ _ _ hg]; exact hs.2
            · rw [metaAt_inherit_ne _ _ _ _ (fun e1 => hd e1.symm)]; exact hs.2
          · exact hs.2) id⟩
      · intro s hs
        have hne1 : r.c1 ≠ r.c0 := haa1 r (List.takeWhile_subset _ hr)
        unfold aaBody
        rw [hbit, if_pos rfl]
        dsimp only
        refine ⟨(metaAt_inherit_ne _ _ _ _ (fun e => hne1 e.symm)).trans hs.1, ?_⟩
        by_cases hg : s.uodev.absmin r.c1 = 0 ∧ s.uodev.absmax r.c1 = 0
        · rw [metaAt_inherit_zero _ _ _ hg.1 hg.2]; exact hs.1
        · rw [inheritAbs_nonzero _ _ _ hg]
          rcases hs.2 with e | e
          · exact absurd (metaAt_zero _ _ _ _ e hz) hg
          · exact e
    rw [← h]
    unfold tableBlock
    rw [hne]
    exact hfin.2

/-- C11 (witness). Rule `--abs-abs 0:1` on a device that advertises only axis 0
(declared [-100, 100]). -/
theorem C11_aa_inherits_witness :
    metaAt ((synth cfgAA ibitsAbs0 uidevOne).get (by decide)).uodev 1 = metaAt uidevOne 0 :=
  C11_aa_inherits cfgAA ibitsAbs0 uidevOne ((synth cfgAA ibitsAbs0 uidevOne).get (by decide))
    ⟨0, 1⟩ (by decide) (by decide) (by decide) (by decide) (by decide) (by decide) (by decide)
    (Option.some_get _).symm

/-! ## Samples dropped by the auto-calibration -/

theorem normLoop_drop (cfg : Config) (irng smin code : Int) (ac a : AC) (v : Int)
    (hdrop : normOnce cfg irng smin ac v = NormOut.drop a) :
    ∀ (nm : List Int), code ∈ reached id nm →
      normLoop cfg irng smin code nm ac v = some (a, v) := by
  intro nm
  induction nm with
  | nil => intro h; simp [reached] at h
  | cons n ns ih =>
    intro h
    unfold reached at h
    rw [List.takeWhile_cons] at h
    unfold normLoop
    by_cases hn : n = -1
    · simp [hn] at h
    · rw [if_neg hn]
      simp only [id, hn, ne_eq, not_false_eq_true, decide_True, if_true, List.mem_cons] at h
      by_cases hc : n = code
      · rw [if_pos hc, hdrop]
      · rw [if_neg hc]
        rcases h with h | h
        · exact absurd h.symm hc
        · exact ih h

/-- C12 (counterexample). Axis 0 normalised with one initial event to ignore:
the auto-calibration code drops the first sample (the warm-up counter goes
from 1 to 0), and the event is written all the same, unchanged.  With spike
protection (`--normconf 0,0,0,4,2`, axis declared [0, 1000]) the sample 900
after 400 and 410 is rejected, and written all the same. -/
theorem C12_counterexample :
    normOnce cfgWarm (irngOf devK 0) (devK.uidev.absmin 0) ((initState cfgWarm).ac 0) 5 =
      NormOut.drop { IGN := 0, RDY := 0, RMIN := 0, RMAX := 0, ACNT := 0, AMIN := 0,
                     AMAX := 0, LAST := 0 } ∧
    (step cfgWarm devK (initState cfgWarm) ⟨0, EV_ABS, 0, 5⟩).map Prod.snd =
      some [⟨0, EV_ABS, 0, 5⟩] ∧
    (normOnce cfgSpike (irngOf devK 0) (devK.uidev.absmin 0)
      ((run cfgSpike devK (initState cfgSpike)
        [⟨0, EV_ABS, 0, 400⟩, ⟨1, EV_ABS, 0, 410⟩]).1.ac 0) 900).result = some none ∧
    (run cfgSpike devK (initState cfgSpike)
      [⟨0, EV_ABS, 0, 400⟩, ⟨1, EV_ABS, 0, 410⟩, ⟨2, EV_ABS, 0, 900⟩]).2 =
      [⟨0, EV_ABS, 0, 400⟩, ⟨1, EV_ABS, 0, 410⟩, ⟨2, EV_ABS, 0, 900⟩] := by
  decide

/-- C12 (amended). A sample dropped by the auto-calibration code (warm-up
counter still positive, or spike test) is not normalised, and nothing else:
for an ABS event on an axis of the normalisation list whose sample is dropped,
the loop writes exactly the events it writes for the same event without any
normalisation (the event itself, or what the AK, AR or AA table makes of it). -/
theorem C12_drop_not_discarded (cfg : Config) (dev : Dev) (s : LoopState) (ev : Event) (a : AC)
    (hty : ev.type = EV_ABS) (hnm : ev.code ∈ reached id cfg.nm)
    (hdrop : normOnce cfg (irngOf dev ev.code) (dev.uidev.absmin ev.code) (s.ac ev.code)
      ev.value = NormOut.drop a) :
    (step cfg dev s ev).map Prod.snd = (step { cfg with nm := [] } dev s ev).map Prod.snd := by
  rw [step_abs cfg dev s ev hty, step_abs { cfg with nm := [] } dev s ev hty,
    normLoop_drop cfg _ _ ev.code _ a _ hdrop cfg.nm hnm]
  show _ = Option.map Prod.snd (Option.map _ (absTables cfg dev _ ev))
  dsimp only
  cases absTables cfg dev { shadow := s.shadow, sent := [] } ev with
  | none => rfl
  | some p => rfl

/-- C12 (witness). The warm-up drop of `cfgWarm`. -/
theorem C12_drop_not_discarded_witness :
    (step cfgWarm devK (initState cfgWarm) ⟨0, EV_ABS, 0, 5⟩).map Prod.snd =
      (step { cfgWarm with nm := [] } devK (initState cfgWarm) ⟨0, EV_ABS, 0, 5⟩).map
        Prod.snd :=
  C12_drop_not_discarded cfgWarm devK (initState cfgWarm) ⟨0, EV_ABS, 0, 5⟩
    { IGN := 0, RDY := 0, RMIN := 0, RMAX := 0, ACNT := 0, AMIN := 0, AMAX := 0, LAST := 0 }
    (by decide) (by decide) (by decide)

/-! ## First match in a table of event codes -/

theorem u16_of_isCode (x : Int) (h : isCode x) : u16 x = x :=
  Int.emod_eq_of_lt h.1 h.2

/-- In a table without a row whose first field is `-1`, the scan finds the
first row that hits. -/
theorem scan_eq_find {R : Type} (c0 : R → Int) (hit : R → Bool) (t : List R)
    (h : ∀ r ∈ t, c0 r ≠ -1) : scan c0 hit t = t.find? hit := by
  induction t with
  | nil => rfl
  | cons r rs ih =>
    have hr : c0 r ≠ -1 := h r (List.mem_cons_self r rs)
    have hrs : ∀ x ∈ rs, c0 x ≠ -1 := fun x hx => h x (List.mem_cons_of_mem r hx)
    unfold scan
    rw [if_neg hr, List.find?_cons]
    cases hh : hit r with
    | true => simp
    | false => simp [ih hrs]

theorem isCode_ne_sentinel (x : Int) (h : isCode x) : x ≠ -1 := by
  intro e
  have := h.1
  omega

/-! ## KEY to KEY -/

/-- C13. KK substitution: a KEY event with code `a` and value `v`, when the KK
table (a table of event codes) has a row with source `a`, is written as
exactly one event `{KEY, b, v}`, `(a, b)` being the first such row. -/
theorem C13_kk_substitution (cfg : Config) (dev : Dev) (s : LoopState) (ev : Event) (r : Row2)
    (hty : ev.type = EV_KEY)
    (hvalid : ∀ row ∈ cfg.kkm, isCode row.c0 ∧ isCode row.c1)
    (hfind : cfg.kkm.find? (fun row => decide (row.c0 = ev.code)) = some r) :
    (step cfg dev s ev).map Prod.snd =
      some [{ time := ev.time, type := EV_KEY, code := r.c1, value := ev.value }] := by
  have hscan : scan Row2.c0 (fun row => decide (row.c0 = ev.code)) cfg.kkm = some r := by
    rw [scan_eq_find _ _ _ (fun row hrow => isCode_ne_sentinel _ (hvalid row hrow).1)]
    exact hfind
  have hr : r ∈ cfg.kkm := List.mem_of_find?_eq_some hfind
  rw [step_key cfg dev s ev hty]
  unfold caseKey
  rw [hscan]
  simp [finish, SND, u16_of_isCode _ (hvalid r hr).2, hty]

/-- C13 (witness). Rule `30:48`, event `{KEY,30,1}`. -/
theorem C13_kk_substitution_witness :
    (step cfgKK devPlain (initState cfgKK) ⟨0, EV_KEY, 30, 1⟩).map Prod.snd =
      some [{ time := 0, type := EV_KEY, code := 48, value := 1 }] :=
  C13_kk_substitution cfgKK devPlain (initState cfgKK) ⟨0, EV_KEY, 30, 1⟩ ⟨30, 48⟩
    (by decide) (by unfold isCode; decide) (by decide)

/-- The first end-to-end scenario: rule `30:48`, `{KEY,30,1}`, `{KEY,30,0}`. -/
theorem scenario_kk :
    (run cfgKK devPlain (initState cfgKK) [⟨0, EV_KEY, 30, 1⟩, ⟨1, EV_KEY, 30, 0⟩]).2 =
      [⟨0, EV_KEY, 48, 1⟩, ⟨1, EV_KEY, 48, 0⟩] := by
  decide

/-! ## KEY to REL -/

/-- The neutral value of the KR branch, `rmin + (rmax - rmin) / 2` in `int`
arithmetic, is the midpoint rounded down when `rmin ≤ rmax` are `int` values. -/
theorem kr_neutral_floor (rmin rmax : Int) (h : rmin ≤ rmax) (h1 : isInt rmin)
    (h2 : isInt rmax) (hd : rmax - rmin < 2147483648) :
    cadd rmin (Int.tdiv (csub rmax rmin) 2) = (rmin + rmax) / 2 := by
  obtain ⟨a1, a2⟩ := h1
  obtain ⟨b1, b2⟩ := h2
  have e1 : csub rmax rmin = rmax - rmin := wrap_id _ (by omega) (by omega)
  rw [e1, Int.tdiv_eq_ediv (by omega) (by decide)]
  unfold cadd
  rw [wrap_id _ (by omega) (by omega)]
  omega

/-- The second end-to-end scenario: rule `105,106:0`, `--relconf -10,10`. -/
theorem scenario_kr :
    (run cfgKeyRel devPlain (initState cfgKeyRel)
      [⟨0, EV_KEY, 105, 1⟩, ⟨1, EV_KEY, 106, 1⟩, ⟨2, EV_KEY, 105, 0⟩]).2 =
      [⟨0, EV_REL, 0, -10⟩, ⟨1, EV_REL, 0, 10⟩, ⟨2, EV_REL, 0, 0⟩] := by
  decide

/-! ## REL to KEY and ABS to KEY -/

/-- The thresholds of the AK branch are `min + (max - min) / 4` and
`max - (max - min) / 4` when `min ≤ max` are `int` values whose difference is
an `int`. -/
theorem ak_thresholds (mn mx : Int) (h : mn ≤ mx) (h1 : isInt mn) (h2 : isInt mx)
    (hd : mx - mn < 2147483648) :
    cadd mn (Int.tdiv (csub mx mn) 4) = mn + (mx - mn) / 4 ∧
      csub mx (Int.tdiv (csub mx mn) 4) = mx - (mx - mn) / 4 := by
  obtain ⟨a1, a2⟩ := h1
  obtain ⟨b1, b2⟩ := h2
  have e1 : csub mx mn = mx - mn := wrap_id _ (by omega) (by omega)
  rw [e1, Int.tdiv_eq_ediv (by omega) (by decide)]
  exact ⟨wrap_id _ (by omega) (by omega), wrap_id _ (by omega) (by omega)⟩

/-! ## ABS to ABS with the inherited range -/

/-- The AA formula gives back the received value when the destination range
is the declared range `[mn, mx]` of the source axis, `mn < mx`, and the product
`(v - mn) * (mx - mn)` fits an `int`. -/
theorem aaValue_same_range (dev : Dev) (r : Row2) (ev : Event) (mn mx : Int)
    (hs1 : dev.uidev.absmin ev.code = mn) (hs2 : dev.uidev.absmax ev.code = mx)
    (hd1 : dev.uodev.absmin r.c1 = mn) (hd2 : dev.uodev.absmax r.c1 = mx)
    (hlt : mn < mx) (h1 : isInt mn) (hv : isInt ev.value)
    (hspan : mx - mn < 2147483648)
    (hp1 : -2147483648 < (ev.value - mn) * (mx - mn))
    (hp2 : (ev.value - mn) * (mx - mn) < 2147483648) :
    aaValue dev r ev = some ev.value := by
  obtain ⟨a1, a2⟩ := h1
  obtain ⟨v1, v2⟩ := hv
  have hdpos : 0 < mx - mn := by omega
  have hab1 : -2147483648 < ev.value - mn := by nlinarith
  have hab2 : ev.value - mn < 2147483648 := by nlinarith
  unfold aaValue irngOf
  rw [hs1, hs2, hd1, hd2]
  have e1 : csub ev.value mn = ev.value - mn := wrap_id _ (by omega) (by omega)
  have e2 : csub mx mn = mx - mn := wrap_id _ (by omega) (by omega)
  rw [e1, e2]
  have e3 : cmul (ev.value - mn) (mx - mn) = (ev.value - mn) * (mx - mn) :=
    wrap_id _ (by omega) (by omega)
  rw [e3]
  have e4 : cdiv ((ev.value - mn) * (mx - mn)) (mx - mn) = some (ev.value - mn) := by
    unfold cdiv
    rw [if_neg (by omega), Int.mul_tdiv_cancel _ (by omega)]
  rw [e4]
  simp only [Option.map_some', Option.some.injEq]
  unfold cadd
  rw [wrap_id _ (by omega) (by omega)]
  omega

/-- The fifth end-to-end scenario: rule `0:1`, axis 0 declared [-100, 100],
`{ABS,0,50}` is written as `{ABS,1,50}`. -/
theorem scenario_aa :
    (synth cfgAA ibitsAbs0 uidevOne).map (fun c => metaAt c.uodev 1) =
      some (metaAt devHundredAA.uodev 1) ∧
    (run cfgAA devHundredAA (initState cfgAA) [⟨0, EV_ABS, 0, 50⟩]).2 = [⟨0, EV_ABS, 1, 50⟩] := by
  decide

/-- C17 (failing input). Rule `--abs-abs 0:1` on a joystick whose axis 0 is
declared [-32767, 32767] and which has no axis 1: capability synthesis gives
the output axis 1 the range of axis 0, and the event `{ABS,0,32767}` is written
as `{ABS,1,-32771}`: the product `(value - min) * (absmax - absmin)` =
65534 * 65534 does not fit an `int`. -/
theorem C17_aa_value_not_preserved :
    (synth cfgAA ibitsAbs0 devJoy.uidev).map (fun c => metaAt c.uodev 1) =
      some (metaAt devJoyAA.uodev 1) ∧
    metaAt devJoyAA.uodev 1 = metaAt devJoyAA.uidev 0 ∧
    (step cfgAA devJoyAA (initState cfgAA) ⟨0, EV_ABS, 0, 32767⟩).map Prod.snd =
      some [⟨0, EV_ABS, 1, -32771⟩] := by
  decide

/-! ## The normaliser scenario -/

/-- C18 (counterexample). In the scenario (`--normconf 0,2,0,0,0`, axis 0
declared [0, 1000], learned range [400, 600]) the coverage test
`(RMAX - RMIN) * nrng >= irng`, 200 * 2 >= 1000, does not pass. -/
theorem C18_counterexample :
    ((run cfgCover devK (initState cfgCover)
        [⟨0, EV_ABS, 0, 400⟩, ⟨1, EV_ABS, 0, 600⟩]).1.ac 0).RMIN = 400 ∧
    ((run cfgCover devK (initState cfgCover)
        [⟨0, EV_ABS, 0, 400⟩, ⟨1, EV_ABS, 0, 600⟩]).1.ac 0).RMAX = 600 ∧
    covers cfgCover (irngOf devK 0) 400 600 = false := by
  decide

/-- C18 (amended). Normaliser scenario: with axis 0 in the normalisation list,
`IGN = 0, RNG = 2, RST = 0, SPK = 0, SPKMIN = 0` and the declared range
[0, 1000], after the samples 400 and 600 the axis is READY with the learned
range [400, 600]; on the third sample 500 the coverage test fails
(200 * 2 < 1000), the sample is not rescaled and is written unchanged as 500,
which is also the value the rescaling formula would give. -/
theorem C18_scenario :
    ((run cfgCover devK (initState cfgCover)
        [⟨0, EV_ABS, 0, 400⟩, ⟨1, EV_ABS, 0, 600⟩]).1.ac 0) =
      { IGN := 0, RDY := 1, RMIN := 400, RMAX := 600, ACNT := 0, AMIN := 0, AMAX := 0,
        LAST := 0 } ∧
    normOnce cfgCover (irngOf devK 0) (devK.uidev.absmin 0)
        { IGN := 0, RDY := 1, RMIN := 400, RMAX := 600, ACNT := 0, AMIN := 0, AMAX := 0,
          LAST := 0 } 500 =
      NormOut.pass { IGN := 0, RDY := 1, RMIN := 400, RMAX := 600, ACNT := 0, AMIN := 0,
                     AMAX := 0, LAST := 0 } 500 ∧
    covers cfgCover (irngOf devK 0) 400 600 = false ∧
    (run cfgCover devK (initState cfgCover)
        [⟨0, EV_ABS, 0, 400⟩, ⟨1, EV_ABS, 0, 600⟩, ⟨2, EV_ABS, 0, 500⟩]).2 =
      [⟨0, EV_ABS, 0, 400⟩, ⟨1, EV_ABS, 0, 600⟩, ⟨2, EV_ABS, 0, 500⟩] ∧
    rescale (irngOf devK 0) (devK.uidev.absmin 0)
        { IGN := 0, RDY := 1, RMIN := 400, RMAX := 600, ACNT := 0, AMIN := 0, AMAX := 0,
          LAST := 0 } 500 = some 500 := by
  decide

/-! ## Order of the tables -/

/-- In a table without a row whose first field is `-1`, the scan hits exactly
when some row of the table hits. -/
theorem scan_isSome_iff {R : Type} (c0 : R → Int) (hit : R → Bool) (t : List R)
    (h : ∀ r ∈ t, c0 r ≠ -1) : (scan c0 hit t).isSome = true ↔ ∃ r ∈ t, hit r = true := by
  rw [scan_eq_find c0 hit t h, List.find?_isSome]

theorem caseKey_solo (cfg : Config) (dev : Dev) (o : Out) (ev : Event) (hty : ev.type = EV_KEY) :
    caseKey (solo cfg ev) dev o ev = caseKey cfg dev o ev := by
  unfold solo
  rw [if_pos hty]
  cases h1 : scan Row2.c0 (fun r => decide (r.c0 = ev.code)) cfg.kkm with
  | some r =>
    simp only [Option.isSome_some, if_true]
    unfold caseKey
    dsimp only
    rw [h1]
  | none =>
    simp only [Option.isSome_none, Bool.false_eq_true, if_false]
    cases h2 : scan Row3.c0 (fun r => decide (r.c0 = ev.code ∨ r.c1 = ev.code)) cfg.krm with
    | some r =>
      simp only [Option.isSome_some, if_true]
      unfold caseKey
      dsimp only
      rw [h1, h2]
      rfl
    | none =>
      simp only [Option.isSome_none, Bool.false_eq_true, if_false]
      unfold caseKey
      dsimp only
      rw [h1, h2]
      rfl

theorem caseRel_solo (cfg : Config) (dev : Dev) (o : Out) (ev : Event) (h1 : ev.type ≠ EV_KEY)
    (hty : ev.type = EV_REL) : caseRel (solo cfg ev) dev o ev = caseRel cfg dev o ev := by
  unfold solo
  rw [if_neg h1, if_pos hty]
  cases h1 : scan Row3.c0 (fun r => decide (r.c0 = ev.code)) cfg.rkm with
  | some r =>
    simp only [Option.isSome_some, if_true]
    unfold caseRel
    dsimp only
    rw [h1]
  | none =>
    simp only [Option.isSome_none, Bool.false_eq_true, if_false]
    cases h2 : scan Row2.c0 (fun r => decide (r.c0 = ev.code)) cfg.rrm with
    | some r =>
      simp only [Option.isSome_some, if_true]
      unfold caseRel
      dsimp only
      rw [h1, h2]
      rfl
    | none =>
      simp only [Option.isSome_none, Bool.false_eq_true, if_false]
      unfold caseRel
      dsimp only
      rw [h1, h2]
      rfl

theorem absTables_solo (cfg : Config) (dev : Dev) (o : Out) (ev ev1 : Event)
    (hc : ev1.code = ev.code) (h1 : ev.type ≠ EV_KEY) (h2 : ev.type ≠ EV_REL)
    (hty : ev.type = EV_ABS) : absTables (solo cfg ev) dev o ev1 = absTables cfg dev o ev1 := by
  unfold solo
  rw [if_neg h1, if_neg h2, if_pos hty]
  cases h1 : scan Row3.c0 (fun r => decide (r.c0 = ev.code)) cfg.akm with
  | some r =>
    simp only [Option.isSome_some, if_true]
    unfold absTables
    dsimp only
    rw [hc, h1]
  | none =>
    simp only [Option.isSome_none, Bool.false_eq_true, if_false]
    cases h2 : scan Row2.c0 (fun r => decide (r.c0 = ev.code)) cfg.arm with
    | some r =>
      simp only [Option.isSome_some, if_true]
      unfold absTables
      dsimp only
      rw [hc, h1, h2]
      rfl
    | none =>
      simp only [Option.isSome_none, Bool.false_eq_true, if_false]
      unfold absTables
      dsimp only
      rw [hc, h1, h2]
      rfl

theorem solo_fields (cfg : Config) (ev : Event) :
    (solo cfg ev).nm = cfg.nm ∧ (solo cfg ev).nrng = cfg.nrng ∧ (solo cfg ev).nrst = cfg.nrst ∧
      (solo cfg ev).nspk = cfg.nspk ∧ (solo cfg ev).nspkmin = cfg.nspkmin := by
  unfold solo
  split_ifs <;> exact ⟨rfl, rfl, rfl, rfl, rfl⟩

/-- The auto-calibration code reads only `nrng`, `nrst`, `nspk` and `nspkmin`
of the configuration. -/
theorem normOnce_congr (cfg1 cfg2 : Config) (h1 : cfg1.nrng = cfg2.nrng)
    (h2 : cfg1.nrst = cfg2.nrst) (h3 : cfg1.nspk = cfg2.nspk) (h4 : cfg1.nspkmin = cfg2.nspkmin)
    (irng smin : Int) (ac : AC) (v : Int) :
    normOnce cfg1 irng smin ac v = normOnce cfg2 irng smin ac v := by
  have hsp : ∀ ref x, spike cfg1 irng ref x = spike cfg2 irng ref x := by
    intro ref x; unfold spike; rw [h3, h4]
  have hcov : ∀ lo hi, covers cfg1 irng lo hi = covers cfg2 irng lo hi := by
    intro lo hi; unfold covers; rw [h1]
  have has : ∀ a x, afterSpike cfg1 irng a x = afterSpike cfg2 irng a x := by
    intro a x; unfold afterSpike; rw [h3, h4]
  have hrc : ∀ a x, resetCode cfg1 irng a x = resetCode cfg2 irng a x := by
    intro a x; unfold resetCode; simp only [hcov, h2]
  have har : ∀ a x, afterReset cfg1 irng a x = afterReset cfg2 irng a x := by
    intro a x; unfold afterReset; simp only [has, hrc, h2]
  unfold normOnce normReady normNotReady
  simp only [hsp, hcov, has, har]

theorem normLoop_congr (cfg1 cfg2 : Config) (h1 : cfg1.nrng = cfg2.nrng)
    (h2 : cfg1.nrst = cfg2.nrst) (h3 : cfg1.nspk = cfg2.nspk) (h4 : cfg1.nspkmin = cfg2.nspkmin)
    (irng smin code : Int) :
    ∀ (nm : List Int) (ac : AC) (v : Int),
      normLoop cfg1 irng smin code nm ac v = normLoop cfg2 irng smin code nm ac v := by
  intro nm
  induction nm with
  | nil => intro ac v; rfl
  | cons n ns ih =>
    intro ac v
    unfold normLoop
    rw [normOnce_congr cfg1 cfg2 h1 h2 h3 h4]
    split_ifs
    · rfl
    · cases normOnce cfg2 irng smin ac v with
      | drop a => rfl
      | pass a w => exact ih a w
      | trap a => rfl
    · exact ih ac v

/-- C19. Table priority: for every received event the loop does exactly what
it does when, of the three relations of the family of the event, only the
earliest one that matches the event is configured (KK before KR before KA; RK
before RR before RA; AK before AR before AA): the later relations are applied
neither to the event nor to what the earlier relation made of it. -/
theorem C19_table_priority (cfg : Config) (dev : Dev) (s : LoopState) (ev : Event) :
    step cfg dev s ev = step (solo cfg ev) dev s ev := by
  by_cases h1 : ev.type = EV_KEY
  · rw [step_key cfg dev s ev h1, step_key (solo cfg ev) dev s ev h1, caseKey_solo cfg dev _ ev h1]
  · by_cases h2 : ev.type = EV_REL
    · rw [step_rel cfg dev s ev h2, step_rel (solo cfg ev) dev s ev h2,
        caseRel_solo cfg dev _ ev h1 h2]
    · by_cases h3 : ev.type = EV_ABS
      · obtain ⟨e0, e1, e2, e3, e4⟩ := solo_fields cfg ev
        rw [step_abs cfg dev s ev h3, step_abs (solo cfg ev) dev s ev h3, e0,
          normLoop_congr (solo cfg ev) cfg e1 e2 e3 e4]
        cases normLoop cfg (irngOf dev ev.code) (dev.uidev.absmin ev.code) ev.code cfg.nm
            (s.ac ev.code) ev.value with
        | none => rfl
        | some p =>
          obtain ⟨a, v⟩ := p
          dsimp only
          rw [absTables_solo cfg dev _ ev { ev with value := v } rfl h1 h2 h3]
      · rw [step_other cfg dev s ev h1 h2 h3, step_other (solo cfg ev) dev s ev h1 h2 h3]

/-- An instance of the table priority: with `30:48` in the KK table and key 30
also a source in the KR and KA tables, `{KEY,30,1}` is written as `{KEY,48,1}`. -/
theorem table_priority_example :
    solo cfgOverlap ⟨0, EV_KEY, 30, 1⟩ = { cfgOverlap with krm := [], kam := [] } ∧
    (step cfgOverlap devPlain (initState cfgOverlap) ⟨0, EV_KEY, 30, 1⟩).map Prod.snd =
      some [⟨0, EV_KEY, 48, 1⟩] := by
  constructor
  · rfl
  · decide

/-! ## Parsing of the rule tables -/

theorem matching_cons (sscanf : String → List Int) (col : Nat) (s : String) (ss : List String) :
    matching sscanf col (s :: ss) =
      if (sscanf s).length = col then sscanf s :: matching sscanf col ss
      else matching sscanf col ss := by
  unfold matching
  simp only [List.map_cons, List.filter_cons]
  split_ifs <;> simp_all

theorem countValid_snd (sscanf : String → List Int) (col : Nat) :
    ∀ (ss : List String) (c : List Int) (n : Nat),
      (countValid sscanf col ss c n).2 = n + (matching sscanf col ss).length := by
  intro ss
  induction ss with
  | nil => intro c n; simp [countValid, matching]
  | cons s ss ih =>
    intro c n
    unfold countValid
    rw [ih, matching_cons]
    split_ifs
    · simp only [List.length_cons]; omega
    · rfl

theorem storeConv_take (c vals : List Int) (col : Nat) (h : vals.length = col) (h4 : col ≤ 4) :
    (storeConv c vals).take col = vals := by
  unfold storeConv
  have e : vals.take 4 = vals := List.take_of_length_le (by omega)
  rw [e, ← h, List.take_left']
  rfl

theorem assignValid_eq (sscanf : String → List Int) (col n : Nat) (h4 : col ≤ 4) :
    ∀ (ss : List String) (c : List Int) (m : Nat) (rows : List (List Int)),
      m + (matching sscanf col ss).length ≤ n →
      assignValid sscanf col n ss c m rows =
        some (m + (matching sscanf col ss).length, rows ++ matching sscanf col ss) := by
  intro ss
  induction ss with
  | nil => intro c m rows _; simp [assignValid, matching]
  | cons s ss ih =>
    intro c m rows hle
    unfold assignValid
    rw [matching_cons] at hle ⊢
    by_cases hv : (sscanf s).length = col
    · rw [if_pos hv] at hle ⊢
      simp only [List.length_cons] at hle
      rw [if_pos hv, if_neg (by omega), storeConv_take c (sscanf s) col hv h4,
        ih _ _ _ (by omega)]
      simp only [List.length_cons, List.append_assoc, List.singleton_append, Option.some.injEq,
        Prod.mk.injEq, and_true]
      omega
    · rw [if_neg hv] at hle ⊢
      rw [if_neg hv]
      exact ih _ _ _ hle

theorem rowsOf_sentinel (rows : List (List Int)) (col : Nat) (h1 : 1 ≤ col) :
    rowsOf (rows ++ [List.replicate col (-1)]) =
      rows.takeWhile (fun row => decide (row.head? ≠ some (-1))) := by
  unfold rowsOf
  induction rows with
  | nil =>
    obtain ⟨k, rfl⟩ : ∃ k, col = k + 1 := ⟨col - 1, by omega⟩
    simp [List.replicate_succ]
  | cons r rs ih =>
    simp only [List.cons_append, List.takeWhile_cons]
    split_ifs
    · rw [ih]
    · rfl

theorem takeWhile_all {α : Type} (p : α → Bool) (l : List α) (h : ∀ x ∈ l, p x = true) :
    l.takeWhile p = l := by
  induction l with
  | nil => rfl
  | cons x xs ih =>
    rw [List.takeWhile_cons, h x (List.mem_cons_self x xs),
      ih (fun y hy => h y (List.mem_cons_of_mem x hy))]
    rfl

/-- What `str_int` returns for a list of strings and 1 to 4 columns: `NULL`
when no string matches, else the matching tuples followed by the row of `-1`. -/
theorem str_int_eq (sscanf : String → List Int) (ss : List String) (col : Nat)
    (h1 : 1 ≤ col) (h4 : col ≤ 4) :
    str_int sscanf (some ss) col =
      if matching sscanf col ss = [] then some none
      else some (some (matching sscanf col ss ++ [List.replicate col (-1)])) := by
  unfold str_int
  simp only
  rw [if_neg (by omega), countValid_snd]
  simp only [Nat.zero_add]
  by_cases hm : matching sscanf col ss = []
  · rw [hm]; rfl
  · have hlen : (matching sscanf col ss).length ≠ 0 := by
      intro h; exact hm (List.length_eq_zero.mp h)
    rw [if_neg hlen, if_neg hm, assignValid_eq sscanf col _ h4 ss _ 0 [] (by omega)]
    simp

/-- C20 (counterexample). The strings `"-1:5"` and `"30:48"` both match
`"%i:%i"`; `str_int` stores both tuples, but a consumer, which stops at the
first row whose first field is -1, visits none of them. -/
theorem C20_counterexample :
    matching sscanfDemo 2 ["-1:5", "30:48"] = [[-1, 5], [30, 48]] ∧
    str_int sscanfDemo (some ["-1:5", "30:48"]) 2 =
      some (some [[-1, 5], [30, 48], [-1, -1]]) ∧
    rowsOf [[-1, 5], [30, 48], [-1, -1]] = [] := by
  decide

/-- C20 (amended). Rule-table parsing: for every list of strings and a schema
of 1 to 4 fields, `str_int` succeeds; the table is `NULL` exactly when no
string matches; otherwise it holds the tuples of the matching strings in the
order of the strings, followed by the terminator, and iterating it from row 0
until the first row whose first field is -1 yields the matching tuples that
precede the first one whose first field is -1: all of them when no matching
tuple starts with -1. -/
theorem C20_str_int_table (sscanf : String → List Int) (ss : List String) (col : Nat)
    (h1 : 1 ≤ col) (h4 : col ≤ 4) :
    (matching sscanf col ss = [] → str_int sscanf (some ss) col = some none) ∧
    (matching sscanf col ss ≠ [] →
      ∃ mem, str_int sscanf (some ss) col = some (some mem) ∧
        mem = matching sscanf col ss ++ [List.replicate col (-1)] ∧
        rowsOf mem =
          (matching sscanf col ss).takeWhile (fun row => decide (row.head? ≠ some (-1))) ∧
        ((∀ t ∈ matching sscanf col ss, t.head? ≠ some (-1)) →
          rowsOf mem = matching sscanf col ss)) := by
  constructor
  · intro hm
    rw [str_int_eq sscanf ss col h1 h4, if_pos hm]
  · intro hm
    refine ⟨_, by rw [str_int_eq sscanf ss col h1 h4, if_neg hm], rfl,
      rowsOf_sentinel _ col h1, fun hall => ?_⟩
    rw [rowsOf_sentinel _ col h1]
    exact takeWhile_all _ _ (fun t ht => decide_eq_true (hall t ht))

/-- C20 (witness). The strings `"30:48"` and `"x"` with two columns. -/
theorem C20_str_int_table_witness :
    (matching sscanfDemo 2 ["30:48", "x"] = [] →
      str_int sscanfDemo (some ["30:48", "x"]) 2 = some none) ∧
    (matching sscanfDemo 2 ["30:48", "x"] ≠ [] →
      ∃ mem, str_int sscanfDemo (some ["30:48", "x"]) 2 = some (some mem) ∧
        mem = matching sscanfDemo 2 ["30:48", "x"] ++ [List.replicate 2 (-1)] ∧
        rowsOf mem =
          (matching sscanfDemo 2 ["30:48", "x"]).takeWhile
            (fun row => decide (row.head? ≠ some (-1))) ∧
        ((∀ t ∈ matching sscanfDemo 2 ["30:48", "x"], t.head? ≠ some (-1)) →
          rowsOf mem = matching sscanfDemo 2 ["30:48", "x"])) :=
  C20_str_int_table sscanfDemo ["30:48", "x"] 2 (by decide) (by decide)

/-! ## Samples rejected by the spike test -/

/-- C22. Spike rejection leaves the learned state untouched: with `nspk > 0`
and `nspkmin < irng`, a sample whose distance from the reference (`LAST` with
the ready flag set; `RMIN` without it, the warm-up counter being exhausted and
`RMIN` seeded) times `nspk` exceeds `irng` is dropped and no field of the row
of the axis changes. -/
theorem C22_spike_rejection_frame (cfg : Config) (irng smin : Int) (ac : AC) (v : Int)
    (hspk : (cfg.nspk : Int) > 0) (hmin : (cfg.nspkmin : Int) < irng)
    (hstate : (ac.RDY ≠ 0 ∧ |v - ac.LAST| * (cfg.nspk : Int) > irng) ∨
      (ac.RDY = 0 ∧ ac.IGN ≤ 0 ∧ ac.RMIN ≠ 0 ∧ |v - ac.RMIN| * (cfg.nspk : Int) > irng)) :
    normOnce cfg irng smin ac v = NormOut.drop ac := by
  unfold normOnce
  rcases hstate with ⟨hrdy, hfar⟩ | ⟨hrdy, hign, hseed, hfar⟩
  · have hsp : spike cfg irng ac.LAST v = true := by
      unfold spike
      exact decide_eq_true ⟨hspk, hmin, hfar⟩
    rw [if_pos hrdy]
    unfold normReady
    rw [if_pos hsp]
  · have hsp : spike cfg irng ac.RMIN v = true := by
      unfold spike
      exact decide_eq_true ⟨hspk, hmin, hfar⟩
    rw [if_neg (not_not.mpr hrdy)]
    unfold normNotReady
    rw [if_neg (not_lt.mpr hign), if_neg hseed, if_pos hsp]

/-- C22 (witness). Spike protection `4,2` on an axis of span 1000, learned
range [400, 600], last accepted sample 0, sample 900. -/
theorem C22_spike_rejection_frame_witness :
    normOnce cfgSpike 1000 0 acReady 900 = NormOut.drop acReady :=
  C22_spike_rejection_frame cfgSpike 1000 0 acReady 900 (by decide) (by decide)
    (Or.inl ⟨by decide, by decide⟩)

/-- A rejected sample leaves the whole auto-calibration array as it is and the
event goes on to the tables unchanged. -/
theorem spike_rejection_loop (cfg : Config) (irng smin code : Int) (ac : AC) (v : Int)
    (nm : List Int) (hnm : code ∈ reached id nm)
    (hdrop : normOnce cfg irng smin ac v = NormOut.drop ac) :
    normLoop cfg irng smin code nm ac v = some (ac, v) :=
  normLoop_drop cfg irng smin code ac ac v hdrop nm hnm

/-! ## The rescaling step -/

theorem afterReset_nrst_zero (cfg : Config) (irng : Int) (ac : AC) (v : Int)
    (h : cfg.nrst = 0) : afterReset cfg irng ac v = (afterSpike cfg irng ac v, false) := by
  unfold afterReset
  simp [h]

/-- The READY step without rescan, in the arithmetic of the code: with the
ready flag set, `nrst = 0` and a sample `v` that passes the spike test, the row
is left with `(RMIN, RMAX)` widened to include `v`, and the value left in the
event is `irng * (v - RMIN) / (RMAX - RMIN) + smin` with the product and the
sum reduced to 32 bits, if `nrng = 0` or `(RMAX - RMIN) * nrng ≥ irng`, and is
`v` unchanged otherwise; the widened range is not degenerate and its span is an
`int`. -/
theorem ready_rescale_int (cfg : Config) (irng smin : Int) (ac : AC) (v : Int)
    (hrdy : ac.RDY ≠ 0) (hrst : cfg.nrst = 0) (hacc : spike cfg irng ac.LAST v = false)
    (hne : min ac.RMIN v < max ac.RMAX v)
    (hspan : max ac.RMAX v - min ac.RMIN v < 2147483648) :
    ∃ a, a.RMIN = min ac.RMIN v ∧ a.RMAX = max ac.RMAX v ∧
      normOnce cfg irng smin ac v = NormOut.pass a
        (if cfg.nrng = 0 ∨ (a.RMAX - a.RMIN) * (cfg.nrng : Int) ≥ irng then
          cadd (Int.tdiv (cmul irng (v - a.RMIN)) (a.RMAX - a.RMIN)) smin
        else v) := by
  obtain ⟨h1, h2⟩ := widen_range (afterReset cfg irng ac v).1 v
  rw [afterReset_nrst_zero cfg irng ac v hrst] at h1 h2
  simp only [(afterSpike_range cfg irng ac v).1, (afterSpike_range cfg irng ac v).2] at h1 h2
  refine ⟨widen (afterSpike cfg irng ac v) v, h1, h2, ?_⟩
  have hlo : min ac.RMIN v ≤ v := min_le_right _ _
  have hhi : v ≤ max ac.RMAX v := le_max_right _ _
  unfold normOnce
  rw [if_pos hrdy]
  unfold normReady
  rw [hacc, afterReset_nrst_zero cfg irng ac v hrst]
  simp only [Bool.false_eq_true, if_false]
  generalize widen (afterSpike cfg irng ac v) v = a at h1 h2 ⊢
  have e1 : csub a.RMAX a.RMIN = a.RMAX - a.RMIN := by
    rw [h1, h2]; exact wrap_id _ (by omega) (by omega)
  have e2 : csub v a.RMIN = v - a.RMIN := by
    rw [h1]; exact wrap_id _ (by omega) (by omega)
  have e3 : cdiv (cmul irng (v - a.RMIN)) (a.RMAX - a.RMIN) =
      some (Int.tdiv (cmul irng (v - a.RMIN)) (a.RMAX - a.RMIN)) := by
    unfold cdiv
    rw [if_neg]
    rw [h1, h2]
    omega
  unfold covers rescale
  rw [e1, e2, e3]
  by_cases hc : cfg.nrng = 0 ∨ (a.RMAX - a.RMIN) * (cfg.nrng : Int) ≥ irng
  · simp [hc]
  · simp [hc]

/-- The value of the rescaling formula in `int` arithmetic is the exact
`irng * (v - lo) / (hi - lo) + smin` when the product and the sum fit an
`int`. -/
theorem rescale_exact (irng smin lo hi v : Int) (hlo : lo ≤ v) (hd : lo < hi) (hR : 0 ≤ irng)
    (hprod : irng * (v - lo) < 2147483648)
    (hs : isInt (irng * (v - lo) / (hi - lo) + smin)) :
    cadd (Int.tdiv (cmul irng (v - lo)) (hi - lo)) smin =
      irng * (v - lo) / (hi - lo) + smin := by
  have h0 : 0 ≤ irng * (v - lo) := mul_nonneg hR (by omega)
  have hm : cmul irng (v - lo) = irng * (v - lo) := wrap_id _ (by omega) hprod
  rw [hm, Int.tdiv_eq_ediv h0 (by omega)]
  exact wrap_id _ hs.1 hs.2

/-- The two branches of the step on the learned range [400, 600] of an axis
declared [0, 1000]: with `nrng = 0` the sample 450 is rescaled to 250; with
`nrng = 2` the coverage test fails and 450 is left as it is. -/
theorem ready_rescale_example :
    normOnce cfgNorm 1000 0 acReady 450 = NormOut.pass acReady 250 ∧
    normOnce cfgCover 1000 0 acReady 450 = NormOut.pass acReady 450 := by
  decide

/-- C21 (failing input). Axis 0 declared [-32767, 32767] (span 65534), default
configuration (no rescan, `nrng = 0`, no spike protection), READY row with the
learned range [-32767, 32767], sample 32767: the sample is accepted, the
widened range is the range as it was, the coverage test passes, and the value
left in the event is -32771, while
`span * (v - RMIN) / (RMAX - RMIN) + source_min` is 32767: the product
65534 * 65534 is computed in `int` and does not fit. -/
theorem C21_rescale_formula_not_computed :
    irngOf devJoy 0 = 65534 ∧ devJoy.uidev.absmin 0 = -32767 ∧
    cfgNorm.nrst = 0 ∧ cfgNorm.nrng = 0 ∧
    spike cfgNorm (irngOf devJoy 0) acJoy.LAST 32767 = false ∧
    normOnce cfgNorm (irngOf devJoy 0) (devJoy.uidev.absmin 0) acJoy 32767 =
      NormOut.pass acJoy (-32771) ∧
    irngOf devJoy 0 * (32767 - acJoy.RMIN) / (acJoy.RMAX - acJoy.RMIN) +
      devJoy.uidev.absmin 0 = 32767 := by
  decide

/-! ## The rescan period -/

theorem auxWiden_fields (a : AC) (v : Int) :
    (auxWiden a v).AMIN = min a.AMIN v ∧ (auxWiden a v).AMAX = max a.AMAX v ∧
    (auxWiden a v).ACNT = cadd a.ACNT 1 ∧ (auxWiden a v).RMIN = a.RMIN ∧
    (auxWiden a v).RMAX = a.RMAX ∧ (auxWiden a v).RDY = a.RDY ∧
    (auxWiden a v).LAST = a.LAST ∧ (auxWiden a v).IGN = a.IGN := by
  unfold auxWiden
  simp only
  split_ifs <;> refine ⟨?_, ?_, rfl, rfl, rfl, rfl, rfl, rfl⟩ <;> simp only [] at * <;> omega

theorem afterSpike_fields (cfg : Config) (irng : Int) (a : AC) (v : Int) :
    (afterSpike cfg irng a v).AMIN = a.AMIN ∧ (afterSpike cfg irng a v).AMAX = a.AMAX ∧
    (afterSpike cfg irng a v).ACNT = a.ACNT ∧ (afterSpike cfg irng a v).RMIN = a.RMIN ∧
    (afterSpike cfg irng a v).RMAX = a.RMAX ∧ (afterSpike cfg irng a v).RDY = a.RDY ∧
    (afterSpike cfg irng a v).IGN = a.IGN := by
  unfold afterSpike
  split_ifs <;> exact ⟨rfl, rfl, rfl, rfl, rfl, rfl, rfl⟩

theorem widen_fields (a : AC) (v : Int) :
    (widen a v).AMIN = a.AMIN ∧ (widen a v).AMAX = a.AMAX ∧ (widen a v).ACNT = a.ACNT ∧
    (widen a v).IGN = a.IGN := by
  unfold widen
  simp only
  split_ifs <;> exact ⟨rfl, rfl, rfl, rfl⟩

/-- The reset code on a row whose count is positive and reaches the period:
the coverage test on the widened window decides between the swap and the
hold. -/
theorem resetCode_check (cfg : Config) (irng : Int) (a : AC) (v : Int)
    (hcnt : a.ACNT > 0) (hreach : cadd a.ACNT 1 ≥ (cfg.nrst : Int)) :
    resetCode cfg irng a v =
      if covers cfg irng (min a.AMIN v) (max a.AMAX v) then
        ({ auxWiden a v with RMIN := min a.AMIN v, RMAX := max a.AMAX v,
                             AMIN := 0, AMAX := 0, ACNT := 0 }, true)
      else ({ auxWiden a v with ACNT := csub (cfg.nrst : Int) 1 }, false) := by
  obtain ⟨h1, h2, h3, -⟩ := auxWiden_fields a v
  unfold resetCode
  rw [if_pos hcnt, h3, if_pos hreach, h1, h2]

/-- The reset code of the READY branch when the count is positive and reaches
the period. -/
theorem afterReset_check (cfg : Config) (irng : Int) (a : AC) (v : Int)
    (hrst : 0 < cfg.nrst) (hcnt : a.ACNT > 0) (hreach : cadd a.ACNT 1 ≥ (cfg.nrst : Int)) :
    afterReset cfg irng a v =
      if covers cfg irng (min a.AMIN v) (max a.AMAX v) then
        ({ auxWiden (afterSpike cfg irng a v) v with
            RMIN := min a.AMIN v, RMAX := max a.AMAX v, AMIN := 0, AMAX := 0, ACNT := 0 }, true)
      else ({ auxWiden (afterSpike cfg irng a v) v with ACNT := csub (cfg.nrst : Int) 1 }, false) := by
  obtain ⟨h1, h2, h3, -⟩ := afterSpike_fields cfg irng a v
  unfold afterReset
  rw [if_pos hrst, resetCode_check cfg irng _ v (by rw [h3]; exact hcnt) (by rw [h3]; exact hreach),
    h1, h2]

/-- The row after a READY step on which the count reaches the period and the
coverage test on the window fails. -/
theorem hold_fields (cfg : Config) (irng smin : Int) (ac : AC) (v : Int)
    (hrst : 0 < cfg.nrst) (hrdy : ac.RDY ≠ 0) (hacc : spike cfg irng ac.LAST v = false)
    (hcnt : ac.ACNT > 0) (hreach : cadd ac.ACNT 1 ≥ (cfg.nrst : Int))
    (hfail : covers cfg irng (min ac.AMIN v) (max ac.AMAX v) = false) :
    (normOnce cfg irng smin ac v).ac.RDY = ac.RDY ∧
    (normOnce cfg irng smin ac v).ac.RMIN = min ac.RMIN v ∧
    (normOnce cfg irng smin ac v).ac.RMAX = max ac.RMAX v ∧
    (normOnce cfg irng smin ac v).ac.AMIN = min ac.AMIN v ∧
    (normOnce cfg irng smin ac v).ac.AMAX = max ac.AMAX v ∧
    (normOnce cfg irng smin ac v).ac.ACNT = csub (cfg.nrst : Int) 1 := by
  have e1 : normOnce cfg irng smin ac v = normReady cfg irng smin ac v := by
    unfold normOnce; rw [if_pos hrdy]
  rw [e1, normReady_ac cfg irng smin ac v hacc, afterReset_check cfg irng ac v hrst hcnt hreach,
    hfail]
  simp only [Bool.false_eq_true, if_false]
  obtain ⟨w1, w2⟩ := widen_range
    { auxWiden (afterSpike cfg irng ac v) v with ACNT := csub (cfg.nrst : Int) 1 } v
  obtain ⟨w3, w4, w5, -⟩ := widen_fields
    { auxWiden (afterSpike cfg irng ac v) v with ACNT := csub (cfg.nrst : Int) 1 } v
  obtain ⟨x1, x2, -, x4, x5, x6, -, -⟩ := auxWiden_fields (afterSpike cfg irng ac v) v
  obtain ⟨y1, y2, -, y4, y5, y6, -⟩ := afterSpike_fields cfg irng ac v
  refine ⟨?_, ?_, ?_, ?_, ?_, ?_⟩
  · rw [(widen_frame _ v).1]; exact x6.trans y6
  · rw [w1]; show min (auxWiden (afterSpike cfg irng ac v) v).RMIN v = _; rw [x4, y4]
  · rw [w2]; show max (auxWiden (afterSpike cfg irng ac v) v).RMAX v = _; rw [x5, y5]
  · rw [w3]; show (auxWiden (afterSpike cfg irng ac v) v).AMIN = _; rw [x1, y1]
  · rw [w4]; show (auxWiden (afterSpike cfg irng ac v) v).AMAX = _; rw [x2, y2]
  · rw [w5]

/-- The retry for a rescan period `nrst ≥ 2`: with the ready flag set, if on
an accepted sample `v` the count of the window, positive before, reaches `nrst`
and the coverage test on the widened window `(min AMIN v, max AMAX v)` fails,
then `(RMIN, RMAX)` are not replaced (they are only widened by `v`), `ACNT` is
held at `nrst - 1`, and on the next accepted sample `v2` the test is made again
on the window widened by `v2`: the range is replaced exactly when it passes,
and the count is then 0, else `nrst - 1` again. -/
theorem rescan_retry_from_two (cfg : Config) (irng smin : Int) (ac : AC) (v v2 : Int)
    (hrst : 2 ≤ cfg.nrst) (hint : (cfg.nrst : Int) < 2147483648)
    (hrdy : ac.RDY ≠ 0) (hacc : spike cfg irng ac.LAST v = false)
    (hcnt : ac.ACNT > 0) (hreach : cadd ac.ACNT 1 ≥ (cfg.nrst : Int))
    (hfail : covers cfg irng (min ac.AMIN v) (max ac.AMAX v) = false)
    (hacc2 : spike cfg irng (normOnce cfg irng smin ac v).ac.LAST v2 = false) :
    (normOnce cfg irng smin ac v).ac.RMIN = min ac.RMIN v ∧
    (normOnce cfg irng smin ac v).ac.RMAX = max ac.RMAX v ∧
    (normOnce cfg irng smin ac v).ac.ACNT = (cfg.nrst : Int) - 1 ∧
    swaps cfg irng (normOnce cfg irng smin ac v).ac v2 =
      covers cfg irng (min (min ac.AMIN v) v2) (max (max ac.AMAX v) v2) ∧
    (normOnce cfg irng smin (normOnce cfg irng smin ac v).ac v2).ac.ACNT =
      (if covers cfg irng (min (min ac.AMIN v) v2) (max (max ac.AMAX v) v2) then 0
       else (cfg.nrst : Int) - 1) := by
  have hpos : 0 < cfg.nrst := by omega
  have hn2 : (2 : Int) ≤ (cfg.nrst : Int) := by exact_mod_cast hrst
  obtain ⟨f1, f2, f3, f4, f5, f6⟩ :=
    hold_fields cfg irng smin ac v hpos hrdy hacc hcnt hreach hfail
  have hsub : csub (cfg.nrst : Int) 1 = (cfg.nrst : Int) - 1 := wrap_id _ (by omega) (by omega)
  rw [hsub] at f6
  generalize (normOnce cfg irng smin ac v).ac = a1 at f1 f2 f3 f4 f5 f6 hacc2 ⊢
  have hrdy1 : a1.RDY ≠ 0 := by rw [f1]; exact hrdy
  have hcnt1 : a1.ACNT > 0 := by rw [f6]; omega
  have hreach1 : cadd a1.ACNT 1 ≥ (cfg.nrst : Int) := by
    rw [f6]
    unfold cadd
    rw [wrap_id _ (by omega) (by omega)]
    omega
  have hchk := afterReset_check cfg irng a1 v2 hpos hcnt1 hreach1
  rw [f4, f5] at hchk
  refine ⟨f2, f3, f6, ?_, ?_⟩
  · unfold swaps
    rw [hacc2, hchk]
    cases covers cfg irng (min (min ac.AMIN v) v2) (max (max ac.AMAX v) v2) <;> rfl
  · have e1 : normOnce cfg irng smin a1 v2 = normReady cfg irng smin a1 v2 := by
      unfold normOnce; rw [if_pos hrdy1]
    rw [e1, normReady_ac cfg irng smin a1 v2 hacc2, (widen_fields _ v2).2.2.1, hchk]
    cases covers cfg irng (min (min ac.AMIN v) v2) (max (max ac.AMAX v) v2)
    · simp only [Bool.false_eq_true, if_false]
      exact hsub
    · simp only [if_true]

/-- C23 (failing input). Axis 0 declared [0, 1000], `--normconf 0,2,1`
(rescan period 1).  After the samples 100, 900, 400, 600 the row is READY with
the range [100, 900], the window [400, 600] and the count 1.  On the sample
500 the count reaches the period, the coverage test fails (200 * 2 < 1000) and
the count is set to `nrst - 1`, which is 0.  On the next sample 950 the reset
code therefore takes the arm of a count of zero, the one that seeds a window:
no coverage test is made, although the window widened by 950 would pass it
(550 * 2 ≥ 1000); the range is not replaced and the upper bound of the window
is overwritten. -/
theorem C23_rescan_check_skipped :
    ((run cfgRetry devK (initState cfgRetry)
        [⟨0, EV_ABS, 0, 100⟩, ⟨1, EV_ABS, 0, 900⟩, ⟨2, EV_ABS, 0, 400⟩, ⟨3, EV_ABS, 0, 600⟩]).1.ac 0)
      = { IGN := 0, RDY := 1, RMIN := 100, RMAX := 900, ACNT := 1, AMIN := 400, AMAX := 600,
          LAST := 0 } ∧
    (normOnce cfgRetry 1000 0
        { IGN := 0, RDY := 1, RMIN := 100, RMAX := 900, ACNT := 1, AMIN := 400, AMAX := 600,
          LAST := 0 } 500).ac
      = { IGN := 0, RDY := 1, RMIN := 100, RMAX := 900, ACNT := 0, AMIN := 400, AMAX := 600,
          LAST := 0 } ∧
    covers cfgRetry 1000 400 600 = false ∧
    covers cfgRetry 1000 (min 400 950) (max 600 950) = true ∧
    swaps cfgRetry 1000
        { IGN := 0, RDY := 1, RMIN := 100, RMAX := 900, ACNT := 0, AMIN := 400, AMAX := 600,
          LAST := 0 } 950 = false ∧
    (normOnce cfgRetry 1000 0
        { IGN := 0, RDY := 1, RMIN := 100, RMAX := 900, ACNT := 0, AMIN := 400, AMAX := 600,
          LAST := 0 } 950).ac
      = { IGN := 0, RDY := 1, RMIN := 100, RMAX := 950, ACNT := 1, AMIN := 400, AMAX := 950,
          LAST := 0 } := by
  decide

/-- The retry with `--normconf 0,2,3` on an axis of span 1000, range
[100, 900], window [400, 600] with the count 2: the sample 500 leaves the row
as it was (the count is back at 2), and the window widened by 950 passes the
coverage test and replaces the learned range. -/
theorem rescan_retry_example :
    (normOnce cfgRetry3 1000 0 acWindow 500).ac = acWindow ∧
    (normOnce cfgRetry3 1000 0 (normOnce cfgRetry3 1000 0 acWindow 500).ac 950).ac =
      { IGN := 0, RDY := 1, RMIN := 400, RMAX := 950, ACNT := 0, AMIN := 0, AMAX := 0,
        LAST := 0 } := by
  decide

/-! ## The learned range is never degenerate -/

theorem resetCode_inv (cfg : Config) (irng : Int) (a : AC) (v : Int) (h : ACInv a) :
    ACInv (resetCode cfg irng a v).1 := by
  obtain ⟨x1, x2, x3, x4, x5, x6, -, -⟩ := auxWiden_fields a v
  obtain ⟨h1, h2⟩ := h
  unfold resetCode ACInv
  split_ifs with c1 c2 c3 c4 c5 c6
  · have := h2 c1
    dsimp only
    rw [x1, x2]
    exact ⟨fun _ => by omega, fun hc => absurd hc (by decide)⟩
  · have := h2 c1
    dsimp only
    rw [x1, x2, x4, x5, x6]
    exact ⟨h1, fun _ => by omega⟩
  · have := h2 c1
    rw [x1, x2, x4, x5, x6]
    exact ⟨h1, fun _ => by omega⟩
  · exact ⟨h1, fun hc => absurd hc c1⟩
  · exact ⟨h1, fun _ => c5⟩
  · exact ⟨h1, fun _ => c6⟩
  · exact ⟨h1, h2⟩

theorem afterReset_inv (cfg : Config) (irng : Int) (a : AC) (v : Int) (h : ACInv a) :
    ACInv (afterReset cfg irng a v).1 := by
  obtain ⟨y1, y2, y3, y4, y5, y6, -⟩ := afterSpike_fields cfg irng a v
  have hs : ACInv (afterSpike cfg irng a v) := by
    unfold ACInv
    rw [y1, y2, y3, y4, y5, y6]
    exact h
  unfold afterReset
  split_ifs
  · exact resetCode_inv cfg irng _ v hs
  · exact hs

theorem widen_inv (a : AC) (v : Int) (h : ACInv a) : ACInv (widen a v) := by
  obtain ⟨w1, w2⟩ := widen_range a v
  obtain ⟨w3, w4, w5, -⟩ := widen_fields a v
  obtain ⟨h1, h2⟩ := h
  unfold ACInv
  rw [w1, w2, w3, w4, w5, (widen_frame a v).1]
  exact ⟨fun hr => by have := h1 hr; omega, h2⟩

theorem normOnce_inv (cfg : Config) (irng smin : Int) (ac : AC) (v : Int) (h : ACInv ac) :
    ACInv (normOnce cfg irng smin ac v).ac := by
  unfold normOnce
  by_cases hrdy : ac.RDY ≠ 0
  · rw [if_pos hrdy]
    by_cases hsp : spike cfg irng ac.LAST v = true
    · unfold normReady
      rw [if_pos hsp]
      exact h
    · rw [normReady_ac cfg irng smin ac v (by simpa using hsp)]
      exact widen_inv _ v (afterReset_inv cfg irng ac v h)
  · rw [if_neg hrdy]
    obtain ⟨y1, y2, y3, y4, y5, y6, -⟩ := afterSpike_fields cfg irng ac v
    obtain ⟨h1, h2⟩ := h
    unfold normNotReady
    dsimp only
    split_ifs with c1 c2 c3 c4 c5
    · exact ⟨fun hr => absurd hr hrdy, h2⟩
    · exact ⟨fun hr => absurd hr hrdy, h2⟩
    · exact ⟨h1, h2⟩
    · refine ⟨fun _ => c4, ?_⟩
      show (afterSpike cfg irng ac v).ACNT > 0 →
        (afterSpike cfg irng ac v).AMIN < (afterSpike cfg irng ac v).AMAX
      rw [y1, y2, y3]; exact h2
    · refine ⟨fun _ => c5, ?_⟩
      show (afterSpike cfg irng ac v).ACNT > 0 →
        (afterSpike cfg irng ac v).AMIN < (afterSpike cfg irng ac v).AMAX
      rw [y1, y2, y3]; exact h2
    · show ACInv (afterSpike cfg irng ac v)
      unfold ACInv
      rw [y1, y2, y3, y4, y5, y6]
      exact ⟨h1, h2⟩

theorem resetCode_int (cfg : Config) (irng : Int) (a : AC) (v : Int) (hv : isInt v)
    (h : ACInt a) : ACInt (resetCode cfg irng a v).1 := by
  obtain ⟨x1, x2, -, x4, x5, -, -, -⟩ := auxWiden_fields a v
  unfold ACInt isInt at h ⊢
  unfold isInt at hv
  unfold resetCode
  split_ifs
  · dsimp only
    rw [x1, x2]
    omega
  · dsimp only
    rw [x1, x2, x4, x5]
    omega
  · rw [x1, x2, x4, x5]
    omega
  · dsimp only; omega
  · dsimp only; omega
  · dsimp only; omega
  · exact h

theorem afterReset_int (cfg : Config) (irng : Int) (a : AC) (v : Int) (hv : isInt v)
    (h : ACInt a) : ACInt (afterReset cfg irng a v).1 := by
  obtain ⟨y1, y2, -, y4, y5, -, -⟩ := afterSpike_fields cfg irng a v
  have hs : ACInt (afterSpike cfg irng a v) := by
    unfold ACInt
    rw [y1, y2, y4, y5]
    exact h
  unfold afterReset
  split_ifs
  · exact resetCode_int cfg irng _ v hv hs
  · exact hs

theorem widen_int (a : AC) (v : Int) (hv : isInt v) (h : ACInt a) : ACInt (widen a v) := by
  obtain ⟨w1, w2⟩ := widen_range a v
  obtain ⟨w3, w4, -, -⟩ := widen_fields a v
  unfold ACInt isInt at h ⊢
  unfold isInt at hv
  rw [w1, w2, w3, w4]
  omega

theorem normOnce_int (cfg : Config) (irng smin : Int) (ac : AC) (v : Int) (hv : isInt v)
    (h : ACInt ac) : ACInt (normOnce cfg irng smin ac v).ac := by
  unfold normOnce
  by_cases hrdy : ac.RDY ≠ 0
  · rw [if_pos hrdy]
    by_cases hsp : spike cfg irng ac.LAST v = true
    · unfold normReady
      rw [if_pos hsp]
      exact h
    · rw [normReady_ac cfg irng smin ac v (by simpa using hsp)]
      exact widen_int _ v hv (afterReset_int cfg irng ac v hv h)
  · rw [if_neg hrdy]
    obtain ⟨y1, y2, -, y4, y5, -, -⟩ := afterSpike_fields cfg irng ac v
    unfold ACInt isInt at h ⊢
    unfold isInt at hv
    unfold normNotReady
    dsimp only
    split_ifs
    · exact h
    · show _ ∧ _ ∧ _ ∧ _
      simp only [NormOut.ac]
      omega
    · exact h
    · simp only [NormOut.ac]
      rw [y1, y2, y4]
      omega
    · simp only [NormOut.ac]
      rw [y1, y2, y4]
      omega
    · simp only [NormOut.ac]
      rw [y1, y2, y4, y5]
      exact h

/-- The value left in the event by the auto-calibration code is an `int`. -/
theorem normOnce_value_int (cfg : Config) (irng smin : Int) (ac a : AC) (v w : Int)
    (hv : isInt v) (h : normOnce cfg irng smin ac v = NormOut.pass a w) : isInt w := by
  unfold normOnce at h
  split_ifs at h
  · unfold normReady at h
    dsimp only at h
    split_ifs at h
    · unfold rescale at h
      cases hq : cdiv (cmul irng (csub v (widen (afterReset cfg irng ac v).1 v).RMIN))
          (csub (widen (afterReset cfg irng ac v).1 v).RMAX
            (widen (afterReset cfg irng ac v).1 v).RMIN) with
      | none => rw [hq] at h; simp at h
      | some q =>
        rw [hq] at h
        simp only [Option.map_some', NormOut.pass.injEq] at h
        rw [← h.2]
        exact wrap_range _
    · simp only [NormOut.pass.injEq] at h
      rw [← h.2]; exact hv
  · unfold normNotReady at h
    dsimp only at h
    split_ifs at h <;> simp only [NormOut.pass.injEq] at h <;> (rw [← h.2]; exact hv)

theorem normLoop_inv (cfg : Config) (irng smin code : Int) :
    ∀ (nm : List Int) (ac a : AC) (v w : Int), isInt v → ACInv ac → ACInt ac →
      normLoop cfg irng smin code nm ac v = some (a, w) → ACInv a ∧ ACInt a := by
  intro nm
  induction nm with
  | nil =>
    intro ac a v w _ h1 h2 h
    simp only [normLoop, Option.some.injEq, Prod.mk.injEq] at h
    rw [← h.1]; exact ⟨h1, h2⟩
  | cons n ns ih =>
    intro ac a v w hv h1 h2 h
    unfold normLoop at h
    split_ifs at h with c1 c2
    · simp only [Option.some.injEq, Prod.mk.injEq] at h
      rw [← h.1]; exact ⟨h1, h2⟩
    · have i1 := normOnce_inv cfg irng smin ac v h1
      have i2 := normOnce_int cfg irng smin ac v hv h2
      cases hn : normOnce cfg irng smin ac v with
      | drop a1 =>
        rw [hn] at h i1 i2
        simp only [Option.some.injEq, Prod.mk.injEq] at h
        rw [← h.1]; exact ⟨i1, i2⟩
      | pass a1 w1 =>
        rw [hn] at h i1 i2
        exact ih a1 a w1 w (normOnce_value_int cfg irng smin ac a1 v w1 hv hn) i1 i2 h
      | trap a1 =>
        rw [hn] at h
        simp at h
    · exact ih ac a v w hv h1 h2 h

theorem finish_ac (ac : Int → AC) (p : Out × Event × Bool) : (finish ac p).1.ac = ac := rfl

theorem step_inv (cfg : Config) (dev : Dev) (s s1 : LoopState) (ev : Event) (out : List Event)
    (hv : isInt ev.value) (h : StateInv s) (hs : step cfg dev s ev = some (s1, out)) :
    StateInv s1 := by
  by_cases h1 : ev.type = EV_KEY
  · rw [step_key cfg dev s ev h1] at hs
    cases hc : caseKey cfg dev { shadow := s.shadow, sent := [] } ev with
    | none => rw [hc] at hs; simp at hs
    | some p =>
      rw [hc] at hs
      simp only [Option.map_some', Option.some.injEq] at hs
      have : s1.ac = s.ac := (congrArg (fun q => q.1.ac) hs).symm
      intro code; rw [this]; exact h code
  · by_cases h2 : ev.type = EV_REL
    · rw [step_rel cfg dev s ev h2] at hs
      cases hc : caseRel cfg dev { shadow := s.shadow, sent := [] } ev with
      | none => rw [hc] at hs; simp at hs
      | some p =>
        rw [hc] at hs
        simp only [Option.map_some', Option.some.injEq] at hs
        have : s1.ac = s.ac := (congrArg (fun q => q.1.ac) hs).symm
        intro code; rw [this]; exact h code
    · by_cases h3 : ev.type = EV_ABS
      · rw [step_abs cfg dev s ev h3] at hs
        cases hn : normLoop cfg (irngOf dev ev.code) (dev.uidev.absmin ev.code) ev.code cfg.nm
            (s.ac ev.code) ev.value with
        | none => rw [hn] at hs; simp at hs
        | some q =>
          obtain ⟨a, w⟩ := q
          rw [hn] at hs
          dsimp only at hs
          cases hc : absTables cfg dev { shadow := s.shadow, sent := [] }
              { ev with value := w } with
          | none => rw [hc] at hs; simp at hs
          | some p =>
            rw [hc] at hs
            simp only [Option.map_some', Option.some.injEq] at hs
            have : s1.ac = fun c => if c = ev.code then a else s.ac c :=
              (congrArg (fun q => q.1.ac) hs).symm
            intro code
            rw [this]
            dsimp only
            split_ifs
            · exact normLoop_inv cfg _ _ _ cfg.nm (s.ac ev.code) a ev.value w hv
                (h ev.code).1 (h ev.code).2 hn
            · exact h code
      · rw [step_other cfg dev s ev h1 h2 h3] at hs
        simp only [Option.some.injEq] at hs
        have : s1.ac = s.ac := (congrArg (fun q => q.1.ac) hs).symm
        intro code; rw [this]; exact h code

theorem run_inv (cfg : Config) (dev : Dev) :
    ∀ (evs : List Event) (s : LoopState), (∀ e ∈ evs, isInt e.value) → StateInv s →
      StateInv (run cfg dev s evs).1 := by
  intro evs
  induction evs with
  | nil => intro s _ h; exact h
  | cons e es ih =>
    intro s hv h
    unfold run
    cases hs : step cfg dev s e with
    | none => exact h
    | some p =>
      obtain ⟨s1, out⟩ := p
      dsimp only
      exact ih s1 (fun x hx => hv x (List.mem_cons_of_mem e hx))
        (step_inv cfg dev s s1 e out (hv e (List.mem_cons_self e es)) h hs)

theorem initState_inv (cfg : Config) : StateInv (initState cfg) := by
  intro code
  unfold initState ACInv ACInt isInt
  dsimp only
  omega

theorem normRun_inv (cfg : Config) (irng smin : Int) :
    ∀ (vs : List Int) (a : AC), (∀ v ∈ vs, isInt v) → ACInv a → ACInt a →
      ACInv (normRun cfg irng smin a vs) ∧ ACInt (normRun cfg irng smin a vs) := by
  intro vs
  induction vs with
  | nil => intro a _ h1 h2; exact ⟨h1, h2⟩
  | cons v vs ih =>
    intro a hv h1 h2
    unfold normRun
    exact ih _ (fun x hx => hv x (List.mem_cons_of_mem v hx))
      (normOnce_inv cfg irng smin a v h1)
      (normOnce_int cfg irng smin a v (hv v (List.mem_cons_self v vs)) h2)

/-- The difference of two distinct `int` values, reduced to an `int`, is not
zero; it is positive when the difference is an `int`. -/
theorem divisor_ne_zero (lo hi : Int) (h : lo < hi) (h1 : isInt lo) (h2 : isInt hi) :
    csub hi lo ≠ 0 ∧ (hi - lo < 2147483648 → 0 < csub hi lo) := by
  unfold isInt at h1 h2
  unfold csub wrap
  omega

/-- What holds of the learned range: in every row reached from the row at
loop entry (all fields zero but the warm-up counter) by the auto-calibration
code run on any sequence of `int` samples, under any configuration and for any
declared range, if the ready flag is set then `RMIN < RMAX`, and the divisor
of the rescaling formula, which is `RMAX - RMIN` reduced to an `int`, is not
zero; and whenever `ACNT > 0`, `AMIN < AMAX`. -/
theorem range_never_degenerate (cfg : Config) (irng smin code : Int) (vs : List Int) (a : AC)
    (hv : ∀ v ∈ vs, isInt v)
    (ha : normRun cfg irng smin ((initState cfg).ac code) vs = a) :
    (a.RDY ≠ 0 → a.RMIN < a.RMAX ∧ 0 < a.RMAX - a.RMIN ∧ csub a.RMAX a.RMIN ≠ 0) ∧
    (a.ACNT > 0 → a.AMIN < a.AMAX) := by
  obtain ⟨⟨h1, h2⟩, h3⟩ := normRun_inv cfg irng smin vs ((initState cfg).ac code) hv
    (initState_inv cfg code).1 (initState_inv cfg code).2
  rw [ha] at h1 h2 h3
  refine ⟨fun hr => ?_, h2⟩
  have hlt := h1 hr
  exact ⟨hlt, by omega, (divisor_ne_zero a.RMIN a.RMAX hlt h3.1 h3.2.1).1⟩

/-- Axis of span 1000, `--normconf 0,0,3`, samples 100, 900, 400, 600, 450,
450: the last sample performs a rescan swap, which replaces the range
[100, 900] by the window [400, 600]. -/
theorem rescan_swap_example :
    normRun cfgRescan 1000 0 ((initState cfgRescan).ac 0) [100, 900, 400, 600, 450, 450] =
      { IGN := 0, RDY := 1, RMIN := 400, RMAX := 600, ACNT := 0, AMIN := 0, AMAX := 0,
        LAST := 0 } := by
  decide

/-- The same for the loop: after any sequence of events with `int` values,
every row of the auto-calibration array with the ready flag set has
`RMIN < RMAX` and a divisor that is not zero. -/
theorem run_rows_sound (cfg : Config) (dev : Dev) (evs : List Event) (code : Int)
    (hv : ∀ e ∈ evs, isInt e.value) :
    (((run cfg dev (initState cfg) evs).1.ac code).RDY ≠ 0 →
      ((run cfg dev (initState cfg) evs).1.ac code).RMIN <
        ((run cfg dev (initState cfg) evs).1.ac code).RMAX ∧
      csub ((run cfg dev (initState cfg) evs).1.ac code).RMAX
        ((run cfg dev (initState cfg) evs).1.ac code).RMIN ≠ 0) ∧
    (((run cfg dev (initState cfg) evs).1.ac code).ACNT > 0 →
      ((run cfg dev (initState cfg) evs).1.ac code).AMIN <
        ((run cfg dev (initState cfg) evs).1.ac code).AMAX) := by
  obtain ⟨⟨h1, h2⟩, h3⟩ := run_inv cfg dev evs (initState cfg) hv (initState_inv cfg) code
  refine ⟨fun hr => ?_, h2⟩
  exact ⟨h1 hr, (divisor_ne_zero _ _ (h1 hr) h3.1 h3.2.1).1⟩

/-- C24 (failing input). Axis 0 declared [0, 65536], default configuration,
samples -2147483648 and 2147483647: the row is READY with `RMIN < RMAX`, but
the divisor of the rescaling formula, `RMAX - RMIN` computed in `int`, is -1,
not a positive number.  On the next sample -2147450880 the product
65536 * 32768, computed in `int`, is -2147483648, and its division by -1
traps: the process ends as it would on a division by zero. -/
theorem C24_divisor_not_positive :
    normRun cfgNorm (irngOf devWide 0) (devWide.uidev.absmin 0) ((initState cfgNorm).ac 0)
        [-2147483648, 2147483647] =
      { IGN := 0, RDY := 1, RMIN := -2147483648, RMAX := 2147483647, ACNT := 0, AMIN := 0,
        AMAX := 0, LAST := 0 } ∧
    csub 2147483647 (-2147483648) = -1 ∧
    normOnce cfgNorm (irngOf devWide 0) (devWide.uidev.absmin 0)
        { IGN := 0, RDY := 1, RMIN := -2147483648, RMAX := 2147483647, ACNT := 0, AMIN := 0,
          AMAX := 0, LAST := 0 } (-2147450880) =
      NormOut.trap { IGN := 0, RDY := 1, RMIN := -2147483648, RMAX := 2147483647, ACNT := 0,
                     AMIN := 0, AMAX := 0, LAST := 0 } := by
  decide

/-! ## The bitmap macros on words of 64 bits -/

/-- For an offset below 32 the macro `SET` involves no undefined shift. -/
theorem SET64_defined (ub ub1 : Int → Nat → Int) (c : Nat → Nat) (b : Nat) (v : Int)
    (h : OFF b < 32) : SET64 ub c b v = SET64 ub1 c b v := by
  unfold SET64 shl
  simp only [if_pos h]

theorem toULong_cases (s : Int) (h : isInt s) :
    (0 ≤ s ∧ (toULong s : Int) = s) ∨ (s < 0 ∧ (toULong s : Int) = 18446744073709551616 + s) := by
  unfold toULong
  unfold isInt at h
  omega

theorem GET64_eq (c : Nat → Nat) (b : Nat) : GET64 c b = c (POS b) / 2 ^ OFF b % 2 := by
  unfold GET64
  rw [Nat.and_one_is_mod, Nat.shiftRight_eq_div_pow]

theorem two_pow_low (k : Nat) (hk : k < 31) : 2 ^ k ≤ 1073741824 := by
  have : 2 ^ k ≤ 2 ^ 30 := Nat.pow_le_pow_right (by decide) (by omega)
  simpa using this

theorem toULong_mask (ub : Int → Nat → Int) (k : Nat) (hk : k < 31) :
    toULong (-(shl ub 1 k) - 1) = 2 ^ 64 - (2 ^ k + 1) := by
  have h := two_pow_low k hk
  unfold shl
  rw [if_pos (by omega)]
  unfold toULong wrap
  generalize 2 ^ k = p at h ⊢
  norm_num
  omega

theorem toULong_bit (ub : Int → Nat → Int) (k : Nat) (hk : k < 31) (v : Int) :
    toULong (shl ub (if v > 0 then 1 else 0) k) = if v > 0 then 2 ^ k else 0 := by
  have h := two_pow_low k hk
  unfold shl
  rw [if_pos (by omega)]
  unfold toULong wrap
  generalize 2 ^ k = p at h ⊢
  split_ifs
  · norm_num
    omega
  · norm_num

/-- The bits of the word written by `SET` for an offset below 31. -/
theorem SET64_testBit (ub : Int → Nat → Int) (w k : Nat) (v : Int) (hw : w < 2 ^ 64)
    (hk : k < 31) (j : Nat) :
    ((w &&& toULong (-(shl ub 1 k) - 1)) |||
        toULong (shl ub (if v > 0 then 1 else 0) k)).testBit j =
      if j = k then decide (v > 0) else w.testBit j := by
  have hp : 2 ^ k < 2 ^ 64 := Nat.pow_lt_pow_right (by decide) (by omega)
  rw [toULong_mask ub k hk, toULong_bit ub k hk v, Nat.testBit_or, Nat.testBit_and,
    Nat.testBit_two_pow_sub_succ hp, Nat.testBit_two_pow]
  by_cases hj : j = k
  · subst hj
    by_cases hv : v > 0
    · simp [hv, Nat.testBit_two_pow_self]
    · simp [hv]
  · have hkj : ¬ k = j := fun e => hj e.symm
    rw [if_neg hj]
    by_cases h64 : j < 64
    · by_cases hv : v > 0
      · simp [hv, hkj, h64, Nat.testBit_two_pow_of_ne hkj]
      · simp [hv, hkj, h64]
    · have hz : w.testBit j = false :=
        Nat.testBit_lt_two_pow (lt_of_lt_of_le hw (Nat.pow_le_pow_right (by decide) (by omega)))
      by_cases hv : v > 0
      · simp [hv, hkj, h64, hz, Nat.testBit_two_pow_of_ne hkj]
      · simp [hv, hkj, h64, hz]

theorem GET64_testBit (c : Nat → Nat) (b : Nat) :
    GET64 c b = ((c (POS b)).testBit (OFF b)).toNat := by
  rw [GET64_eq, Nat.toNat_testBit]

/-- For a bit whose offset within its word is below 31 the macros behave as a
set of bits: `SET` writes `v > 0` into the bit, leaves every other bit alone
and keeps the words within 64 bits. -/
theorem bitmap_round_trip_low (ub : Int → Nat → Int) (c : Nat → Nat) (b : Nat) (v : Int)
    (hw : ∀ i, c i < 2 ^ 64) (hoff : OFF b < 31) :
    GET64 (SET64 ub c b v) b = (if v > 0 then 1 else 0) ∧
    (∀ b1, b1 ≠ b → GET64 (SET64 ub c b v) b1 = GET64 c b1) ∧
    (∀ i, SET64 ub c b v i < 2 ^ 64) := by
  refine ⟨?_, ?_, ?_⟩
  · rw [GET64_testBit]
    unfold SET64
    rw [if_pos rfl, SET64_testBit ub _ _ v (hw _) hoff, if_pos rfl]
    by_cases hv : v > 0 <;> simp [hv]
  · intro b1 hb
    rw [GET64_testBit, GET64_testBit]
    unfold SET64
    by_cases hp : POS b1 = POS b
    · rw [if_pos hp, SET64_testBit ub _ _ v (hw _) hoff]
      have ho : OFF b1 ≠ OFF b := by
        intro e
        apply hb
        unfold POS at hp
        unfold OFF at e
        omega
      rw [if_neg ho, hp]
    · rw [if_neg hp]
  · intro i
    unfold SET64
    by_cases hi : i = POS b
    · rw [if_pos hi]
      apply Nat.lt_pow_two_of_testBit
      intro j hj
      rw [SET64_testBit ub _ _ v (hw _) hoff, if_neg (by omega)]
      exact Nat.testBit_lt_two_pow (lt_of_lt_of_le (hw _) (Nat.pow_le_pow_right (by decide) hj))
    · rw [if_neg hi]
      exact hw i

/-- C25 (failing input). With `long` of 64 bits and `int` of 32 bits the macros
do not write and read single bits from offset 31 on.  `SET(c, 31, 1)` on a
cleared array also sets bit 40 (the `int` value `1 << 31` is negative and its
conversion to `unsigned long` has the bits 31 to 63 set), and `SET(c, 31, 0)`
on an array of set bits also clears bit 40 (the `int` value `~(1 << 31)` is
positive and its conversion has the bits 31 to 63 clear).  For the offset 32
the shift of the `int` is undefined: whatever it yields, `SET(c, 32, 1)` on a
cleared array does not leave bit 32 set and bit 33 clear; with the shift
instruction of x86-64, which takes the count modulo 32, it leaves bit 32 clear
and sets bit 0. -/
theorem C25_bitmap_round_trip_fails :
    (∀ ub, GET64 (fun _ => 0) 40 = 0 ∧ GET64 (SET64 ub (fun _ => 0) 31 1) 31 = 1 ∧
      GET64 (SET64 ub (fun _ => 0) 31 1) 40 = 1) ∧
    (∀ ub, GET64 (fun _ => 18446744073709551615) 40 = 1 ∧
      GET64 (SET64 ub (fun _ => 18446744073709551615) 31 0) 40 = 0) ∧
    (∀ ub, ¬ (GET64 (SET64 ub (fun _ => 0) 32 1) 32 = 1 ∧
      GET64 (SET64 ub (fun _ => 0) 32 1) 33 = GET64 (fun _ => 0) 33)) ∧
    (GET64 (SET64 shlMasked (fun _ => 0) 32 1) 32 = 0 ∧
      GET64 (SET64 shlMasked (fun _ => 0) 32 1) 0 = 1) := by
  refine ⟨fun ub => ?_, fun ub => ?_, fun ub => ?_, by decide⟩
  · rw [SET64_defined ub shlMasked _ 31 1 (by decide)]
    decide
  · rw [SET64_defined ub shlMasked _ 31 0 (by decide)]
    decide
  · have hw : SET64 ub (fun _ => 0) 32 1 0 = toULong (wrap (ub 1 32)) := by
      simp [SET64, POS, OFF, shl]
    have hz : GET64 (fun _ => 0) 33 = 0 := by decide
    rw [hz, GET64_eq, GET64_eq]
    have p32 : POS 32 = 0 := by decide
    have p33 : POS 33 = 0 := by decide
    have o32 : OFF 32 = 32 := by decide
    have o33 : OFF 33 = 33 := by decide
    rw [p32, p33, o32, o33, hw]
    have hr := wrap_range (ub 1 32)
    rcases toULong_cases (wrap (ub 1 32)) hr with ⟨h1, h2⟩ | ⟨h1, h2⟩
    · generalize toULong (wrap (ub 1 32)) = T at h2 ⊢
      norm_num
      omega
    · generalize toULong (wrap (ub 1 32)) = T at h2 ⊢
      norm_num
      omega

/-- Key 30 (offset 30) against key 32 (offset 32) of the first word, with the
shift instruction of x86-64: the former is written and read back, the latter
is not. -/
theorem bitmap_example :
    GET64 (SET64 shlMasked (fun _ => 0) 30 1) 30 = 1 ∧
    GET64 (SET64 shlMasked (fun _ => 0) 30 1) 32 = 0 ∧
    GET64 (SET64 shlMasked (fun _ => 0) 32 1) 32 = 0 := by
  decide

/-! ## The key array and the keys of the upper half-words -/

/-- C2 (failing input). Key-shadow soundness fails for the keys whose offset
within their word of the key array is 31 or more.  The received event
`{KEY,105,1}`, which no rule names, is written unchanged, and
`SET(rbits[EV_KEY], 105, 1)` sets bit 73 (offset 41, an `int` shifted by 41):
the bit of key 105 is clear although the most recent KEY event written on 105
has the value 1, and the bit of key 73 is set although no event on key 73 has
been written.  The received event `{KEY,31,1}` sets the bits 31 to 63: the bit
of key 40 is set although no event on key 40 has been written. -/
theorem C2_key_shadow_unsound :
    (run cfgNone devPlain (initState cfgNone) [⟨0, EV_KEY, 105, 1⟩]).2 = [⟨0, EV_KEY, 105, 1⟩] ∧
    lastKey 105 (run cfgNone devPlain (initState cfgNone) [⟨0, EV_KEY, 105, 1⟩]).2 = some 1 ∧
    GET (run cfgNone devPlain (initState cfgNone) [⟨0, EV_KEY, 105, 1⟩]).1.shadow 105 = false ∧
    lastKey 73 (run cfgNone devPlain (initState cfgNone) [⟨0, EV_KEY, 105, 1⟩]).2 = none ∧
    GET (run cfgNone devPlain (initState cfgNone) [⟨0, EV_KEY, 105, 1⟩]).1.shadow 73 = true ∧
    (run cfgNone devPlain (initState cfgNone) [⟨0, EV_KEY, 31, 1⟩]).2 = [⟨0, EV_KEY, 31, 1⟩] ∧
    GET (run cfgNone devPlain (initState cfgNone) [⟨0, EV_KEY, 31, 1⟩]).1.shadow 40 = true := by
  decide

/-- A key of a low half-word is recorded as the claim says: after
`{KEY,30,1}`, `{KEY,30,0}`, `{KEY,29,1}` key 29 is held and key 30 is not. -/
theorem key_shadow_example :
    GET (run cfgNone devPlain (initState cfgNone)
      [⟨0, EV_KEY, 30, 1⟩, ⟨1, EV_KEY, 30, 0⟩, ⟨2, EV_KEY, 29, 1⟩]).1.shadow 29 = true ∧
    GET (run cfgNone devPlain (initState cfgNone)
      [⟨0, EV_KEY, 30, 1⟩, ⟨1, EV_KEY, 30, 0⟩, ⟨2, EV_KEY, 29, 1⟩]).1.shadow 30 = false := by
  decide

/-- C3 (failing input). Rule `--rel-key 0:105,106`, received `{REL,0,3}` then
`{REL,0,-2}`: the loop writes the press of key 106 and then the press of key
105, and no event on key 106 in between.  The press of 106 is recorded in bit
74 of the key array, so the test `GET(rbits[EV_KEY], 106)` made before the
press of 105 finds the key not held. -/
theorem C3_press_without_release :
    (run cfgRelKey devPlain (initState cfgRelKey) [⟨0, EV_REL, 0, 3⟩, ⟨1, EV_REL, 0, -2⟩]).2 =
      [⟨0, EV_KEY, 106, 1⟩, ⟨1, EV_KEY, 105, 1⟩] ∧
    GET (run cfgRelKey devPlain (initState cfgRelKey) [⟨0, EV_REL, 0, 3⟩]).1.shadow 106 = false ∧
    GET (run cfgRelKey devPlain (initState cfgRelKey) [⟨0, EV_REL, 0, 3⟩]).1.shadow 74 = true := by
  decide

/-- With the keys 5 and 6 the same input gives the release of key 6 between the
two presses. -/
theorem release_before_press_example :
    (run cfgRelKeyLow devPlain (initState cfgRelKeyLow)
        [⟨0, EV_REL, 0, 3⟩, ⟨1, EV_REL, 0, -2⟩]).2 =
      [⟨0, EV_KEY, 6, 1⟩, ⟨1, EV_KEY, 6, 0⟩, ⟨1, EV_KEY, 5, 1⟩] := by
  decide

/-- C15 (failing input). Rule `--rel-key 0:105,106`, cleared key array,
received `{REL,0,3}`, `{REL,0,-2}`, `{REL,0,0}`: the loop writes `{KEY,106,1}`,
`{KEY,105,1}`, `{KEY,0,0}`.  The presses of 106 and 105 are recorded in the
bits 74 and 73 of the key array, so no release is ever written; and the final
`if (j) SND;` writes the event left in `ev` also when `j` is 0.  With the
keys 5 and 6, which the key array records, the same input gives the releases,
and the release of key 5 twice: once by the arm of a value of zero and once
more by the final statement. -/
theorem C15_rk_step_fails :
    (run cfgRelKey devPlain (initState cfgRelKey)
        [⟨0, EV_REL, 0, 3⟩, ⟨1, EV_REL, 0, -2⟩, ⟨2, EV_REL, 0, 0⟩]).2 =
      [⟨0, EV_KEY, 106, 1⟩, ⟨1, EV_KEY, 105, 1⟩, ⟨2, EV_KEY, 0, 0⟩] ∧
    (run cfgRelKeyLow devPlain (initState cfgRelKeyLow)
        [⟨0, EV_REL, 0, 3⟩, ⟨1, EV_REL, 0, -2⟩, ⟨2, EV_REL, 0, 0⟩]).2 =
      [⟨0, EV_KEY, 6, 1⟩, ⟨1, EV_KEY, 6, 0⟩, ⟨1, EV_KEY, 5, 1⟩, ⟨2, EV_KEY, 5, 0⟩,
       ⟨2, EV_KEY, 5, 0⟩] := by
  decide

/-- C16 (failing input). Rule `--abs-key 0:105,106`, axis 0 declared
[-100, 100], cleared key array, received -80, 0, 80, -80: the loop writes
`{KEY,105,1}`, `{KEY,0,0}`, `{KEY,106,1}`, `{KEY,105,1}`.  The presses are
recorded in the bits 73 and 74 of the key array, so no release is written; in
the middle band the final `if (j) SND;` writes the event left in `ev`, here
`{KEY,0,0}`.  With the keys 5 and 6 and the values -80, 0, 0 the release of
key 5 is written twice for the first 0, and `{KEY,0,0}` for the second, when
no key is held. -/
theorem C16_ak_bands_fail :
    (run cfgAbsKey devHundred (initState cfgAbsKey)
        [⟨0, EV_ABS, 0, -80⟩, ⟨1, EV_ABS, 0, 0⟩, ⟨2, EV_ABS, 0, 80⟩, ⟨3, EV_ABS, 0, -80⟩]).2 =
      [⟨0, EV_KEY, 105, 1⟩, ⟨1, EV_KEY, 0, 0⟩, ⟨2, EV_KEY, 106, 1⟩, ⟨3, EV_KEY, 105, 1⟩] ∧
    (run cfgAbsKeyLow devHundred (initState cfgAbsKeyLow)
        [⟨0, EV_ABS, 0, -80⟩, ⟨1, EV_ABS, 0, 0⟩, ⟨2, EV_ABS, 0, 0⟩]).2 =
      [⟨0, EV_KEY, 5, 1⟩, ⟨1, EV_KEY, 5, 0⟩, ⟨1, EV_KEY, 5, 0⟩, ⟨2, EV_KEY, 0, 0⟩] := by
  decide

/-! ## Capability synthesis and the codes of the upper half-words -/

/-- C8 (failing input). Rule `--key-key 30:48` on a device with key 30 only:
`SET(obits[EV_KEY], 48, 1)` sets bit 16, so key 16 is in the output bitmap
although no rule names it as a destination and the device does not advertise
it, and the destination 48 is not.  Rule `--key-rel 105,106:0` on a device
with the keys 105 and 106 only: the consumed bits set are 73 and 74, which are
the source of no rule, while the sources 105 and 106 are not consumed and are
passed through to the output bitmap. -/
theorem C8_capability_subsetting_fails :
    (synth cfgKK ibitsKey30 absZero).map
        (fun c => (c.obits EV_KEY 16, c.obits EV_KEY 48, c.rbits EV_KEY 30)) =
      some (true, false, true) ∧
    GET (ibitsKey30 EV_KEY) 16 = false ∧
    (synth cfgKeyRel ibitsArrows absZero).map
        (fun c => (c.rbits EV_KEY 73, c.rbits EV_KEY 74, c.rbits EV_KEY 105,
          c.rbits EV_KEY 106, c.obits EV_KEY 105, c.obits EV_KEY 106, c.obits EV_REL 0)) =
      some (true, true, false, false, true, true, true) := by
  decide

end Evmapd
